import Mathlib

/-!
# Display subsystem of picocalc_lua: shallow embedding and verified properties

The definitions below embed `src/drivers/lcd.h` and `src/drivers/lcd.c`.

* C `int` values are mathematical integers together with an explicit two's-complement
  wrap (`wrapInt`) at every `+`, `-`, `*` on `int`; `uint32_t` values are naturals below `2^32`.
* Hardware output (PIO writes, the command/data and chip-select lines, waits) is a list of
  `HwEvent` in program order.
* Stores into the RAM framebuffer are a list of `Store` in program order; the framebuffer
  itself is a map from cell index to byte.
* The inter-core FIFO is a list of 32-bit words, oldest word first.
-/

namespace PicoLcd

/-! ## Machine integers -/

/-- Two's-complement wrap of an integer into the range of a 32-bit `int`. -/
def wrapInt (z : Int) : Int := (z + 2147483648) % 4294967296 - 2147483648

/-- Conversion of an `int` to `uint32_t` (also `size_t` on the 32-bit target). -/
def toU32 (z : Int) : Nat := (z % 4294967296).toNat

/-- Conversion of a `uint32_t` to `int`. -/
def ofU32 (w : Nat) : Int := wrapInt (w : Int)

/-- Conversion of an `int` to `uint8_t`. -/
def toU8 (z : Int) : Nat := (z % 256).toNat

/-- The values a C `int` can hold. -/
def IsInt (z : Int) : Prop := -2147483648 ≤ z ∧ z < 2147483648

/-- Addition on `int`. -/
def iadd (a b : Int) : Int := wrapInt (a + b)

/-- Subtraction on `int`. -/
def isub (a b : Int) : Int := wrapInt (a - b)

/-- Multiplication on `int`. -/
def imul (a b : Int) : Int := wrapInt (a * b)

/-! ## Constants of `lcd.h` -/

def LCD_WIDTH : Int := 320

def LCD_HEIGHT : Int := 320

def MEM_HEIGHT : Int := 480

def LCD_BUFFERMODE_DIRECT : Int := 0

def LCD_BUFFERMODE_PSRAM : Int := 1

def LCD_BUFFERMODE_RAM : Int := 2

def LCD_ALIGN_LEFT : Nat := 0

def LCD_ALIGN_CENTER : Nat := 1

def LCD_ALIGN_RIGHT : Nat := 2

/-! ## Colour macros of `lcd.h` -/

/-- Macro `RGB(r,g,b)`:
`((u16)(((r) >> 3) << 11 | ((g) >> 2) << 5 | (b >> 3)))`. -/
def RGB (r g b : Nat) : Nat :=
  (((r >>> 3) <<< 11) ||| ((g >>> 2) <<< 5) ||| (b >>> 3)) % 65536

/-- Macro `RED(a)`: `((((a) & 0xf800) >> 11) << 3)`. -/
def RED (a : Nat) : Nat := ((a &&& 0xf800) >>> 11) <<< 3

/-- Macro `GREEN(a)`: `((((a) & 0x07e0) >> 5) << 2)`. -/
def GREEN (a : Nat) : Nat := ((a &&& 0x07e0) >>> 5) <<< 2

/-- Macro `BLUE(a)`: `(((a) & 0x001f) << 3)`. -/
def BLUE (a : Nat) : Nat := (a &&& 0x001f) <<< 3

/-! ## Controller output -/

/-- One observable action of the owner core on the display hardware. -/
inductive HwEvent where
  | waitIdle : HwEvent
  | setDcCs (dc cs : Bool) : HwEvent
  | put (byte : Nat) : HwEvent
  | busyWaitUs (us : Nat) : HwEvent
  | sleepMs (ms : Nat) : HwEvent
  deriving DecidableEq, Repr

/-- Function `lcd_write_cmd(cmd, count)`: the opcode `cmd[0]` with the command/data line low,
then `count - 1` parameter bytes with it high. -/
def lcd_write_cmd (cmd : List Nat) (count : Nat) : List HwEvent :=
  [HwEvent.waitIdle, HwEvent.setDcCs false false, HwEvent.put (cmd.getD 0 0)]
  ++ (if count ≥ 2 then
        [HwEvent.waitIdle, HwEvent.setDcCs true false]
        ++ (List.range (count - 1)).map (fun i => HwEvent.put (cmd.getD (i + 1) 0))
      else [])
  ++ [HwEvent.waitIdle, HwEvent.setDcCs false true]

/-- Function `lcd_set_region(x1, y1, x2, y2)`. -/
def lcd_set_region (x1 y1 x2 y2 : Int) : List HwEvent :=
  [HwEvent.setDcCs false false]
  ++ lcd_write_cmd [0x2A, toU8 (x1 >>> 8), toU8 x1, toU8 (x2 >>> 8), toU8 x2] 5
  ++ lcd_write_cmd [0x2B, toU8 (y1 >>> 8), toU8 y1, toU8 (y2 >>> 8), toU8 y2] 5
  ++ lcd_write_cmd [0x2c] 1
  ++ [HwEvent.busyWaitUs 1, HwEvent.setDcCs true false]

/-! ## Coordinate normalisation -/

/-- Function `normalize_coords(&x, &y, &width, &height, scrheight)`; the result is the new
`(x, y, width, height)`.  `%` on `int` truncates toward zero (`Int.tmod`). -/
def normalize_coords (x y width height scrheight : Int) : Int × Int × Int × Int :=
  let y := Int.tmod y scrheight
  let x := if x < 0 then 0 else (if x ≥ LCD_WIDTH then LCD_WIDTH else x)
  let width := if width < 0 then 0
    else (if iadd x width ≥ LCD_WIDTH then isub LCD_WIDTH x else width)
  let height := if height < 0 then 0
    else (if iadd y height ≥ scrheight then isub scrheight y else height)
  (x, y, width, height)

/-! ## Direct backend -/

/-- The pixel loop of `lcd_direct_fill`: `n` times the high byte, then the low byte. -/
def direct_fill_loop (color : Nat) : Nat → List HwEvent
  | 0 => []
  | n + 1 => HwEvent.put ((color >>> 8) % 256) :: HwEvent.put (color &&& 0xff)
      :: direct_fill_loop color n

/-- Function `lcd_direct_fill(color, x, y, width, height)`. -/
def lcd_direct_fill (color : Nat) (x y width height : Int) : List HwEvent :=
  match normalize_coords x y width height MEM_HEIGHT with
  | (x, y, width, height) =>
    lcd_set_region x y (isub (iadd x width) 1) (isub (iadd y height) 1)
    ++ direct_fill_loop color (toU32 (imul width height))
    ++ [HwEvent.waitIdle, HwEvent.setDcCs false true]

/-! ## RAM backend -/

/-- The RAM framebuffer `uint8_t* framebuffer`: cell index to stored byte. -/
abbrev Framebuffer := Nat → Nat

/-- One store `framebuffer[index] = value`. -/
structure Store where
  index : Nat
  value : Nat
  deriving DecidableEq, Repr

/-- Effect of a sequence of stores, in program order, on the framebuffer. -/
def applyStores (fb : Framebuffer) : List Store → Framebuffer
  | [] => fb
  | s :: rest => applyStores (fun k => if k = s.index then s.value else fb k) rest

/-- The inner loop of `lcd_ram_draw`,
`for (uint32_t ix = x; ix < (x + width); ix++) framebuffer[iy+ix] = lcd_to8[*pixels++];`
with `n` the number of iterations left and `p` the offset of `pixels` into the caller's
buffer. -/
def ram_draw_row (lcd_to8 : Nat → Nat) (pixels : Nat → Nat) (iy : Nat) :
    Nat → Nat → Nat → List Store
  | 0, _, _ => []
  | n + 1, ix, p =>
    ⟨(iy + ix) % 4294967296, lcd_to8 (pixels p)⟩ :: ram_draw_row lcd_to8 pixels iy n (ix + 1) (p + 1)

/-- The outer loop of `lcd_ram_draw`,
`for (uint32_t iy = y * LCD_WIDTH; iy < (y + height) * LCD_WIDTH; iy += LCD_WIDTH)`,
with `x`, `xend`, `yend` the loop bounds as `uint32_t`.  The result is `none` when the fuel
runs out before the loop ends. -/
def ram_draw_rows (lcd_to8 : Nat → Nat) (pixels : Nat → Nat) (x xend yend : Nat) :
    Nat → Nat → Nat → Option (List Store)
  | 0, _, _ => none
  | fuel + 1, iy, p =>
    if iy < yend then
      (ram_draw_rows lcd_to8 pixels x xend yend fuel ((iy + 320) % 4294967296)
          (p + (xend - x))).map
        (fun rest => ram_draw_row lcd_to8 pixels iy (xend - x) x p ++ rest)
    else some []

/-- Function `lcd_ram_draw(pixels, x, y, width, height)`: the stores it performs. -/
def lcd_ram_draw (fuel : Nat) (lcd_to8 : Nat → Nat) (pixels : Nat → Nat)
    (x y width height : Int) : Option (List Store) :=
  match normalize_coords x y width height LCD_HEIGHT with
  | (x, y, width, height) =>
    ram_draw_rows lcd_to8 pixels (toU32 x) (toU32 (iadd x width))
      (toU32 (imul (iadd y height) LCD_WIDTH)) fuel (toU32 (imul y LCD_WIDTH)) 0

/-- The loop of `lcd_ram_fill`,
`for (...iy...) memset(framebuffer + x + iy, lcd_to8[color], width);`. -/
def ram_fill_rows (value : Nat) (x width yend : Nat) : Nat → Nat → Option (List Store)
  | 0, _ => none
  | fuel + 1, iy =>
    if iy < yend then
      (ram_fill_rows value x width yend fuel ((iy + 320) % 4294967296)).map
        (fun rest => (List.range width).map (fun k => Store.mk (x + iy + k) value) ++ rest)
    else some []

/-- Function `lcd_ram_fill(color, x, y, width, height)`: the stores it performs. -/
def lcd_ram_fill (fuel : Nat) (lcd_to8 : Nat → Nat) (color : Nat)
    (x y width height : Int) : Option (List Store) :=
  match normalize_coords x y width height LCD_HEIGHT with
  | (x, y, width, height) =>
    ram_fill_rows (lcd_to8 color) (toU32 x) (toU32 width)
      (toU32 (imul (iadd y height) LCD_WIDTH)) fuel (toU32 (imul y LCD_WIDTH))

/-! ## Backend selector -/

/-- The functions `lcd_draw_ptr` can point to. -/
inductive DrawFn where
  | lcd_direct_draw | lcd_psram_draw | lcd_ram_draw
  deriving DecidableEq, Repr

/-- The functions `lcd_fill_ptr` can point to. -/
inductive FillFn where
  | lcd_direct_fill | lcd_psram_fill | lcd_ram_fill
  deriving DecidableEq, Repr

/-- The functions `lcd_point_ptr` can point to. -/
inductive PointFn where
  | lcd_direct_point | lcd_psram_point | lcd_ram_point
  deriving DecidableEq, Repr

/-- The functions `lcd_clear_ptr` can point to. -/
inductive ClearFn where
  | lcd_direct_clear | lcd_psram_clear | lcd_ram_clear
  deriving DecidableEq, Repr

/-- The selector's globals; `none` is the null pointer. -/
structure LcdState where
  lcd_draw_ptr : Option DrawFn
  lcd_fill_ptr : Option FillFn
  lcd_point_ptr : Option PointFn
  lcd_clear_ptr : Option ClearFn
  framebuffer : Option Framebuffer
  framebuffer_mode : Int

/-- Function `lcd_buffer_enable_local(mode)`.  `malloc` is the outcome
`malloc(LCD_WIDTH * LCD_HEIGHT)` would have: `none` on failure, the fresh block otherwise. -/
def lcd_buffer_enable_local (mode : Int) (malloc : Option Framebuffer) (s : LcdState) :
    Bool × LcdState :=
  let s : LcdState :=
    if mode ≠ LCD_BUFFERMODE_RAM then
      (if s.framebuffer.isSome then { s with framebuffer := none } else s)
    else s
  if mode = LCD_BUFFERMODE_DIRECT then
    (true, { s with
      lcd_draw_ptr := some DrawFn.lcd_direct_draw
      lcd_fill_ptr := some FillFn.lcd_direct_fill
      lcd_point_ptr := some PointFn.lcd_direct_point
      lcd_clear_ptr := some ClearFn.lcd_direct_clear
      framebuffer_mode := mode })
  else if mode = LCD_BUFFERMODE_PSRAM then
    (true, { s with
      lcd_draw_ptr := some DrawFn.lcd_psram_draw
      lcd_fill_ptr := some FillFn.lcd_psram_fill
      lcd_point_ptr := some PointFn.lcd_psram_point
      lcd_clear_ptr := some ClearFn.lcd_psram_clear
      framebuffer_mode := mode })
  else if mode = LCD_BUFFERMODE_RAM then
    if s.framebuffer.isNone then
      let s : LcdState := { s with framebuffer := malloc }
      if s.framebuffer.isSome then
        (true, { s with
          lcd_draw_ptr := some DrawFn.lcd_ram_draw
          lcd_fill_ptr := some FillFn.lcd_ram_fill
          lcd_point_ptr := some PointFn.lcd_ram_point
          lcd_clear_ptr := some ClearFn.lcd_ram_clear
          framebuffer_mode := mode })
      else (false, s)
    else (false, s)
  else (false, s)

/-- The globals as the C runtime zero-initialises them before `lcd_init`. -/
def lcd_state_zero : LcdState :=
  { lcd_draw_ptr := none, lcd_fill_ptr := none, lcd_point_ptr := none, lcd_clear_ptr := none,
    framebuffer := none, framebuffer_mode := 0 }

/-- The selector's globals after `lcd_init`, which runs `lcd_buffer_enable(0)` on core 0. -/
def lcd_init_state : LcdState := (lcd_buffer_enable_local 0 none lcd_state_zero).2

/-- The states the selector can be in after `lcd_init`: mode switches with a mode among
Direct, PSRAM, RAM and any allocation outcome, and display operations, which change at most
the contents of an allocated framebuffer. -/
inductive Reachable : LcdState → Prop where
  | init : Reachable lcd_init_state
  | enable (s : LcdState) (mode : Int) (malloc : Option Framebuffer) :
      Reachable s →
      (mode = LCD_BUFFERMODE_DIRECT ∨ mode = LCD_BUFFERMODE_PSRAM ∨ mode = LCD_BUFFERMODE_RAM) →
      Reachable (lcd_buffer_enable_local mode malloc s).2
  | stores (s : LcdState) (fb : Framebuffer) (w : List Store) :
      Reachable s → s.framebuffer = some fb →
      Reachable { s with framebuffer := some (applyStores fb w) }

/-- The four operation pointers are those of the Direct backend. -/
def LcdState.isDirect (s : LcdState) : Prop :=
  s.lcd_draw_ptr = some DrawFn.lcd_direct_draw ∧ s.lcd_fill_ptr = some FillFn.lcd_direct_fill ∧
  s.lcd_point_ptr = some PointFn.lcd_direct_point ∧
  s.lcd_clear_ptr = some ClearFn.lcd_direct_clear

/-- The four operation pointers are those of the PSRAM backend. -/
def LcdState.isPsram (s : LcdState) : Prop :=
  s.lcd_draw_ptr = some DrawFn.lcd_psram_draw ∧ s.lcd_fill_ptr = some FillFn.lcd_psram_fill ∧
  s.lcd_point_ptr = some PointFn.lcd_psram_point ∧
  s.lcd_clear_ptr = some ClearFn.lcd_psram_clear

/-- The four operation pointers are those of the RAM backend. -/
def LcdState.isRam (s : LcdState) : Prop :=
  s.lcd_draw_ptr = some DrawFn.lcd_ram_draw ∧ s.lcd_fill_ptr = some FillFn.lcd_ram_fill ∧
  s.lcd_point_ptr = some PointFn.lcd_ram_point ∧
  s.lcd_clear_ptr = some ClearFn.lcd_ram_clear

/-- The four operation pointers are those of the backend named by `mode`. -/
def LcdState.pointersOf (s : LcdState) (mode : Int) : Prop :=
  (mode = LCD_BUFFERMODE_DIRECT ∧ s.isDirect) ∨ (mode = LCD_BUFFERMODE_PSRAM ∧ s.isPsram) ∨
  (mode = LCD_BUFFERMODE_RAM ∧ s.isRam)

/-- The four operation pointers of two states agree. -/
def LcdState.samePointers (s t : LcdState) : Prop :=
  s.lcd_draw_ptr = t.lcd_draw_ptr ∧ s.lcd_fill_ptr = t.lcd_fill_ptr ∧
  s.lcd_point_ptr = t.lcd_point_ptr ∧ s.lcd_clear_ptr = t.lcd_clear_ptr

/-! ## Command channel -/

/-- The command tags of `multicore.h` that `lcd.h` and `lcd_fifo_receiver` use.  The header is
not among the sources at hand, so their values are a parameter. -/
structure FifoTags where
  FIFO_LCD_POINT : Nat
  FIFO_LCD_DRAW : Nat
  FIFO_LCD_FILL : Nat
  FIFO_LCD_CLEAR : Nat
  FIFO_LCD_BUFEN : Nat
  FIFO_LCD_BUFBLIT : Nat
  FIFO_LCD_CHAR : Nat
  FIFO_LCD_TEXT : Nat
  FIFO_LCD_SCROLL : Nat

/-- The nine tags are pairwise distinct, as the `case` labels of one `switch` are. -/
def FifoTags.Distinct (T : FifoTags) : Prop :=
  [T.FIFO_LCD_POINT, T.FIFO_LCD_DRAW, T.FIFO_LCD_FILL, T.FIFO_LCD_CLEAR, T.FIFO_LCD_BUFEN,
    T.FIFO_LCD_BUFBLIT, T.FIFO_LCD_CHAR, T.FIFO_LCD_TEXT, T.FIFO_LCD_SCROLL].Nodup

/-- A display operation with its arguments: `u16` colours, `int` coordinates, the address of a
pixel buffer, a `char` code, the bytes of a text with its `size_t` length, a `u8` alignment. -/
inductive LcdOp where
  | point (color : Nat) (x y : Int) : LcdOp
  | draw (pixels : Nat) (x y width height : Int) : LcdOp
  | fill (color : Nat) (x y width height : Int) : LcdOp
  | clear : LcdOp
  | buffer_enable (mode : Int) : LcdOp
  | buffer_blit : LcdOp
  | draw_char (x y : Int) (fg bg : Nat) (c : Nat) : LcdOp
  | draw_text (x y : Int) (fg bg : Nat) (text : List Nat) (len : Nat) (align : Nat) : LcdOp
  | scroll (lines : Int) : LcdOp
  deriving DecidableEq, Repr

/-- Every argument is a value of its C type. -/
def LcdOp.WellTyped : LcdOp → Prop
  | LcdOp.point color x y => color < 65536 ∧ IsInt x ∧ IsInt y
  | LcdOp.draw pixels x y width height =>
    pixels < 4294967296 ∧ IsInt x ∧ IsInt y ∧ IsInt width ∧ IsInt height
  | LcdOp.fill color x y width height =>
    color < 65536 ∧ IsInt x ∧ IsInt y ∧ IsInt width ∧ IsInt height
  | LcdOp.clear => True
  | LcdOp.buffer_enable mode => IsInt mode
  | LcdOp.buffer_blit => True
  | LcdOp.draw_char x y fg bg c => IsInt x ∧ IsInt y ∧ fg < 65536 ∧ bg < 65536 ∧ c < 256
  | LcdOp.draw_text x y fg bg text len align =>
    IsInt x ∧ IsInt y ∧ fg < 65536 ∧ bg < 65536 ∧ (∀ b ∈ text, b < 256) ∧
    len = text.length ∧ len < 4294967296 ∧ align < 256
  | LcdOp.scroll lines => IsInt lines

/-- Modelled from the spec: `multicore_fifo_push_string(text, len)` is declared in
`multicore.h`, which is not among the sources.  The spec has strings "sent as
length-prefixed byte sequences over the same channel": the length word, then one word for
each of the `len` bytes. -/
def multicore_fifo_push_string (text : List Nat) (len : Nat) : List Nat :=
  len :: text.take len

/-- Modelled from the spec: `multicore_fifo_pop_string(&text)`, the receiving side of
`multicore_fifo_push_string`: it pops the length word and that many bytes and returns the
text, its length and the words left; `none` when the words are not there to pop. -/
def multicore_fifo_pop_string (fifo : List Nat) : Option (List Nat × Nat × List Nat) :=
  match fifo with
  | [] => none
  | len :: rest =>
    if len ≤ rest.length then some ((rest.take len).map (fun b => b % 256), len, rest.drop len)
    else none

/-- Function `multicore_fifo_pop_blocking_inline()` on a FIFO held as a list: the oldest word
and the words left; `none` when there is no word to pop. -/
def multicore_fifo_pop_blocking_inline (fifo : List Nat) : Option (Nat × List Nat) :=
  match fifo with
  | [] => none
  | w :: rest => some (w, rest)

/-- The words the secondary core pushes for one operation: the `else` branches of
`lcd_point`, `lcd_draw`, `lcd_fill`, `lcd_clear`, `lcd_buffer_enable`, `lcd_buffer_blit`,
`lcd_draw_char`, `lcd_draw_text` and `lcd_scroll` in `lcd.h`. -/
def lcd_remote (T : FifoTags) : LcdOp → List Nat
  | LcdOp.point color x y => [T.FIFO_LCD_POINT, color, toU32 x, toU32 y]
  | LcdOp.draw pixels x y width height =>
    [T.FIFO_LCD_DRAW, pixels, toU32 x, toU32 y, toU32 width, toU32 height]
  | LcdOp.fill color x y width height =>
    [T.FIFO_LCD_FILL, color, toU32 x, toU32 y, toU32 width, toU32 height]
  | LcdOp.clear => [T.FIFO_LCD_CLEAR]
  | LcdOp.buffer_enable mode => [T.FIFO_LCD_BUFEN, toU32 mode]
  | LcdOp.buffer_blit => [T.FIFO_LCD_BUFBLIT]
  | LcdOp.draw_char x y fg bg c => [T.FIFO_LCD_CHAR, toU32 x, toU32 y, fg, bg, c]
  | LcdOp.draw_text x y fg bg text len align =>
    [T.FIFO_LCD_TEXT, toU32 x, toU32 y, fg, bg, align] ++ multicore_fifo_push_string text len
  | LcdOp.scroll lines => [T.FIFO_LCD_SCROLL, toU32 lines]

/-- What one call of `lcd_fifo_receiver` did: its return value, the local call it made, the
FIFO after its pops, and the words it pushed back to the other core. -/
structure Received where
  handled : Int
  call : Option LcdOp
  fifo : List Nat
  reply : List Nat
  deriving DecidableEq, Repr

/-- Function `lcd_fifo_receiver(message)`.  `enable mode` is the value the local call
`lcd_buffer_enable_local(mode)` returns in the current display state. -/
def lcd_fifo_receiver (T : FifoTags) (enable : Int → Bool) (message : Nat)
    (fifo : List Nat) : Option Received :=
  if message = T.FIFO_LCD_POINT then do
    let (fg, fifo) ← multicore_fifo_pop_blocking_inline fifo
    let (x, fifo) ← multicore_fifo_pop_blocking_inline fifo
    let (y, fifo) ← multicore_fifo_pop_blocking_inline fifo
    pure ⟨1, some (LcdOp.point (fg % 65536) (ofU32 x) (ofU32 y)), fifo, []⟩
  else if message = T.FIFO_LCD_DRAW then do
    let (fg, fifo) ← multicore_fifo_pop_blocking_inline fifo
    let (x, fifo) ← multicore_fifo_pop_blocking_inline fifo
    let (y, fifo) ← multicore_fifo_pop_blocking_inline fifo
    let (width, fifo) ← multicore_fifo_pop_blocking_inline fifo
    let (height, fifo) ← multicore_fifo_pop_blocking_inline fifo
    pure ⟨1, some (LcdOp.draw fg (ofU32 x) (ofU32 y) (ofU32 width) (ofU32 height)), fifo, []⟩
  else if message = T.FIFO_LCD_FILL then do
    let (fg, fifo) ← multicore_fifo_pop_blocking_inline fifo
    let (x, fifo) ← multicore_fifo_pop_blocking_inline fifo
    let (y, fifo) ← multicore_fifo_pop_blocking_inline fifo
    let (width, fifo) ← multicore_fifo_pop_blocking_inline fifo
    let (height, fifo) ← multicore_fifo_pop_blocking_inline fifo
    pure ⟨1, some (LcdOp.fill (fg % 65536) (ofU32 x) (ofU32 y) (ofU32 width) (ofU32 height)),
      fifo, []⟩
  else if message = T.FIFO_LCD_CLEAR then
    pure ⟨1, some LcdOp.clear, fifo, []⟩
  else if message = T.FIFO_LCD_BUFEN then do
    let (x, fifo) ← multicore_fifo_pop_blocking_inline fifo
    pure ⟨1, some (LcdOp.buffer_enable (ofU32 x)), fifo,
      [if enable (ofU32 x) then 1 else 0]⟩
  else if message = T.FIFO_LCD_BUFBLIT then
    pure ⟨1, some LcdOp.buffer_blit, fifo, []⟩
  else if message = T.FIFO_LCD_CHAR then do
    let (x, fifo) ← multicore_fifo_pop_blocking_inline fifo
    let (y, fifo) ← multicore_fifo_pop_blocking_inline fifo
    let (fg, fifo) ← multicore_fifo_pop_blocking_inline fifo
    let (bg, fifo) ← multicore_fifo_pop_blocking_inline fifo
    let (c, fifo) ← multicore_fifo_pop_blocking_inline fifo
    pure ⟨1, some (LcdOp.draw_char (ofU32 x) (ofU32 y) (fg % 65536) (bg % 65536) (c % 256)),
      fifo, []⟩
  else if message = T.FIFO_LCD_TEXT then do
    let (x, fifo) ← multicore_fifo_pop_blocking_inline fifo
    let (y, fifo) ← multicore_fifo_pop_blocking_inline fifo
    let (fg, fifo) ← multicore_fifo_pop_blocking_inline fifo
    let (bg, fifo) ← multicore_fifo_pop_blocking_inline fifo
    let (c, fifo) ← multicore_fifo_pop_blocking_inline fifo
    let (text, width, fifo) ← multicore_fifo_pop_string fifo
    pure ⟨1, some (LcdOp.draw_text (ofU32 x) (ofU32 y) (fg % 65536) (bg % 65536) text width
      (c % 256)), fifo, []⟩
  else if message = T.FIFO_LCD_SCROLL then do
    let (height, fifo) ← multicore_fifo_pop_blocking_inline fifo
    pure ⟨1, some (LcdOp.scroll (ofU32 height)), fifo, []⟩
  else
    pure ⟨0, none, fifo, []⟩

/-- One poll of the owner core: pop one tag word and hand it to `lcd_fifo_receiver`. -/
def owner_poll (T : FifoTags) (enable : Int → Bool) (fifo : List Nat) : Option Received :=
  match fifo with
  | [] => none
  | message :: fifo => lcd_fifo_receiver T enable message fifo

/-- The owner core polling until the FIFO is empty.  `log` is the list of local calls made so
far, `reply` the words pushed back so far; `enable log mode` is the value
`lcd_buffer_enable_local(mode)` returns after the calls in `log`.  The result is `none` when
the fuel runs out or a pop finds no word. -/
def owner_drain (T : FifoTags) (enable : List LcdOp → Int → Bool) :
    Nat → List Nat → List LcdOp → List Nat → Option (List LcdOp × List Nat × List Nat)
  | _, [], log, reply => some (log, [], reply)
  | 0, _ :: _, _, _ => none
  | fuel + 1, message :: fifo, log, reply =>
    match owner_poll T (enable log) (message :: fifo) with
    | none => none
    | some r => owner_drain T enable fuel r.fifo (log ++ r.call.toList) (reply ++ r.reply)

/-! ## PSRAM backend and the point operations -/

/-- One call `psram_write(&psram_spi, addr, src, count)`: the byte address, the source buffer
read as 16-bit values, and the byte count.  Every such call in `lcd.c` passes an even address
and an even count. -/
structure PsramWrite where
  addr : Nat
  src : Nat → Nat
  count : Nat

/-- The 16-bit cells one `psram_write` stores: cell `addr / 2 + k` receives `src[k]`. -/
def PsramWrite.cells (w : PsramWrite) : List Store :=
  (List.range (w.count / 2)).map (fun k => Store.mk (w.addr / 2 + k) (w.src k))

/-- The PSRAM frame: 16-bit cell index (byte address divided by two) to stored value. -/
abbrev Psram := Nat → Nat

/-- Effect of a sequence of `psram_write` calls, in program order, on the PSRAM frame. -/
def applyPsram (mem : Psram) (ws : List PsramWrite) : Psram :=
  applyStores mem (ws.flatMap PsramWrite.cells)

/-- The inner loop of `lcd_psram_draw`,
`for (uint32_t ix = x; ix < (x + width); ix+=10) { psram_write(..., (iy + ix)<<1, pixels,
(remain < 10 ? remain<<1 : 20)); pixels += (remain < 10 ? remain : 10); remain -= 10; }`,
with `p` the offset of `pixels` into the caller's buffer.  The result is the calls made and the
final offset; `none` when the fuel runs out before the loop ends. -/
def psram_draw_row (pixels : Nat → Nat) (iy xend : Nat) :
    Nat → Nat → Int → Int → Option (List PsramWrite × Int)
  | 0, _, _, _ => none
  | fuel + 1, ix, remain, p =>
    if ix < xend then
      (psram_draw_row pixels iy xend fuel ((ix + 10) % 4294967296) (isub remain 10)
          (p + (if remain < 10 then remain else 10))).map
        (fun r =>
          (PsramWrite.mk ((((iy + ix) % 4294967296) * 2) % 4294967296)
              (fun k => pixels (p + k).toNat)
              (toU32 (if remain < 10 then imul remain 2 else 20)) :: r.1, r.2))
    else some ([], p)

/-- The outer loop of `lcd_psram_draw`,
`for (uint32_t iy = y * LCD_WIDTH; iy < (y + height) * LCD_WIDTH; iy += LCD_WIDTH)`. -/
def psram_draw_rows (pixels : Nat → Nat) (x xend yend : Nat) (width : Int) (fuel0 : Nat) :
    Nat → Nat → Int → Option (List PsramWrite)
  | 0, _, _ => none
  | fuel + 1, iy, p =>
    if iy < yend then
      match psram_draw_row pixels iy xend fuel0 x width p with
      | none => none
      | some (row, p1) =>
        (psram_draw_rows pixels x xend yend width fuel0 fuel ((iy + 320) % 4294967296) p1).map
          (fun rest => row ++ rest)
    else some []

/-- Function `lcd_psram_draw(pixels, x, y, width, height)`: the `psram_write` calls it makes. -/
def lcd_psram_draw (fuel : Nat) (pixels : Nat → Nat) (x y width height : Int) :
    Option (List PsramWrite) :=
  match normalize_coords x y width height LCD_HEIGHT with
  | (x, y, width, height) =>
    psram_draw_rows pixels (toU32 x) (toU32 (iadd x width))
      (toU32 (imul (iadd y height) LCD_WIDTH)) width fuel fuel (toU32 (imul y LCD_WIDTH)) 0

/-- The array `lcd_tmpbuf` after `for (int i = 0; i < 10; i++) lcd_tmpbuf[i] = color;`. -/
def tmpbuf_fill (lcd_tmpbuf : Nat → Nat) (color : Nat) : Nat → Nat :=
  fun k => if k < 10 then color else lcd_tmpbuf k

/-- The inner loop of `lcd_psram_fill`,
`for (uint32_t ix = x; ix < (x + width); ix+=10) { psram_write(..., (iy + ix)<<1, lcd_tmpbuf,
(remain < 10 ? remain<<1 : 20)); remain -= 10; }`. -/
def psram_fill_row (tmp : Nat → Nat) (iy xend : Nat) :
    Nat → Nat → Int → Option (List PsramWrite)
  | 0, _, _ => none
  | fuel + 1, ix, remain =>
    if ix < xend then
      (psram_fill_row tmp iy xend fuel ((ix + 10) % 4294967296) (isub remain 10)).map
        (fun r =>
          PsramWrite.mk ((((iy + ix) % 4294967296) * 2) % 4294967296) tmp
            (toU32 (if remain < 10 then imul remain 2 else 20)) :: r)
    else some []

/-- The outer loop of `lcd_psram_fill`. -/
def psram_fill_rows (tmp : Nat → Nat) (x xend yend : Nat) (width : Int) (fuel0 : Nat) :
    Nat → Nat → Option (List PsramWrite)
  | 0, _ => none
  | fuel + 1, iy =>
    if iy < yend then
      match psram_fill_row tmp iy xend fuel0 x width with
      | none => none
      | some row =>
        (psram_fill_rows tmp x xend yend width fuel0 fuel ((iy + 320) % 4294967296)).map
          (fun rest => row ++ rest)
    else some []

/-- Function `lcd_psram_fill(color, x, y, width, height)`: the `psram_write` calls it makes;
`lcd_tmpbuf` is the prior content of the temporary buffer. -/
def lcd_psram_fill (fuel : Nat) (lcd_tmpbuf : Nat → Nat) (color : Nat)
    (x y width height : Int) : Option (List PsramWrite) :=
  match normalize_coords x y width height LCD_HEIGHT with
  | (x, y, width, height) =>
    psram_fill_rows (tmpbuf_fill lcd_tmpbuf color) (toU32 x) (toU32 (iadd x width))
      (toU32 (imul (iadd y height) LCD_WIDTH)) width fuel fuel (toU32 (imul y LCD_WIDTH))

/-- Function `lcd_psram_point(color, x, y)`.  The library call `psram_write16(spi, addr, v)`
stores the 16-bit value `v` at byte address `addr`, as a two-byte `psram_write` of it does. -/
def lcd_psram_point (color : Nat) (x y : Int) : List PsramWrite :=
  if x ≥ 0 ∧ y ≥ 0 ∧ x < LCD_WIDTH ∧ y < LCD_HEIGHT then
    [PsramWrite.mk (toU32 (imul (iadd x (imul y LCD_WIDTH)) 2)) (fun _ => color) 2]
  else []

/-- Function `lcd_ram_point(color, x, y)`: the stores it performs. -/
def lcd_ram_point (lcd_to8 : Nat → Nat) (color : Nat) (x y : Int) : List Store :=
  if x ≥ 0 ∧ y ≥ 0 ∧ x < LCD_WIDTH ∧ y < LCD_HEIGHT then
    [Store.mk (iadd x (imul y LCD_WIDTH)).toNat (lcd_to8 color)]
  else []

/-- Function `lcd_direct_point(color, x, y)`. -/
def lcd_direct_point (color : Nat) (x y : Int) : List HwEvent :=
  lcd_direct_fill color x y 1 1

/-- What one display operation did: the controller output, the stores into the RAM
framebuffer and the `psram_write` calls, each in program order. -/
structure Effect where
  hw : List HwEvent
  ram : List Store
  psram : List PsramWrite

/-- Function `lcd_point_local(color, x, y)`: the call through `lcd_point_ptr`; `none` for a
call through the null pointer. -/
def lcd_point_local (lcd_to8 : Nat → Nat) (s : LcdState) (color : Nat) (x y : Int) :
    Option Effect :=
  match s.lcd_point_ptr with
  | none => none
  | some PointFn.lcd_direct_point => some ⟨lcd_direct_point color x y, [], []⟩
  | some PointFn.lcd_psram_point => some ⟨[], [], lcd_psram_point color x y⟩
  | some PointFn.lcd_ram_point => some ⟨[], lcd_ram_point lcd_to8 color x y, []⟩

/-! ## Font and text renderer -/

/-- The global `font` of type `font_t`.  `glyphs` is the allocated glyph blob (`none` for the
null pointer), `glyph_colorbuf` the number of `u16` cells of the allocated scratch buffer,
`font_file` the duplicated file name.  `char` is unsigned on the ARM target, so `firstcode`
is a value in `0..255`. -/
structure font_t where
  glyphs : Option (List Nat)
  glyph_count : Nat
  glyph_width : Nat
  glyph_height : Nat
  bytewidth : Nat
  term_width : Nat
  term_height : Nat
  glyph_colorbuf : Option Nat
  firstcode : Nat
  font_file : Option (List Nat)
  deriving DecidableEq, Repr

/-- The bundled font of `default_font.h`, which is not among the sources at hand: its glyph
table and metrics are a parameter. -/
structure DefaultFont where
  DEFAULT_GLYPHS : List Nat
  DEFAULT_GLYPH_WIDTH : Nat
  DEFAULT_GLYPH_HEIGHT : Nat

/-- Result code `FR_OK` of the storage layer. -/
def FR_OK : Nat := 0

/-- What the storage layer answers during one `lcd_load_font`: the result code of `f_open`, of
`f_lseek`, of each of the five one-byte header reads with the byte delivered, and of the read
of the glyph bitmap with the bytes left in the buffer. -/
structure FontIO where
  open_res : Nat
  seek_res : Nat
  count_res : Nat
  count_byte : Nat
  first_res : Nat
  first_byte : Nat
  width_res : Nat
  width_byte : Nat
  height_res : Nat
  height_byte : Nat
  size_res : Nat
  size_byte : Nat
  glyphs_res : Nat
  glyphs_data : List Nat

/-- Whether each allocation of one `lcd_load_font` succeeds: `malloc(2049)` for the default
glyphs, `malloc(glyph_count * bytesize)` for the glyphs of a file, the `malloc` of the scratch
buffer, and `strdup(filename)`. -/
structure FontHeap where
  default_glyphs : Bool
  file_glyphs : Bool
  colorbuf : Bool
  strdup : Bool

/-- The three conditional `free` calls that open `lcd_load_font`. -/
def font_release (font : font_t) : font_t :=
  { font with glyphs := none, glyph_colorbuf := none, font_file := none }

/-- The tail of `lcd_load_font` after the `if`/`else`: the derived byte width, the scratch
buffer, the terminal columns and rows, each stored in its `uint8_t` field.  The result is
`none` when a division by zero is reached. -/
def font_derive (heap : FontHeap) (font : font_t) : Option font_t :=
  if font.glyph_width = 0 ∨ font.glyph_height = 0 then none
  else some { font with
    bytewidth := (font.glyph_width / 8 + (if font.glyph_width % 8 ≠ 0 then 1 else 0)) % 256
    glyph_colorbuf :=
      if heap.colorbuf then some (font.glyph_height * font.glyph_width) else none
    term_width := (320 / font.glyph_width) % 256
    term_height := (320 / font.glyph_height) % 256 }

/-- The call `lcd_load_font(NULL)`: the frees, the branch for a missing file name, and the
tail.  The result is `none` when `memcpy` is reached with a null destination or the tail
divides by zero. -/
def lcd_load_font_null (D : DefaultFont) (heap : FontHeap) (font : font_t) : Option font_t :=
  if heap.default_glyphs then
    font_derive heap { font_release font with
      glyphs := some (D.DEFAULT_GLYPHS.take 2049)
      glyph_count := 255
      glyph_width := D.DEFAULT_GLYPH_WIDTH % 256
      glyph_height := D.DEFAULT_GLYPH_HEIGHT % 256
      firstcode := 0 }
  else none

/-- The fallback `{ lcd_load_font(NULL); return res; }`. -/
def font_fallback (D : DefaultFont) (heap : FontHeap) (font : font_t) (res : Nat) :
    Option (Nat × font_t) :=
  (lcd_load_font_null D heap font).map (fun f => (res, f))

/-- Function `lcd_load_font(filename)`: the result code and the font afterwards.  `filename` is
`none` for the null pointer, otherwise the characters before the terminating zero.  The
result is `none` where the C code has no defined behaviour (a store through a null pointer, a
division by zero). -/
def lcd_load_font (D : DefaultFont) (io : FontIO) (heap : FontHeap)
    (filename : Option (List Nat)) (font : font_t) : Option (Nat × font_t) :=
  let font := font_release font
  match filename with
  | none => font_fallback D heap font FR_OK
  | some [] => font_fallback D heap font FR_OK
  | some (ch :: name) =>
    if io.open_res ≠ FR_OK then font_fallback D heap font io.open_res
    else if io.seek_res ≠ FR_OK then font_fallback D heap font io.seek_res
    else if io.count_res ≠ FR_OK then font_fallback D heap font io.count_res
    else
      let font := { font with glyph_count := io.count_byte % 256 }
      if io.first_res ≠ FR_OK then font_fallback D heap font io.first_res
      else
        let font := { font with firstcode := io.first_byte % 256 }
        if io.width_res ≠ FR_OK then font_fallback D heap font io.width_res
        else
          let font := { font with glyph_width := io.width_byte % 256 }
          if io.height_res ≠ FR_OK then font_fallback D heap font io.height_res
          else
            let font := { font with glyph_height := io.height_byte % 256 }
            if io.size_res ≠ FR_OK then font_fallback D heap font io.size_res
            else
              let bytesize := io.size_byte % 256
              if heap.file_glyphs = false ∧ font.glyph_count * bytesize ≠ 0 then none
              else
                let font := { font with
                  glyphs := if heap.file_glyphs then some io.glyphs_data else none }
                if io.glyphs_res ≠ FR_OK then some (io.glyphs_res, font)
                else
                  let font := { font with
                    font_file := if heap.strdup then some (ch :: name) else none }
                  (font_derive heap font).map (fun f => (FR_OK, f))

/-- The byte `font.glyphs[k]`. -/
def glyph_byte (font : font_t) (k : Nat) : Nat := (font.glyphs.getD []).getD k 0

/-- The first two statements of `lcd_draw_char_local`,
`if (c > font.glyph_count + font.firstcode) c = 0;` and
`offset = ((u8)(c - font.firstcode)) * font.bytewidth * font.glyph_height`. -/
def glyph_offset (font : font_t) (c : Nat) : Nat :=
  let c := if c > font.glyph_count + font.firstcode then 0 else c
  ((c + 256 - font.firstcode) % 256) * font.bytewidth * font.glyph_height

/-- The inner loop of `lcd_draw_char_local` over `i`, with `n` iterations left: the stores
into `font.glyph_colorbuf`. -/
def draw_char_row (font : font_t) (fg bg : Nat) (offset j : Nat) : Nat → Nat → List Store
  | 0, _ => []
  | n + 1, i =>
    Store.mk (i + j * font.glyph_width)
        (if glyph_byte font (offset + i / 8) &&& (1 <<< (7 - i % 8)) ≠ 0 then fg else bg)
      :: draw_char_row font fg bg offset j n (i + 1)

/-- The outer loop of `lcd_draw_char_local` over `j`, with `n` iterations left; `offset`
advances by `font.bytewidth` after each row. -/
def draw_char_rows (font : font_t) (fg bg : Nat) : Nat → Nat → Nat → List Store
  | 0, _, _ => []
  | n + 1, j, offset =>
    draw_char_row font fg bg offset j font.glyph_width 0
      ++ draw_char_rows font fg bg n (j + 1) (offset + font.bytewidth)

/-- A call `lcd_draw(font.glyph_colorbuf, x, y, width, height)`. -/
structure DrawCall where
  x : Int
  y : Int
  width : Int
  height : Int
  deriving DecidableEq, Repr

/-- What `lcd_draw_char_local` did: the stores into the scratch buffer, then the draws of the
scratch buffer it issued. -/
structure CharRaster where
  scratch : List Store
  draws : List DrawCall

/-- Function `lcd_draw_char_local(x, y, fg, bg, c)`, run by the owner core. -/
def lcd_draw_char_local (font : font_t) (x y : Int) (fg bg : Nat) (c : Nat) : CharRaster :=
  { scratch := draw_char_rows font fg bg font.glyph_height 0 (glyph_offset font c)
    draws := [DrawCall.mk x y font.glyph_width font.glyph_height] }

/-- The loop of `lcd_draw_text_local`: the `lcd_draw_char` calls it issues, in order. -/
def draw_text_loop (font : font_t) (y : Int) (fg bg : Nat) : List Nat → Int → List LcdOp
  | [], _ => []
  | c :: text, x =>
    LcdOp.draw_char x y fg bg c ::
      (if iadd x font.glyph_width > LCD_WIDTH then []
       else draw_text_loop font y fg bg text (iadd x font.glyph_width))

/-- Function `lcd_draw_text_local(x, y, fg, bg, text, len, align)`: the `lcd_draw_char` calls
it issues.  `len * font.glyph_width` is computed in `size_t`, and `x -=` converts back to
`int`. -/
def lcd_draw_text_local (font : font_t) (x y : Int) (fg bg : Nat) (text : List Nat)
    (len : Nat) (align : Nat) : List LcdOp :=
  let x :=
    if align = LCD_ALIGN_CENTER then
      wrapInt (x - (((len * font.glyph_width) % 4294967296 / 2 : Nat) : Int))
    else if align = LCD_ALIGN_RIGHT then
      wrapInt (x - (((len * font.glyph_width) % 4294967296 : Nat) : Int))
    else x
  draw_text_loop font y fg bg (text.take len) x

/-! ## Controller commands, direct draw, clear, blit and scroll -/

/-- The two bytes `lcd_write16` (and the pixel loops) send for one 16-bit colour:
`color >> 8`, then `color & 0xff`. -/
def write16_puts (color : Nat) : List HwEvent :=
  [HwEvent.put ((color >>> 8) % 256), HwEvent.put (color &&& 0xff)]

/-- Function `lcd_write16(data, count)`. -/
def lcd_write16 (data : Nat → Nat) (count : Nat) : List HwEvent :=
  (List.range count).flatMap (fun i => write16_puts (data i))

/-- Function `lcd_blank()`, commented "Enter Sleep". -/
def lcd_blank : List HwEvent := lcd_write_cmd [0x10] 1

/-- Function `lcd_unblank()`, commented "Exit Sleep". -/
def lcd_unblank : List HwEvent := lcd_write_cmd [0x11] 1

/-- Function `lcd_on()`, commented "Display on". -/
def lcd_on : List HwEvent := lcd_write_cmd [0x29] 1

/-- Function `lcd_off()`, commented "Display off". -/
def lcd_off : List HwEvent := lcd_write_cmd [0x29] 1

/-- Function `lcd_direct_draw(pixels, x, y, width, height)`. -/
def lcd_direct_draw (pixels : Nat → Nat) (x y width height : Int) : List HwEvent :=
  match normalize_coords x y width height MEM_HEIGHT with
  | (x, y, width, height) =>
    lcd_set_region x y (isub (iadd x width) 1) (isub (iadd y height) 1)
    ++ lcd_write16 pixels (toU32 (imul width height))
    ++ [HwEvent.waitIdle, HwEvent.setDcCs false true]

/-- Function `lcd_direct_clear()`. -/
def lcd_direct_clear : List HwEvent := lcd_direct_fill 0 0 0 LCD_WIDTH MEM_HEIGHT

/-- Function `lcd_psram_clear()`: the `psram_write` calls it makes. -/
def lcd_psram_clear (fuel : Nat) (lcd_tmpbuf : Nat → Nat) : Option (List PsramWrite) :=
  lcd_psram_fill fuel lcd_tmpbuf 0 0 0 LCD_WIDTH LCD_HEIGHT

/-- Function `lcd_ram_clear()`, `memset(framebuffer, 0, LCD_WIDTH * LCD_HEIGHT)`: the stores it
performs. -/
def lcd_ram_clear : List Store :=
  (List.range (toU32 (imul LCD_WIDTH LCD_HEIGHT))).map (fun k => Store.mk k 0)

/-- The values `0, step, 2*step, ...` below `bound`: the iterations of
`for (int v = 0; v < bound; v += step)`. -/
def loop_steps (bound step : Nat) : List Nat :=
  (List.range ((bound + step - 1) / step)).map (fun i => i * step)

/-- Constant `LCD_TMPBUF_SIZE`, `LCD_WIDTH*2`, the number of entries of `lcd_tmpbuf`. -/
def LCD_TMPBUF_SIZE : Nat := 640

/-- One call `psram_read(&psram_spi, addr, (uint8_t*)(lcd_tmpbuf + dst), count)`: the byte
address, the index in `lcd_tmpbuf` of the first entry filled, and the byte count. -/
structure PsramRead where
  addr : Nat
  dst : Nat
  count : Nat
  deriving DecidableEq, Repr

/-- The array `lcd_tmpbuf` after `psram_read(&psram_spi, (x+y)<<1, lcd_tmpbuf + x, 20)`: ten
entries from `x` on hold the ten 16-bit cells of the PSRAM frame from byte address
`(x+y)<<1` on. -/
def blit_read (P : Psram) (y : Nat) (tmp : Nat → Nat) (x : Nat) : Nat → Nat :=
  fun k =>
    if x ≤ k ∧ k < x + 10 then P (toU32 (imul (iadd x y) 2) / 2 + (k - x)) else tmp k

/-- The outer loop of the PSRAM branch of `lcd_buffer_blit_local`, over the values `y` still
to do: for each, the sixty-four reads into `lcd_tmpbuf`, then
`lcd_write16(lcd_tmpbuf, LCD_TMPBUF_SIZE)`.  The result is the controller output, the reads,
and `lcd_tmpbuf` at the end. -/
def blit_psram_batches (P : Psram) :
    List Nat → (Nat → Nat) → List HwEvent × List PsramRead × (Nat → Nat)
  | [], tmp => ([], [], tmp)
  | y :: ys, tmp =>
    match blit_psram_batches P ys ((loop_steps LCD_TMPBUF_SIZE 10).foldl (blit_read P y) tmp) with
    | (hw, reads, tmp2) =>
      (lcd_write16 ((loop_steps LCD_TMPBUF_SIZE 10).foldl (blit_read P y) tmp) LCD_TMPBUF_SIZE
          ++ hw,
        (loop_steps LCD_TMPBUF_SIZE 10).map
            (fun (x : Nat) => PsramRead.mk (toU32 (imul (iadd x y) 2)) x 20) ++ reads,
        tmp2)

/-- What `lcd_buffer_blit_local` did: the controller output, the `psram_read` calls, and
`lcd_tmpbuf` afterwards. -/
structure BlitResult where
  hw : List HwEvent
  reads : List PsramRead
  tmpbuf : Nat → Nat

/-- Function `lcd_buffer_blit_local()`.  `lcd_to16` is the 256-entry table of `lcd_lut.h`. -/
def lcd_buffer_blit_local (lcd_to16 : Nat → Nat) (framebuffer_mode : Int) (P : Psram)
    (framebuffer : Framebuffer) (lcd_tmpbuf : Nat → Nat) : BlitResult :=
  if framebuffer_mode = LCD_BUFFERMODE_DIRECT then ⟨[], [], lcd_tmpbuf⟩
  else
    match
      (if framebuffer_mode = LCD_BUFFERMODE_PSRAM then
        blit_psram_batches P (loop_steps 102400 LCD_TMPBUF_SIZE) lcd_tmpbuf
      else if framebuffer_mode = LCD_BUFFERMODE_RAM then
        ((List.range 102400).flatMap (fun count => write16_puts (lcd_to16 (framebuffer count))),
          [], lcd_tmpbuf)
      else ([], [], lcd_tmpbuf)) with
    | (hw, reads, tmp) =>
      ⟨lcd_set_region 0 0 319 319 ++ hw ++ [HwEvent.waitIdle, HwEvent.setDcCs false true],
        reads, tmp⟩

/-- Function `lcd_scroll_local(lines)`. -/
def lcd_scroll_local (lines : Int) : List HwEvent :=
  lcd_write_cmd
    [0x37, toU8 ((Int.tmod lines MEM_HEIGHT) >>> 8), toU8 (Int.tmod lines MEM_HEIGHT)] 3

/-! ## Startup sequence -/

/-- The table `st7789_init_seq`. -/
def st7789_init_seq : List Nat :=
  [16, 0, 0xE0, 0x00, 0x03, 0x09, 0x08, 0x16, 0x0A, 0x3F, 0x78, 0x4C, 0x09, 0x0A, 0x08, 0x16,
    0x1A, 0x0F,
   16, 0, 0xE1, 0x00, 0x16, 0x19, 0x03, 0x0F, 0x05, 0x32, 0x45, 0x46, 0x04, 0x0E, 0x0D, 0x35,
    0x37, 0x0F,
   3, 0, 0xC0, 0x17, 0x15,
   2, 0, 0xC1, 0x41,
   4, 0, 0xC5, 0x00, 0x12, 0x80,
   2, 0, 0x36, 0x48,
   2, 0, 0x3A, 0x55,
   2, 0, 0xB0, 0x00,
   3, 0, 0xB1, 0xD0, 0x11,
   1, 0, 0x21,
   2, 0, 0xB4, 0x02,
   4, 0, 0xB6, 0x02, 0x02, 0x3B,
   2, 0, 0xB7, 0xC6,
   2, 0, 0xE9, 0x00,
   5, 0, 0xF7, 0xA9, 0x51, 0x2C, 0x82,
   1, 0, 0x11,
   0]

/-- Function `lcd_initcmd(init_seq)`, with `i` the offset of `cmd` into the table: the
controller output and the offset at which the loop ends.  The result is `none` when the fuel
runs out or a byte outside the table would be read. -/
def lcd_initcmd (init_seq : List Nat) : Nat → Nat → Option (List HwEvent × Nat)
  | 0, _ => none
  | fuel + 1, i =>
    match init_seq[i]? with
    | none => none
    | some 0 => some ([], i)
    | some count =>
      if i + 2 + count ≤ init_seq.length then
        (lcd_initcmd init_seq fuel (i + count + 2)).map
          (fun r =>
            (lcd_write_cmd (init_seq.drop (i + 2)) count
              ++ [HwEvent.sleepMs (init_seq.getD (i + 1) 0 * 5)] ++ r.1, r.2))
      else none

/-! ## Local dispatch of the display operations -/

/-- A local display operation with its arguments. -/
inductive DisplayOp where
  | draw (pixels : Nat → Nat) (x y width height : Int) : DisplayOp
  | fill (color : Nat) (x y width height : Int) : DisplayOp
  | point (color : Nat) (x y : Int) : DisplayOp
  | clear : DisplayOp
  | blit : DisplayOp
  | scroll (lines : Int) : DisplayOp
  | lcd_blank : DisplayOp
  | lcd_unblank : DisplayOp
  | lcd_on : DisplayOp
  | lcd_off : DisplayOp

/-- The controller output of one local display operation (`lcd_draw_local`,
`lcd_fill_local`, `lcd_point_local`, `lcd_clear_local` through the operation pointers,
`lcd_buffer_blit_local`, `lcd_scroll_local`, `lcd_blank`, `lcd_unblank`, `lcd_on`, `lcd_off`)
in the selector state `s`, with PSRAM frame `P`, framebuffer `fb` and temporary buffer `tmp`.
The PSRAM and RAM backends' draw, fill, point and clear send nothing to the controller.  The
result is `none` for a call through a null operation pointer. -/
def DisplayOp.hw (lcd_to16 : Nat → Nat) (s : LcdState) (P : Psram) (fb : Framebuffer)
    (tmp : Nat → Nat) : DisplayOp → Option (List HwEvent)
  | DisplayOp.draw pixels x y width height =>
    match s.lcd_draw_ptr with
    | none => none
    | some DrawFn.lcd_direct_draw => some (lcd_direct_draw pixels x y width height)
    | some _ => some []
  | DisplayOp.fill color x y width height =>
    match s.lcd_fill_ptr with
    | none => none
    | some FillFn.lcd_direct_fill => some (lcd_direct_fill color x y width height)
    | some _ => some []
  | DisplayOp.point color x y =>
    match s.lcd_point_ptr with
    | none => none
    | some PointFn.lcd_direct_point => some (lcd_direct_point color x y)
    | some _ => some []
  | DisplayOp.clear =>
    match s.lcd_clear_ptr with
    | none => none
    | some ClearFn.lcd_direct_clear => some lcd_direct_clear
    | some _ => some []
  | DisplayOp.blit => some (lcd_buffer_blit_local lcd_to16 s.framebuffer_mode P fb tmp).hw
  | DisplayOp.scroll lines => some (lcd_scroll_local lines)
  | DisplayOp.lcd_blank => some PicoLcd.lcd_blank
  | DisplayOp.lcd_unblank => some PicoLcd.lcd_unblank
  | DisplayOp.lcd_on => some PicoLcd.lcd_on
  | DisplayOp.lcd_off => some PicoLcd.lcd_off

/-! ## Escape sequences of the terminal (`term.c`) -/

/-- The values of `ansi.state`. -/
inductive AnsiState where
  | AnsiNone | AnsiEscape | AnsiBracket
  deriving DecidableEq, Repr

/-- The fields of `ansi_t` that decide where `ansi.stack` is written. -/
structure ansi_t where
  state : AnsiState
  stack_size : Nat
  deriving DecidableEq, Repr

/-- The initial value of `ansi`. -/
def ansi_init : ansi_t := { state := AnsiState.AnsiNone, stack_size := 0 }

/-- The bytes `A B C D J K m H l h`, the `case` labels that end an escape sequence. -/
def ansi_final_bytes : List Nat := [65, 66, 67, 68, 74, 75, 109, 72, 108, 104]

/-- One iteration of the loop of `stdio_picocalc_out_chars` for the byte `c`, with
`ANSI_STACK_SIZE` entries in `ansi.stack`: the new state and the stores into `ansi.stack`
(index and value), in program order. -/
def out_chars_step (ANSI_STACK_SIZE : Nat) (ansi : ansi_t) (c : Nat) : ansi_t × List Store :=
  match ansi.state with
  | AnsiState.AnsiNone =>
    if c = 27 then ({ ansi with state := AnsiState.AnsiEscape }, []) else (ansi, [])
  | AnsiState.AnsiEscape =>
    ({ state := if c = 91 then AnsiState.AnsiBracket else AnsiState.AnsiNone, stack_size := 0 },
      [])
  | AnsiState.AnsiBracket =>
    if c ∈ ansi_final_bytes then
      ({ ansi with state := AnsiState.AnsiNone }, [Store.mk ansi.stack_size 0])
    else if ansi.stack_size < ANSI_STACK_SIZE then
      ({ ansi with stack_size := ansi.stack_size + 1 },
        [Store.mk ansi.stack_size 0, Store.mk ansi.stack_size c])
    else
      ({ ansi with state := AnsiState.AnsiNone }, [Store.mk ansi.stack_size 0])

/-- Function `stdio_picocalc_out_chars(buf, length)` on the bytes of `buf`: the state of
`ansi` afterwards and the stores into `ansi.stack`. -/
def stdio_picocalc_out_chars (ANSI_STACK_SIZE : Nat) : ansi_t → List Nat → ansi_t × List Store
  | ansi, [] => (ansi, [])
  | ansi, c :: buf =>
    match stdio_picocalc_out_chars ANSI_STACK_SIZE (out_chars_step ANSI_STACK_SIZE ansi c).1
        buf with
    | (final, stores) => (final, (out_chars_step ANSI_STACK_SIZE ansi c).2 ++ stores)

/-! ## Predicates used in the statements -/

/-- The selector invariant: mode, operation pointers and framebuffer allocation agree. -/
def LcdState.Consistent (s : LcdState) : Prop :=
  (s.framebuffer_mode = LCD_BUFFERMODE_DIRECT ∧ s.isDirect ∧ s.framebuffer = none) ∨
  (s.framebuffer_mode = LCD_BUFFERMODE_PSRAM ∧ s.isPsram ∧ s.framebuffer = none) ∨
  (s.framebuffer_mode = LCD_BUFFERMODE_RAM ∧ s.isRam ∧ ∃ fb, s.framebuffer = some fb)

/-- A reachable state with the RAM backend active: `lcd_init`, then a successful
`lcd_buffer_enable_local(LCD_BUFFERMODE_RAM)`. -/
def ram_state : LcdState :=
  (lcd_buffer_enable_local LCD_BUFFERMODE_RAM (some (fun _ => 0)) lcd_init_state).2

/-- The draw contract on the RAM backend: `lcd_ram_draw(pixels, x, y, w, h)` returns, every
position `(x+i, y+j)` of the rectangle that lies inside the 320x320 panel then holds
`lcd_to8[pixels[j*w + i]]`, and every other framebuffer cell is as before. -/
def RamDrawBlits (fuel : Nat) (lcd_to8 : Nat → Nat) (pixels : Nat → Nat) (fb : Framebuffer)
    (x y w h : Int) : Prop :=
  ∃ stores, lcd_ram_draw fuel lcd_to8 pixels x y w h = some stores ∧
    (∀ i j : Int, 0 ≤ i → i < w → 0 ≤ j → j < h → 0 ≤ x + i → x + i < 320 → y + j < 320 →
      applyStores fb stores ((y + j) * 320 + (x + i)).toNat
        = lcd_to8 (pixels (j * w + i).toNat)) ∧
    (∀ k : Nat,
      (¬ ∃ i j : Int, 0 ≤ i ∧ i < w ∧ 0 ≤ j ∧ j < h ∧ 0 ≤ x + i ∧ x + i < 320 ∧ y + j < 320 ∧
        k = ((y + j) * 320 + (x + i)).toNat) →
      applyStores fb stores k = fb k)

/-- The words `lcd_fifo_receiver` pushes back to the other core for a call. -/
def reply_words (enable : Int → Bool) : LcdOp → List Nat
  | LcdOp.buffer_enable mode => [if enable mode then 1 else 0]
  | _ => []

/-- Sample tag values, used to instantiate the channel theorem. -/
def sample_tags : FifoTags :=
  { FIFO_LCD_POINT := 1, FIFO_LCD_DRAW := 2, FIFO_LCD_FILL := 3, FIFO_LCD_CLEAR := 4,
    FIFO_LCD_BUFEN := 5, FIFO_LCD_BUFBLIT := 6, FIFO_LCD_CHAR := 7, FIFO_LCD_TEXT := 8,
    FIFO_LCD_SCROLL := 9 }

/-- One operation of each kind, with negative coordinates and the text "Hi". -/
def sample_ops : List LcdOp :=
  [LcdOp.point 0xF800 (-3) 7, LcdOp.draw 0x20001000 0 (-1) 8 8, LcdOp.fill 0x001F 310 300 20 30,
    LcdOp.clear, LcdOp.buffer_enable 2, LcdOp.buffer_blit, LcdOp.draw_char 10 10 0xFFFF 0 65,
    LcdOp.draw_text 10 10 0xFFFF 0 [72, 105] 2 0, LcdOp.scroll (-8)]

/-- The cells of `n` rows of `W` columns starting at row `Y`, column `X` of the 320-wide
frame, row by row and left to right, with the values `val p`, `val (p+1)`, ... -/
def rect_cells (val : Nat → Nat) (X W : Nat) : Nat → Nat → Nat → List Store
  | 0, _, _ => []
  | n + 1, Y, p =>
    (List.range W).map (fun k => Store.mk (320 * Y + X + k) (val (p + k)))
      ++ rect_cells val X W n (Y + 1) (p + W)

/-- The same cells with each value translated through `lcd_to8`. -/
def to8_cells (lcd_to8 : Nat → Nat) (cells : List Store) : List Store :=
  cells.map (fun s => Store.mk s.index (lcd_to8 s.value))

/-- The RAM framebuffer `F` shows the PSRAM frame `P`: `F[k] = lcd_to8[P[k]]` for every cell
of the 320x320 frame. -/
def FrameRel (lcd_to8 : Nat → Nat) (F : Framebuffer) (P : Psram) : Prop :=
  ∀ k, k < 320 * 320 → F k = lcd_to8 (P k)

/-- The nine tags `lcd_fifo_receiver` has a `case` for. -/
def FifoTags.handled (T : FifoTags) : List Nat :=
  [T.FIFO_LCD_POINT, T.FIFO_LCD_DRAW, T.FIFO_LCD_FILL, T.FIFO_LCD_CLEAR, T.FIFO_LCD_BUFEN,
    T.FIFO_LCD_BUFBLIT, T.FIFO_LCD_CHAR, T.FIFO_LCD_TEXT, T.FIFO_LCD_SCROLL]

/-- A font as loaded from a file holding the 96 printable ASCII glyphs, 8x8 pixels, one byte
per glyph row. -/
def ascii_font : font_t :=
  { glyphs := some (List.replicate 768 0x55), glyph_count := 96, glyph_width := 8,
    glyph_height := 8, bytewidth := 1, term_width := 40, term_height := 40,
    glyph_colorbuf := some 64, firstcode := 32, font_file := some [102] }

/-- The colour `lcd_draw_char_local` stores for column `i` of the glyph row starting at byte
`offset`. -/
def glyph_pixel (font : font_t) (fg bg : Nat) (offset i : Nat) : Nat :=
  if glyph_byte font (offset + i / 8) &&& (1 <<< (7 - i % 8)) ≠ 0 then fg else bg

/-- The x position of the first character of a text: `x` for Left (and any alignment value
other than Center and Right), `x - floor(len*gw/2)` for Center, `x - len*gw` for Right. -/
def text_start (x : Int) (len gw align : Nat) : Int :=
  if align = LCD_ALIGN_CENTER then x - ((len * gw / 2 : Nat) : Int)
  else if align = LCD_ALIGN_RIGHT then x - ((len * gw : Nat) : Int)
  else x

/-- The character draws at `x0`, `x0 + gw`, ... for the first `n` characters of `text`. -/
def text_draws (x0 y : Int) (fg bg gw : Nat) (text : List Nat) (n : Nat) : List LcdOp :=
  (List.range n).map
    (fun (k : Nat) => LcdOp.draw_char (x0 + (k : Int) * (gw : Int)) y fg bg (text.getD k 0))

/-- The font `lcd_load_font(NULL)` installs: the bundled glyphs and metrics, no file name, and
the byte width, scratch buffer and terminal size derived from them as the code derives them
(each stored in a `uint8_t`). -/
def default_font (D : DefaultFont) : font_t :=
  { glyphs := some (D.DEFAULT_GLYPHS.take 2049)
    glyph_count := 255
    glyph_width := D.DEFAULT_GLYPH_WIDTH
    glyph_height := D.DEFAULT_GLYPH_HEIGHT
    bytewidth := D.DEFAULT_GLYPH_WIDTH / 8 + (if D.DEFAULT_GLYPH_WIDTH % 8 ≠ 0 then 1 else 0)
    term_width := (320 / D.DEFAULT_GLYPH_WIDTH) % 256
    term_height := (320 / D.DEFAULT_GLYPH_HEIGHT) % 256
    glyph_colorbuf := some (D.DEFAULT_GLYPH_HEIGHT * D.DEFAULT_GLYPH_WIDTH)
    firstcode := 0
    font_file := none }

/-- A bundled font of 8x8 glyphs, used to instantiate the font theorems. -/
def sample_default : DefaultFont :=
  { DEFAULT_GLYPHS := List.replicate 2049 0x3C, DEFAULT_GLYPH_WIDTH := 8,
    DEFAULT_GLYPH_HEIGHT := 8 }

/-- Every allocation succeeds. -/
def heap_ok : FontHeap :=
  { default_glyphs := true, file_glyphs := true, colorbuf := true, strdup := true }

/-- A storage layer on which the file cannot be opened (`FR_NO_FILE`). -/
def io_no_file : FontIO :=
  { open_res := 4, seek_res := 0, count_res := 0, count_byte := 0, first_res := 0,
    first_byte := 0, width_res := 0, width_byte := 0, height_res := 0, height_byte := 0,
    size_res := 0, size_byte := 0, glyphs_res := 0, glyphs_data := [] }

/-- A storage layer on which the open, the seek and the five header reads succeed (96 glyphs
from code 32, 6x10 pixels, 10 bytes each) and the read of the glyph bitmap fails
(`FR_DISK_ERR`). -/
def io_bitmap_error : FontIO :=
  { open_res := 0, seek_res := 0, count_res := 0, count_byte := 96, first_res := 0,
    first_byte := 32, width_res := 0, width_byte := 6, height_res := 0, height_byte := 10,
    size_res := 0, size_byte := 10, glyphs_res := 1, glyphs_data := [] }

/-- The commands of the startup sequence in the order of the table, opcode first. -/
def init_commands : List (List Nat) :=
  [[0xE0, 0x00, 0x03, 0x09, 0x08, 0x16, 0x0A, 0x3F, 0x78, 0x4C, 0x09, 0x0A, 0x08, 0x16, 0x1A,
      0x0F],
   [0xE1, 0x00, 0x16, 0x19, 0x03, 0x0F, 0x05, 0x32, 0x45, 0x46, 0x04, 0x0E, 0x0D, 0x35, 0x37,
      0x0F],
   [0xC0, 0x17, 0x15],
   [0xC1, 0x41],
   [0xC5, 0x00, 0x12, 0x80],
   [0x36, 0x48],
   [0x3A, 0x55],
   [0xB0, 0x00],
   [0xB1, 0xD0, 0x11],
   [0x21],
   [0xB4, 0x02],
   [0xB6, 0x02, 0x02, 0x3B],
   [0xB7, 0xC6],
   [0xE9, 0x00],
   [0xF7, 0xA9, 0x51, 0x2C, 0x82],
   [0x11]]

/-- The bytes handed to the transport, each with the level of the command/data line at the
time, given the level before the trace. -/
def sent_bytes : Bool → List HwEvent → List (Bool × Nat)
  | _, [] => []
  | _, HwEvent.setDcCs dc _ :: t => sent_bytes dc t
  | dc, HwEvent.put b :: t => (dc, b) :: sent_bytes dc t
  | dc, HwEvent.waitIdle :: t => sent_bytes dc t
  | dc, HwEvent.busyWaitUs _ :: t => sent_bytes dc t
  | dc, HwEvent.sleepMs _ :: t => sent_bytes dc t

/-- The levels of the command/data and chip-select lines after the trace, given the levels
before it. -/
def final_lines : Bool × Bool → List HwEvent → Bool × Bool
  | l, [] => l
  | _, HwEvent.setDcCs dc cs :: t => final_lines (dc, cs) t
  | l, HwEvent.put _ :: t => final_lines l t
  | l, HwEvent.waitIdle :: t => final_lines l t
  | l, HwEvent.busyWaitUs _ :: t => final_lines l t
  | l, HwEvent.sleepMs _ :: t => final_lines l t

/-- Scan of a trace for a line change during a transfer.  The flag says that a byte has been
handed to the transport since the last wait for transport idle.  The result is `none` when
the command/data and chip-select lines are set while the flag is up, and the final flag
otherwise. -/
def lines_safe : Bool → List HwEvent → Option Bool
  | f, [] => some f
  | _, HwEvent.waitIdle :: t => lines_safe false t
  | _, HwEvent.put _ :: t => lines_safe true t
  | f, HwEvent.setDcCs _ _ :: t => if f then none else lines_safe false t
  | f, HwEvent.busyWaitUs _ :: t => lines_safe f t
  | f, HwEvent.sleepMs _ :: t => lines_safe f t

/-- One step of a run: a local display operation together with the selector state and the
memories it meets. -/
structure DisplayStep where
  s : LcdState
  P : Psram
  fb : Framebuffer
  tmp : Nat → Nat
  op : DisplayOp

/-- The controller output of a sequence of steps; `none` when one of them calls through a
null operation pointer. -/
def run_steps (lcd_to16 : Nat → Nat) : List DisplayStep → Option (List HwEvent)
  | [] => some []
  | st :: rest =>
    match DisplayOp.hw lcd_to16 st.s st.P st.fb st.tmp st.op, run_steps lcd_to16 rest with
    | some a, some b => some (a ++ b)
    | _, _ => none

/-- The escape sequence `ESC [` followed by `n` digits `0`. -/
def long_escape (n : Nat) : List Nat := 27 :: 91 :: List.replicate n 48

/-- Every event of the list hands a byte to the transport. -/
def AllPuts (l : List HwEvent) : Prop := ∀ e ∈ l, ∃ b, e = HwEvent.put b

/-- A storage layer on which the open, the seek, the five header reads and the read of the
glyph bitmap all succeed, for a font of 96 glyphs from code 32 with the given glyph width and
height and 10 bytes per glyph. -/
def io_header (gw gh : Nat) : FontIO :=
  { open_res := 0, seek_res := 0, count_res := 0, count_byte := 96, first_res := 0,
    first_byte := 32, width_res := 0, width_byte := gw, height_res := 0, height_byte := gh,
    size_res := 0, size_byte := 10, glyphs_res := 0, glyphs_data := List.replicate 960 0x3C }

/-- A run that mixes the backends: a fill, a scroll and a power command on the Direct
backend, then a blit, a draw and a clear with the RAM backend active. -/
def sample_steps : List DisplayStep :=
  [⟨lcd_init_state, fun _ => 0, fun _ => 0, fun _ => 0, DisplayOp.fill 0xF800 0 0 2 2⟩,
   ⟨lcd_init_state, fun _ => 0, fun _ => 0, fun _ => 0, DisplayOp.scroll 8⟩,
   ⟨lcd_init_state, fun _ => 0, fun _ => 0, fun _ => 0, DisplayOp.lcd_off⟩,
   ⟨ram_state, fun _ => 0, fun _ => 7, fun _ => 0, DisplayOp.blit⟩,
   ⟨ram_state, fun _ => 0, fun _ => 7, fun _ => 0, DisplayOp.draw (fun _ => 1) 0 0 2 2⟩,
   ⟨ram_state, fun _ => 0, fun _ => 7, fun _ => 0, DisplayOp.clear⟩]

/-! ## Auxiliary lemmas -/

theorem wrapInt_of_isInt {z : Int} (h : IsInt z) : wrapInt z = z := by
  unfold IsInt at h
  unfold wrapInt
  omega

theorem iadd_small {a b : Int} (h : IsInt (a + b)) : iadd a b = a + b := wrapInt_of_isInt h

theorem isub_small {a b : Int} (h : IsInt (a - b)) : isub a b = a - b := wrapInt_of_isInt h

theorem imul_small {a b : Int} (h : IsInt (a * b)) : imul a b = a * b := wrapInt_of_isInt h

theorem normalize_coords_id {x y w h scr : Int} (hx : 0 ≤ x) (hy : 0 ≤ y) (hw : 0 ≤ w)
    (hh : 0 ≤ h) (hxw : x + w ≤ 320) (hys : y < scr) (hyh : y + h ≤ scr)
    (hs : scr < 1073741824) :
    normalize_coords x y w h scr = (x, y, w, h) := by
  unfold normalize_coords
  have hy' : Int.tmod y scr = y := Int.tmod_eq_of_lt hy hys
  simp only [hy', LCD_WIDTH]
  have e1 : iadd x w = x + w := iadd_small (by unfold IsInt; omega)
  have e2 : iadd y h = y + h := iadd_small (by unfold IsInt; omega)
  have e3 : isub scr y = scr - y := isub_small (by unfold IsInt; omega)
  have hx1 : (if x < 0 then (0 : Int) else if x ≥ 320 then 320 else x) = x := by
    split_ifs <;> omega
  rw [hx1, e1, e2, e3]
  have e4 : isub 320 x = 320 - x := isub_small (by unfold IsInt; omega)
  rw [e4]
  have hw1 : (if w < 0 then (0 : Int) else if x + w ≥ 320 then 320 - x else w) = w := by
    split_ifs <;> omega
  have hh1 : (if h < 0 then (0 : Int) else if y + h ≥ scr then scr - y else h) = h := by
    split_ifs <;> omega
  rw [hw1, hh1]

theorem consistent_init : lcd_init_state.Consistent := by
  left
  simp [lcd_init_state, lcd_buffer_enable_local, lcd_state_zero, LcdState.isDirect,
    LCD_BUFFERMODE_DIRECT, LCD_BUFFERMODE_RAM]

theorem consistent_enable (s : LcdState) (mode : Int) (malloc : Option Framebuffer)
    (hs : s.Consistent)
    (hm : mode = LCD_BUFFERMODE_DIRECT ∨ mode = LCD_BUFFERMODE_PSRAM ∨
      mode = LCD_BUFFERMODE_RAM) :
    (lcd_buffer_enable_local mode malloc s).2.Consistent := by
  obtain ⟨d, f, p, c, fb, m⟩ := s
  rcases hm with rfl | rfl | rfl
  · left
    cases fb <;>
      simp [lcd_buffer_enable_local, LcdState.isDirect, LCD_BUFFERMODE_DIRECT,
        LCD_BUFFERMODE_RAM]
  · right; left
    cases fb <;>
      simp [lcd_buffer_enable_local, LcdState.isPsram, LCD_BUFFERMODE_DIRECT,
        LCD_BUFFERMODE_RAM, LCD_BUFFERMODE_PSRAM]
  · cases fb with
    | some b =>
      simpa [lcd_buffer_enable_local, LCD_BUFFERMODE_DIRECT,
        LCD_BUFFERMODE_RAM, LCD_BUFFERMODE_PSRAM] using hs
    | none =>
      cases malloc with
      | none =>
        simpa [lcd_buffer_enable_local, LCD_BUFFERMODE_DIRECT,
          LCD_BUFFERMODE_RAM, LCD_BUFFERMODE_PSRAM] using hs
      | some b =>
        right; right
        simp [lcd_buffer_enable_local, LcdState.isRam, LCD_BUFFERMODE_DIRECT,
          LCD_BUFFERMODE_RAM, LCD_BUFFERMODE_PSRAM]

theorem consistent_stores (s : LcdState) (fb : Framebuffer) (w : List Store)
    (hs : s.Consistent) (hfb : s.framebuffer = some fb) :
    LcdState.Consistent { s with framebuffer := some (applyStores fb w) } := by
  rcases hs with ⟨_, _, h⟩ | ⟨_, _, h⟩ | ⟨hm, hr, _⟩
  · rw [h] at hfb; cases hfb
  · rw [h] at hfb; cases hfb
  · right; right
    exact ⟨hm, hr, _, rfl⟩

theorem reachable_consistent {s : LcdState} (h : Reachable s) : s.Consistent := by
  induction h with
  | init => exact consistent_init
  | enable s mode malloc _ hm ih => exact consistent_enable s mode malloc ih hm
  | stores s fb w _ hfb ih => exact consistent_stores s fb w ih hfb

theorem ram_state_reachable : Reachable ram_state :=
  Reachable.enable _ _ _ Reachable.init (Or.inr (Or.inr rfl))

theorem shiftRight_land (a b i : Nat) : (a &&& b) >>> i = (a >>> i) &&& (b >>> i) := by
  apply Nat.eq_of_testBit_eq
  intro j
  simp [Nat.testBit_shiftRight, Nat.testBit_and]

theorem RGB_eq_sum (r g b : Nat) (hr : r < 256) (hg : g < 256) (hb : b < 256) :
    RGB r g b = 2048 * (r / 8) + 32 * (g / 4) + b / 8 := by
  unfold RGB
  have h1 : (g >>> 2) <<< 5 = 2 ^ 5 * (g / 4) := by
    rw [Nat.shiftLeft_eq, Nat.shiftRight_eq_div_pow]; ring
  have h2 : (r >>> 3) <<< 11 = 2 ^ 11 * (r / 8) := by
    rw [Nat.shiftLeft_eq, Nat.shiftRight_eq_div_pow]; ring
  have h3 : b >>> 3 = b / 8 := by rw [Nat.shiftRight_eq_div_pow]
  rw [h1, h2, h3]
  have e1 : 2 ^ 5 * (g / 4) ||| b / 8 = 2 ^ 5 * (g / 4) + b / 8 :=
    (Nat.mul_add_lt_is_or (by omega) _).symm
  have e2 : 2 ^ 11 * (r / 8) ||| (2 ^ 5 * (g / 4) + b / 8)
      = 2 ^ 11 * (r / 8) + (2 ^ 5 * (g / 4) + b / 8) :=
    (Nat.mul_add_lt_is_or (by omega) _).symm
  rw [Nat.lor_assoc, e1, e2]
  omega

theorem RED_of_sum (r5 g6 b5 : Nat) (hg : g6 < 64) (hb : b5 < 32) (hr : r5 < 32) :
    RED (2048 * r5 + 32 * g6 + b5) = 8 * r5 := by
  unfold RED
  rw [shiftRight_land]
  have h31 : (0xf800 : Nat) >>> 11 = 2 ^ 5 - 1 := by decide
  rw [h31, Nat.and_pow_two_sub_one_eq_mod, Nat.shiftRight_eq_div_pow, Nat.shiftLeft_eq]
  omega

theorem GREEN_of_sum (r5 g6 b5 : Nat) (hg : g6 < 64) (hb : b5 < 32) :
    GREEN (2048 * r5 + 32 * g6 + b5) = 4 * g6 := by
  unfold GREEN
  rw [shiftRight_land]
  have h63 : (0x07e0 : Nat) >>> 5 = 2 ^ 6 - 1 := by decide
  rw [h63, Nat.and_pow_two_sub_one_eq_mod, Nat.shiftRight_eq_div_pow, Nat.shiftLeft_eq]
  omega

theorem BLUE_of_sum (r5 g6 b5 : Nat) (hb : b5 < 32) :
    BLUE (2048 * r5 + 32 * g6 + b5) = 8 * b5 := by
  unfold BLUE
  have h31 : (0x001f : Nat) = 2 ^ 5 - 1 := by decide
  rw [h31, Nat.and_pow_two_sub_one_eq_mod, Nat.shiftLeft_eq]
  omega

theorem direct_fill_loop_eq (color : Nat) (n : Nat) :
    direct_fill_loop color n
      = (List.replicate n [HwEvent.put ((color >>> 8) % 256), HwEvent.put (color &&& 0xff)]).flatten := by
  induction n with
  | zero => rfl
  | succ n ih => simp [direct_fill_loop, List.replicate_succ, ih]

theorem applyStores_append (fb : Framebuffer) (l1 l2 : List Store) :
    applyStores fb (l1 ++ l2) = applyStores (applyStores fb l1) l2 := by
  induction l1 generalizing fb with
  | nil => rfl
  | cons s l ih => simp [applyStores, ih]

theorem applyStores_ram_draw_row (lcd_to8 pixels : Nat → Nat) (iy : Nat) (n : Nat) :
    ∀ (ix p : Nat) (fb : Framebuffer) (k : Nat), iy + ix + n ≤ 4294967296 →
      applyStores fb (ram_draw_row lcd_to8 pixels iy n ix p) k
        = if iy + ix ≤ k ∧ k < iy + ix + n then lcd_to8 (pixels (p + (k - (iy + ix))))
          else fb k := by
  induction n with
  | zero =>
    intro ix p fb k _
    have hno : ¬ (iy + ix ≤ k ∧ k < iy + ix + 0) := by omega
    rw [if_neg hno]
    rfl
  | succ n ih =>
    intro ix p fb k hb
    simp only [ram_draw_row, applyStores]
    rw [ih (ix + 1) (p + 1) _ k (by omega)]
    have hmod : (iy + ix) % 4294967296 = iy + ix := Nat.mod_eq_of_lt (by omega)
    rw [hmod]
    by_cases h1 : k = iy + ix
    · subst h1
      simp
    · by_cases h2 : iy + ix + 1 ≤ k ∧ k < iy + ix + 1 + n
      · have h3 : iy + ix ≤ k ∧ k < iy + ix + (n + 1) := by omega
        have h4 : p + 1 + (k - (iy + (ix + 1))) = p + (k - (iy + ix)) := by omega
        have h2' : iy + (ix + 1) ≤ k ∧ k < iy + (ix + 1) + n := by omega
        rw [if_pos h2', if_pos h3, h4]
      · have h3 : ¬ (iy + ix ≤ k ∧ k < iy + ix + (n + 1)) := by omega
        have h2' : ¬ (iy + (ix + 1) ≤ k ∧ k < iy + (ix + 1) + n) := by omega
        rw [if_neg h2', if_neg h3, if_neg h1]

theorem ram_draw_rows_effect (lcd_to8 pixels : Nat → Nat) (X W : Nat) (hXW : X + W ≤ 320)
    (n : Nat) :
    ∀ (fuel Y p : Nat), n < fuel → Y + n ≤ 320 →
      ∃ stores,
        ram_draw_rows lcd_to8 pixels X (X + W) (320 * (Y + n)) fuel (320 * Y) p = some stores ∧
        ∀ (fb : Framebuffer) (k : Nat),
          applyStores fb stores k
            = if Y ≤ k / 320 ∧ k / 320 < Y + n ∧ X ≤ k % 320 ∧ k % 320 < X + W
              then lcd_to8 (pixels (p + W * (k / 320 - Y) + (k % 320 - X)))
              else fb k := by
  induction n with
  | zero =>
    intro fuel Y p hf _
    obtain ⟨f, rfl⟩ : ∃ f, fuel = f + 1 := ⟨fuel - 1, by omega⟩
    refine ⟨[], ?_, ?_⟩
    · simp [ram_draw_rows]
    · intro fb k
      have : ¬ (Y ≤ k / 320 ∧ k / 320 < Y + 0 ∧ X ≤ k % 320 ∧ k % 320 < X + W) := by omega
      rw [if_neg this]
      rfl
  | succ n ih =>
    intro fuel Y p hf hY
    obtain ⟨f, rfl⟩ : ∃ f, fuel = f + 1 := ⟨fuel - 1, by omega⟩
    obtain ⟨rest, hrest, heff⟩ := ih f (Y + 1) (p + W) (by omega) (by omega)
    have hlt : 320 * Y < 320 * (Y + (n + 1)) := by omega
    have hnext : (320 * Y + 320) % 4294967296 = 320 * (Y + 1) := by omega
    have hend : 320 * (Y + (n + 1)) = 320 * (Y + 1 + n) := by omega
    have hsub : X + W - X = W := by omega
    refine ⟨ram_draw_row lcd_to8 pixels (320 * Y) W X p ++ rest, ?_, ?_⟩
    · simp only [ram_draw_rows, if_pos hlt, hnext, hsub]
      rw [hend, hrest]
      rfl
    · intro fb k
      rw [applyStores_append, heff, applyStores_ram_draw_row _ _ _ _ _ _ _ _ (by omega)]
      by_cases hrow : k / 320 = Y
      · have c1 : ¬ (Y + 1 ≤ k / 320 ∧ k / 320 < Y + 1 + n ∧ X ≤ k % 320 ∧ k % 320 < X + W) := by
          omega
        rw [if_neg c1]
        by_cases hcol : X ≤ k % 320 ∧ k % 320 < X + W
        · have c2 : 320 * Y + X ≤ k ∧ k < 320 * Y + X + W := by omega
          have c3 : Y ≤ k / 320 ∧ k / 320 < Y + (n + 1) ∧ X ≤ k % 320 ∧ k % 320 < X + W := by
            omega
          rw [if_pos c2, if_pos c3]
          have e1 : k / 320 - Y = 0 := by omega
          have e2 : k - (320 * Y + X) = k % 320 - X := by omega
          rw [e1, e2, Nat.mul_zero, Nat.add_zero]
        · have c2 : ¬ (320 * Y + X ≤ k ∧ k < 320 * Y + X + W) := by omega
          have c3 : ¬ (Y ≤ k / 320 ∧ k / 320 < Y + (n + 1) ∧ X ≤ k % 320 ∧ k % 320 < X + W) := by
            omega
          rw [if_neg c2, if_neg c3]
      · have c2 : ¬ (320 * Y + X ≤ k ∧ k < 320 * Y + X + W) := by omega
        by_cases hin : Y + 1 ≤ k / 320 ∧ k / 320 < Y + 1 + n ∧ X ≤ k % 320 ∧ k % 320 < X + W
        · have c3 : Y ≤ k / 320 ∧ k / 320 < Y + (n + 1) ∧ X ≤ k % 320 ∧ k % 320 < X + W := by
            omega
          rw [if_pos hin, if_pos c3]
          have e1 : k / 320 - Y = (k / 320 - (Y + 1)) + 1 := by omega
          rw [e1, Nat.mul_add, Nat.mul_one]
          congr 2
          omega
        · have c3 : ¬ (Y ≤ k / 320 ∧ k / 320 < Y + (n + 1) ∧ X ≤ k % 320 ∧ k % 320 < X + W) := by
            omega
          rw [if_neg hin, if_neg c3, if_neg c2]

theorem toU32_natCast (n : Nat) (h : n < 4294967296) : toU32 (n : Int) = n := by
  unfold toU32
  omega

theorem normalize_coords_clip_bottom {x y w h : Int} (hx : 0 ≤ x) (hw : 0 ≤ w)
    (hxw : x + w ≤ 320) (hy : 0 ≤ y) (hy2 : y < 320) (hh : 0 ≤ h) (hyh : y + h < 2147483648) :
    normalize_coords x y w h LCD_HEIGHT = (x, y, w, if y + h ≥ 320 then 320 - y else h) := by
  unfold normalize_coords
  have hy' : Int.tmod y 320 = y := Int.tmod_eq_of_lt hy hy2
  simp only [LCD_WIDTH, LCD_HEIGHT, hy']
  have e1 : iadd x w = x + w := iadd_small (by unfold IsInt; omega)
  have e2 : iadd y h = y + h := iadd_small (by unfold IsInt; omega)
  have e3 : isub 320 y = 320 - y := isub_small (by unfold IsInt; omega)
  have hx1 : (if x < 0 then (0 : Int) else if x ≥ 320 then 320 else x) = x := by
    split_ifs <;> omega
  rw [hx1, e1, e2, e3]
  have e4 : isub 320 x = 320 - x := isub_small (by unfold IsInt; omega)
  rw [e4]
  have hw1 : (if w < 0 then (0 : Int) else if x + w ≥ 320 then 320 - x else w) = w := by
    split_ifs <;> omega
  have hh1 : (if h < 0 then (0 : Int) else if y + h ≥ 320 then 320 - y else h)
      = if y + h ≥ 320 then 320 - y else h := by
    split_ifs <;> omega
  rw [hw1, hh1]

theorem iadd_natCast (a b : Nat) (h : a + b < 2147483648) :
    iadd (a : Int) (b : Int) = ((a + b : ℕ) : Int) := by
  rw [iadd_small (by unfold IsInt; omega)]
  push_cast
  ring

theorem imul_natCast_width (a : Nat) (h : a ≤ 320) :
    imul (a : Int) LCD_WIDTH = ((320 * a : ℕ) : Int) := by
  rw [imul_small (by unfold IsInt LCD_WIDTH; omega)]
  unfold LCD_WIDTH
  push_cast
  ring

theorem ram_draw_bounds (X W Y n : Nat) (hXW : X + W ≤ 320) (hYn : Y + n ≤ 320) :
    toU32 (X : Int) = X ∧ toU32 (iadd (X : Int) (W : Int)) = X + W ∧
    toU32 (imul (iadd (Y : Int) (n : Int)) LCD_WIDTH) = 320 * (Y + n) ∧
    toU32 (imul (Y : Int) LCD_WIDTH) = 320 * Y := by
  refine ⟨toU32_natCast _ (by omega), ?_, ?_, ?_⟩
  · rw [iadd_natCast _ _ (by omega), toU32_natCast _ (by omega)]
  · rw [iadd_natCast _ _ (by omega), imul_natCast_width _ hYn, toU32_natCast _ (by omega)]
  · rw [imul_natCast_width _ (by omega), toU32_natCast _ (by omega)]

theorem clipped_rows (Y H : Nat) (hY : Y < 320) :
    ∃ n : ℕ, (if (Y : Int) + H ≥ 320 then 320 - (Y : Int) else (H : Int)) = (n : Int) ∧
      Y + n ≤ 320 ∧ ∀ J : Nat, J < H → Y + J < 320 → J < n := by
  by_cases hc : (Y : Int) + H ≥ 320
  · refine ⟨320 - Y, ?_, by omega, fun J _ _ => by omega⟩
    rw [if_pos hc]
    omega
  · refine ⟨H, ?_, by omega, fun J hJ _ => hJ⟩
    rw [if_neg hc]

theorem ofU32_toU32 {z : Int} (h : IsInt z) : ofU32 (toU32 z) = z := by
  unfold IsInt at h
  unfold ofU32 toU32 wrapInt
  omega

theorem pop_string_push_string (text : List Nat) (rest : List Nat)
    (hb : ∀ b ∈ text, b < 256) :
    multicore_fifo_pop_string (multicore_fifo_push_string text text.length ++ rest)
      = some (text, text.length, rest) := by
  have hmap : text.map (fun b => b % 256) = text := by
    conv_rhs => rw [← List.map_id text]
    apply List.map_congr_left
    intro b hbm
    exact Nat.mod_eq_of_lt (hb b hbm)
  simp [multicore_fifo_pop_string, multicore_fifo_push_string, List.take_left', hmap]

theorem later_tag_ne {T : FifoTags} (hT : T.Distinct) :
    (T.FIFO_LCD_DRAW ≠ T.FIFO_LCD_POINT) ∧
    (T.FIFO_LCD_FILL ≠ T.FIFO_LCD_POINT ∧
      T.FIFO_LCD_FILL ≠ T.FIFO_LCD_DRAW) ∧
    (T.FIFO_LCD_CLEAR ≠ T.FIFO_LCD_POINT ∧
      T.FIFO_LCD_CLEAR ≠ T.FIFO_LCD_DRAW ∧
      T.FIFO_LCD_CLEAR ≠ T.FIFO_LCD_FILL) ∧
    (T.FIFO_LCD_BUFEN ≠ T.FIFO_LCD_POINT ∧
      T.FIFO_LCD_BUFEN ≠ T.FIFO_LCD_DRAW ∧
      T.FIFO_LCD_BUFEN ≠ T.FIFO_LCD_FILL ∧
      T.FIFO_LCD_BUFEN ≠ T.FIFO_LCD_CLEAR) ∧
    (T.FIFO_LCD_BUFBLIT ≠ T.FIFO_LCD_POINT ∧
      T.FIFO_LCD_BUFBLIT ≠ T.FIFO_LCD_DRAW ∧
      T.FIFO_LCD_BUFBLIT ≠ T.FIFO_LCD_FILL ∧
      T.FIFO_LCD_BUFBLIT ≠ T.FIFO_LCD_CLEAR ∧
      T.FIFO_LCD_BUFBLIT ≠ T.FIFO_LCD_BUFEN) ∧
    (T.FIFO_LCD_CHAR ≠ T.FIFO_LCD_POINT ∧
      T.FIFO_LCD_CHAR ≠ T.FIFO_LCD_DRAW ∧
      T.FIFO_LCD_CHAR ≠ T.FIFO_LCD_FILL ∧
      T.FIFO_LCD_CHAR ≠ T.FIFO_LCD_CLEAR ∧
      T.FIFO_LCD_CHAR ≠ T.FIFO_LCD_BUFEN ∧
      T.FIFO_LCD_CHAR ≠ T.FIFO_LCD_BUFBLIT) ∧
    (T.FIFO_LCD_TEXT ≠ T.FIFO_LCD_POINT ∧
      T.FIFO_LCD_TEXT ≠ T.FIFO_LCD_DRAW ∧
      T.FIFO_LCD_TEXT ≠ T.FIFO_LCD_FILL ∧
      T.FIFO_LCD_TEXT ≠ T.FIFO_LCD_CLEAR ∧
      T.FIFO_LCD_TEXT ≠ T.FIFO_LCD_BUFEN ∧
      T.FIFO_LCD_TEXT ≠ T.FIFO_LCD_BUFBLIT ∧
      T.FIFO_LCD_TEXT ≠ T.FIFO_LCD_CHAR) ∧
    (T.FIFO_LCD_SCROLL ≠ T.FIFO_LCD_POINT ∧
      T.FIFO_LCD_SCROLL ≠ T.FIFO_LCD_DRAW ∧
      T.FIFO_LCD_SCROLL ≠ T.FIFO_LCD_FILL ∧
      T.FIFO_LCD_SCROLL ≠ T.FIFO_LCD_CLEAR ∧
      T.FIFO_LCD_SCROLL ≠ T.FIFO_LCD_BUFEN ∧
      T.FIFO_LCD_SCROLL ≠ T.FIFO_LCD_BUFBLIT ∧
      T.FIFO_LCD_SCROLL ≠ T.FIFO_LCD_CHAR ∧
      T.FIFO_LCD_SCROLL ≠ T.FIFO_LCD_TEXT) := by
  simp only [FifoTags.Distinct, List.nodup_cons, List.mem_cons, List.mem_singleton,
    List.not_mem_nil, not_or, List.nodup_nil, or_false, and_true] at hT
  obtain ⟨⟨a0_1, a0_2, a0_3, a0_4, a0_5, a0_6, a0_7, a0_8⟩, ⟨a1_2, a1_3, a1_4, a1_5, a1_6, a1_7, a1_8⟩, ⟨a2_3, a2_4, a2_5, a2_6, a2_7, a2_8⟩, ⟨a3_4, a3_5, a3_6, a3_7, a3_8⟩, ⟨a4_5, a4_6, a4_7, a4_8⟩, ⟨a5_6, a5_7, a5_8⟩, ⟨a6_7, a6_8⟩, a7_8, _⟩ := hT
  exact ⟨Ne.symm a0_1,
    ⟨Ne.symm a0_2, Ne.symm a1_2⟩,
    ⟨Ne.symm a0_3, Ne.symm a1_3, Ne.symm a2_3⟩,
    ⟨Ne.symm a0_4, Ne.symm a1_4, Ne.symm a2_4, Ne.symm a3_4⟩,
    ⟨Ne.symm a0_5, Ne.symm a1_5, Ne.symm a2_5, Ne.symm a3_5, Ne.symm a4_5⟩,
    ⟨Ne.symm a0_6, Ne.symm a1_6, Ne.symm a2_6, Ne.symm a3_6, Ne.symm a4_6, Ne.symm a5_6⟩,
    ⟨Ne.symm a0_7, Ne.symm a1_7, Ne.symm a2_7, Ne.symm a3_7, Ne.symm a4_7, Ne.symm a5_7, Ne.symm a6_7⟩,
    ⟨Ne.symm a0_8, Ne.symm a1_8, Ne.symm a2_8, Ne.symm a3_8, Ne.symm a4_8, Ne.symm a5_8, Ne.symm a6_8, Ne.symm a7_8⟩⟩

theorem owner_poll_remote (T : FifoTags) (hT : T.Distinct) (enable : Int → Bool) (op : LcdOp)
    (hop : op.WellTyped) (rest : List Nat) :
    owner_poll T enable (lcd_remote T op ++ rest)
      = some ⟨1, some op, rest, reply_words enable op⟩ := by
  obtain ⟨h1, ⟨h2_0, h2_1⟩, ⟨h3_0, h3_1, h3_2⟩, ⟨h4_0, h4_1, h4_2, h4_3⟩, ⟨h5_0, h5_1, h5_2, h5_3, h5_4⟩, ⟨h6_0, h6_1, h6_2, h6_3, h6_4, h6_5⟩, ⟨h7_0, h7_1, h7_2, h7_3, h7_4, h7_5, h7_6⟩, ⟨h8_0, h8_1, h8_2, h8_3, h8_4, h8_5, h8_6, h8_7⟩⟩ := later_tag_ne hT
  cases op with
  | point color x y =>
    obtain ⟨hc, hx, hy⟩ := hop
    simp only [owner_poll, lcd_remote, List.cons_append, List.nil_append, lcd_fifo_receiver,
      ↓reduceIte]
    simp [multicore_fifo_pop_blocking_inline, reply_words, ofU32_toU32 hx, ofU32_toU32 hy, Nat.mod_eq_of_lt hc]
  | draw pixels x y width height =>
    obtain ⟨hc, hx, hy, hw, hh⟩ := hop
    simp only [owner_poll, lcd_remote, List.cons_append, List.nil_append, lcd_fifo_receiver,
      h1, ↓reduceIte]
    simp [multicore_fifo_pop_blocking_inline, reply_words, ofU32_toU32 hx, ofU32_toU32 hy, ofU32_toU32 hw, ofU32_toU32 hh]
  | fill color x y width height =>
    obtain ⟨hc, hx, hy, hw, hh⟩ := hop
    simp only [owner_poll, lcd_remote, List.cons_append, List.nil_append, lcd_fifo_receiver,
      h2_0, h2_1, ↓reduceIte]
    simp [multicore_fifo_pop_blocking_inline, reply_words, ofU32_toU32 hx, ofU32_toU32 hy, ofU32_toU32 hw, ofU32_toU32 hh, Nat.mod_eq_of_lt hc]
  | clear =>
    simp only [owner_poll, lcd_remote, List.cons_append, List.nil_append, lcd_fifo_receiver,
      h3_0, h3_1, h3_2, ↓reduceIte]
    rfl
  | buffer_enable mode =>
    simp only [owner_poll, lcd_remote, List.cons_append, List.nil_append, lcd_fifo_receiver,
      h4_0, h4_1, h4_2, h4_3, ↓reduceIte]
    simp [multicore_fifo_pop_blocking_inline, reply_words, ofU32_toU32 hop]
  | buffer_blit =>
    simp only [owner_poll, lcd_remote, List.cons_append, List.nil_append, lcd_fifo_receiver,
      h5_0, h5_1, h5_2, h5_3, h5_4, ↓reduceIte]
    rfl
  | draw_char x y fg bg c =>
    obtain ⟨hx, hy, hf, hb, hc⟩ := hop
    simp only [owner_poll, lcd_remote, List.cons_append, List.nil_append, lcd_fifo_receiver,
      h6_0, h6_1, h6_2, h6_3, h6_4, h6_5, ↓reduceIte]
    simp [multicore_fifo_pop_blocking_inline, reply_words, ofU32_toU32 hx, ofU32_toU32 hy, Nat.mod_eq_of_lt hf, Nat.mod_eq_of_lt hb, Nat.mod_eq_of_lt hc]
  | draw_text x y fg bg text len align =>
    obtain ⟨hx, hy, hf, hb, ht, hl, _, ha⟩ := hop
    subst hl
    simp only [owner_poll, lcd_remote, List.cons_append, List.nil_append, lcd_fifo_receiver,
      h7_0, h7_1, h7_2, h7_3, h7_4, h7_5, h7_6, ↓reduceIte]
    simp [multicore_fifo_pop_blocking_inline, reply_words, ofU32_toU32 hx, ofU32_toU32 hy, Nat.mod_eq_of_lt hf, Nat.mod_eq_of_lt hb, Nat.mod_eq_of_lt ha, pop_string_push_string text rest ht]
  | scroll lines =>
    simp only [owner_poll, lcd_remote, List.cons_append, List.nil_append, lcd_fifo_receiver,
      h8_0, h8_1, h8_2, h8_3, h8_4, h8_5, h8_6, h8_7, ↓reduceIte]
    simp [multicore_fifo_pop_blocking_inline, reply_words, ofU32_toU32 hop]
theorem owner_drain_remote (T : FifoTags) (hT : T.Distinct)
    (enable : List LcdOp → Int → Bool) (ops : List LcdOp) :
    ∀ (fuel : Nat) (log : List LcdOp) (reply : List Nat),
      (∀ op ∈ ops, op.WellTyped) → ops.length ≤ fuel →
      ∃ reply2, owner_drain T enable fuel (ops.flatMap (lcd_remote T)) log reply
        = some (log ++ ops, [], reply2) := by
  induction ops with
  | nil =>
    intro fuel log reply _ _
    refine ⟨reply, ?_⟩
    cases fuel <;> simp [owner_drain]
  | cons op ops ih =>
    intro fuel log reply hops hfuel
    obtain ⟨f, rfl⟩ : ∃ f, fuel = f + 1 := ⟨fuel - 1, by simp at hfuel; omega⟩
    have hop : op.WellTyped := hops op (List.mem_cons_self _ _)
    have hstep := owner_poll_remote T hT (enable log) op hop (ops.flatMap (lcd_remote T))
    obtain ⟨tag, args, hsend⟩ : ∃ tag args, lcd_remote T op = tag :: args := by
      cases op <;> exact ⟨_, _, rfl⟩
    obtain ⟨reply2, hrest⟩ := ih f (log ++ [op])
      (reply ++ reply_words (enable log) op)
      (fun o ho => hops o (List.mem_cons_of_mem _ ho)) (by simp at hfuel; omega)
    refine ⟨reply2, ?_⟩
    rw [List.flatMap_cons, hsend, List.cons_append, owner_drain, ← List.cons_append, ← hsend,
      hstep]
    simp only [Option.toList]
    rw [hrest]
    simp

theorem lcd_direct_fill_inside (c : Nat) (x y w h : Int) (hc : c < 65536) (hx : 0 ≤ x) (hy : 0 ≤ y)
    (hw : 1 ≤ w) (hh : 1 ≤ h) (hxw : x + w ≤ 320) (hyh : y + h ≤ 480) :
    lcd_direct_fill c x y w h
      = lcd_set_region x y (x + w - 1) (y + h - 1)
        ++ (List.replicate (w * h).toNat [HwEvent.put (c / 256), HwEvent.put (c % 256)]).flatten
        ++ [HwEvent.waitIdle, HwEvent.setDcCs false true] := by
  unfold lcd_direct_fill
  rw [normalize_coords_id hx hy (by omega) (by omega) hxw (by unfold MEM_HEIGHT; omega)
    (by unfold MEM_HEIGHT; omega) (by unfold MEM_HEIGHT; omega)]
  simp only
  have hwh : 0 ≤ w * h ∧ w * h ≤ 320 * 480 := by
    constructor
    · positivity
    · nlinarith
  have e1 : iadd x w = x + w := iadd_small (by unfold IsInt; omega)
  have e2 : iadd y h = y + h := iadd_small (by unfold IsInt; omega)
  have e3 : isub (x + w) 1 = x + w - 1 := isub_small (by unfold IsInt; omega)
  have e4 : isub (y + h) 1 = y + h - 1 := isub_small (by unfold IsInt; omega)
  have e5 : imul w h = w * h := imul_small (by unfold IsInt; omega)
  have e6 : toU32 (w * h) = (w * h).toNat := by
    unfold toU32
    congr 1
    omega
  have e7 : (c >>> 8) % 256 = c / 256 := by
    rw [Nat.shiftRight_eq_div_pow]; omega
  have e8 : c &&& 0xff = c % 256 := by
    have : (0xff : Nat) = 2 ^ 8 - 1 := by decide
    rw [this, Nat.and_pow_two_sub_one_eq_mod]
  rw [e1, e2, e3, e4, e5, e6, direct_fill_loop_eq, e7, e8]

theorem lcd_set_region_congr {a b c d a2 b2 c2 d2 : Int} (h1 : a = a2) (h2 : b = b2)
    (h3 : c = c2) (h4 : d = d2) : lcd_set_region a b c d = lcd_set_region a2 b2 c2 d2 := by
  subst h1 h2 h3 h4
  rfl

theorem ram_draw_row_eq (lcd_to8 pixels : Nat → Nat) (iy : Nat) (n : Nat) :
    ∀ ix p : Nat, iy + ix + n ≤ 4294967296 →
      ram_draw_row lcd_to8 pixels iy n ix p
        = (List.range n).map (fun k => Store.mk (iy + ix + k) (lcd_to8 (pixels (p + k)))) := by
  induction n with
  | zero => intro ix p _; rfl
  | succ n ih =>
    intro ix p hb
    rw [ram_draw_row, ih (ix + 1) (p + 1) (by omega), List.range_succ_eq_map, List.map_cons,
      List.map_map]
    have hmod : (iy + ix) % 4294967296 = iy + ix := Nat.mod_eq_of_lt (by omega)
    rw [hmod]
    congr 1
    apply List.map_congr_left
    intro k _
    simp only [Function.comp]
    have e1 : iy + (ix + 1) + k = iy + ix + (k + 1) := by omega
    have e2 : p + 1 + k = p + (k + 1) := by omega
    rw [e1, e2]

theorem ram_draw_rows_eq (lcd_to8 pixels : Nat → Nat) (X W : Nat) (hXW : X + W ≤ 320)
    (n : Nat) :
    ∀ fuel Y p : Nat, n < fuel → Y + n ≤ 320 →
      ram_draw_rows lcd_to8 pixels X (X + W) (320 * (Y + n)) fuel (320 * Y) p
        = some (rect_cells (fun q => lcd_to8 (pixels q)) X W n Y p) := by
  induction n with
  | zero =>
    intro fuel Y p hf _
    obtain ⟨f, rfl⟩ : ∃ f, fuel = f + 1 := ⟨fuel - 1, by omega⟩
    simp [ram_draw_rows, rect_cells]
  | succ n ih =>
    intro fuel Y p hf hY
    obtain ⟨f, rfl⟩ : ∃ f, fuel = f + 1 := ⟨fuel - 1, by omega⟩
    have hlt : 320 * Y < 320 * (Y + (n + 1)) := by omega
    have hnext : (320 * Y + 320) % 4294967296 = 320 * (Y + 1) := by omega
    have hend : 320 * (Y + (n + 1)) = 320 * (Y + 1 + n) := by omega
    have hsub : X + W - X = W := by omega
    simp only [ram_draw_rows, if_pos hlt, hnext, hsub]
    rw [hend, ih f (Y + 1) (p + W) (by omega) (by omega),
      ram_draw_row_eq _ _ _ _ _ _ (by omega)]
    rfl

theorem ram_fill_rows_eq (value : Nat) (X W : Nat) (n : Nat) :
    ∀ fuel Y : Nat, n < fuel → Y + n ≤ 320 →
      ram_fill_rows value X W (320 * (Y + n)) fuel (320 * Y)
        = some (rect_cells (fun _ => value) X W n Y 0) := by
  induction n with
  | zero =>
    intro fuel Y hf _
    obtain ⟨f, rfl⟩ : ∃ f, fuel = f + 1 := ⟨fuel - 1, by omega⟩
    simp [ram_fill_rows, rect_cells]
  | succ n ih =>
    intro fuel Y hf hY
    obtain ⟨f, rfl⟩ : ∃ f, fuel = f + 1 := ⟨fuel - 1, by omega⟩
    have hlt : 320 * Y < 320 * (Y + (n + 1)) := by omega
    have hnext : (320 * Y + 320) % 4294967296 = 320 * (Y + 1) := by omega
    have hend : 320 * (Y + (n + 1)) = 320 * (Y + 1 + n) := by omega
    simp only [ram_fill_rows, if_pos hlt, hnext]
    rw [hend, ih f (Y + 1) (by omega) (by omega)]
    have hrect : ∀ m Y2 p q, rect_cells (fun _ => value) X W m Y2 p
        = rect_cells (fun _ => value) X W m Y2 q := by
      intro m
      induction m with
      | zero => intro _ _ _; rfl
      | succ m ihm =>
        intro Y2 p q
        simp only [rect_cells]
        rw [ihm (Y2 + 1) (p + W) (q + W)]
    simp only [Option.map_some', rect_cells]
    rw [hrect n (Y + 1) (0 + W) 0]
    congr 2
    apply List.map_congr_left
    intro k _
    have : X + 320 * Y + k = 320 * Y + X + k := by omega
    rw [this]

theorem chunk_count (d : Int) (hd : 0 < d) (hd2 : d ≤ 2147483647) :
    toU32 (if d < 10 then imul d 2 else 20) / 2 = min d.toNat 10 := by
  by_cases h : d < 10
  · rw [if_pos h, imul_small (by unfold IsInt; omega)]
    unfold toU32
    omega
  · rw [if_neg h]
    have : toU32 20 = 20 := by decide
    rw [this]
    omega

theorem chunk_cells (iy ix m : Nat) (src : Nat → Nat) (count : Nat) (hc : count / 2 = m)
    (hb : iy + ix < 2147483648) :
    (PsramWrite.mk ((((iy + ix) % 4294967296) * 2) % 4294967296) src count).cells
      = (List.range m).map (fun k => Store.mk (iy + ix + k) (src k)) := by
  unfold PsramWrite.cells
  simp only [hc]
  have : (((iy + ix) % 4294967296) * 2) % 4294967296 / 2 = iy + ix := by omega
  rw [this]

theorem range_split (m t : Nat) (f : Nat → Store) :
    (List.range (m + t)).map f = (List.range m).map f ++ (List.range t).map (fun k => f (m + k)) := by
  rw [List.range_add, List.map_append, List.map_map]
  rfl

theorem psram_draw_row_cells (pixels : Nat → Nat) (iy xend : Nat)
    (hb : iy + xend + 10 ≤ 2147483648) (fuel : Nat) :
    ∀ (ix : Nat) (d : Int) (p : Nat), d = (xend : Int) - (ix : Int) →
      d.toNat + 10 ≤ 10 * fuel →
      ∃ ws, psram_draw_row pixels iy xend fuel ix d (p : Int)
          = some (ws, ((p + d.toNat : Nat) : Int)) ∧
        ws.flatMap PsramWrite.cells
          = (List.range d.toNat).map (fun k => Store.mk (iy + ix + k) (pixels (p + k))) := by
  induction fuel with
  | zero => intro ix d p _ hf; omega
  | succ f ih =>
    intro ix d p hd hf
    by_cases hlt : ix < xend
    · have hdpos : 0 < d := by omega
      have hdle : d ≤ 2147483647 := by omega
      have hm := chunk_count d hdpos hdle
      have hnext : (ix + 10) % 4294967296 = ix + 10 := Nat.mod_eq_of_lt (by omega)
      have hsub : isub d 10 = d - 10 := isub_small (by unfold IsInt; omega)
      have hp : (p : Int) + (if d < 10 then d else 10) = ((p + min d.toNat 10 : Nat) : Int) := by
        split_ifs <;> omega
      obtain ⟨ws, hws, hcells⟩ := ih (ix + 10) (d - 10) (p + min d.toNat 10)
        (by push_cast; omega) (by omega)
      have hfin : ((p + min d.toNat 10 + (d - 10).toNat : Nat) : Int)
          = ((p + d.toNat : Nat) : Int) := by omega
      refine ⟨PsramWrite.mk ((((iy + ix) % 4294967296) * 2) % 4294967296)
        (fun k => pixels ((p : Int) + (k : Int)).toNat)
        (toU32 (if d < 10 then imul d 2 else 20)) :: ws, ?_, ?_⟩
      · simp only [psram_draw_row, if_pos hlt, hnext, hsub, hp, hws, Option.map_some', hfin]
      · rw [List.flatMap_cons, hcells, chunk_cells iy ix (min d.toNat 10) _ _ hm (by omega)]
        have hsplit : d.toNat = min d.toNat 10 + (d - 10).toNat := by omega
        have hsrc : (List.range (min d.toNat 10)).map
              (fun k => Store.mk (iy + ix + k) (pixels ((p : Int) + (k : Int)).toNat))
            = (List.range (min d.toNat 10)).map
              (fun k => Store.mk (iy + ix + k) (pixels (p + k))) := by
          apply List.map_congr_left
          intro k _
          have : ((p : Int) + (k : Int)).toNat = p + k := by omega
          rw [this]
        rw [hsrc]
        conv_rhs => rw [hsplit, range_split]
        congr 1
        apply List.map_congr_left
        intro k _
        have e1 : iy + (ix + 10) + k = iy + ix + (min d.toNat 10 + k) ∨ (d - 10).toNat = 0 := by
          omega
        rcases e1 with e1 | e1
        · rw [e1, Nat.add_assoc p]
        · rename_i hk
          rw [e1] at hk
          simp at hk
    · have hd0 : d.toNat = 0 := by omega
      refine ⟨[], ?_, ?_⟩
      · simp only [psram_draw_row, if_neg hlt, hd0, Nat.add_zero]
      · simp [hd0]

theorem psram_draw_rows_cells (pixels : Nat → Nat) (X W : Nat) (hXW : X + W ≤ 320)
    (fuel0 : Nat) (hf0 : W + 10 ≤ 10 * fuel0) (n : Nat) :
    ∀ fuel Y p : Nat, n < fuel → Y + n ≤ 320 →
      ∃ ws, psram_draw_rows pixels X (X + W) (320 * (Y + n)) (W : Int) fuel0 fuel (320 * Y)
          (p : Int) = some ws ∧
        ws.flatMap PsramWrite.cells = rect_cells pixels X W n Y p := by
  induction n with
  | zero =>
    intro fuel Y p hf _
    obtain ⟨f, rfl⟩ : ∃ f, fuel = f + 1 := ⟨fuel - 1, by omega⟩
    exact ⟨[], by simp [psram_draw_rows], rfl⟩
  | succ n ih =>
    intro fuel Y p hf hY
    obtain ⟨f, rfl⟩ : ∃ f, fuel = f + 1 := ⟨fuel - 1, by omega⟩
    have hlt : 320 * Y < 320 * (Y + (n + 1)) := by omega
    have hnext : (320 * Y + 320) % 4294967296 = 320 * (Y + 1) := by omega
    have hend : 320 * (Y + (n + 1)) = 320 * (Y + 1 + n) := by omega
    have hWn : ((W : Int)).toNat = W := Int.toNat_ofNat W
    obtain ⟨row, hrow, hrowc⟩ := psram_draw_row_cells pixels (320 * Y) (X + W) (by omega)
      fuel0 X (W : Int) p (by push_cast; omega) (by rw [hWn]; exact hf0)
    rw [hWn] at hrow hrowc
    obtain ⟨rest, hrest, hrestc⟩ := ih f (Y + 1) (p + W) (by omega) (by omega)
    refine ⟨row ++ rest, ?_, ?_⟩
    · simp only [psram_draw_rows, if_pos hlt, hnext, hrow]
      rw [hend, hrest]
      rfl
    · rw [List.flatMap_append, hrowc, hrestc]
      rfl

theorem psram_fill_row_cells (tmp : Nat → Nat) (color : Nat) (htmp : ∀ k, k < 10 → tmp k = color)
    (iy xend : Nat) (hb : iy + xend + 10 ≤ 2147483648) (fuel : Nat) :
    ∀ (ix : Nat) (d : Int), d = (xend : Int) - (ix : Int) →
      d.toNat + 10 ≤ 10 * fuel →
      ∃ ws, psram_fill_row tmp iy xend fuel ix d = some ws ∧
        ws.flatMap PsramWrite.cells
          = (List.range d.toNat).map (fun k => Store.mk (iy + ix + k) color) := by
  induction fuel with
  | zero => intro ix d _ hf; omega
  | succ f ih =>
    intro ix d hd hf
    by_cases hlt : ix < xend
    · have hdpos : 0 < d := by omega
      have hdle : d ≤ 2147483647 := by omega
      have hm := chunk_count d hdpos hdle
      have hnext : (ix + 10) % 4294967296 = ix + 10 := Nat.mod_eq_of_lt (by omega)
      have hsub : isub d 10 = d - 10 := isub_small (by unfold IsInt; omega)
      obtain ⟨ws, hws, hcells⟩ := ih (ix + 10) (d - 10) (by push_cast; omega) (by omega)
      refine ⟨PsramWrite.mk ((((iy + ix) % 4294967296) * 2) % 4294967296) tmp
        (toU32 (if d < 10 then imul d 2 else 20)) :: ws, ?_, ?_⟩
      · simp only [psram_fill_row, if_pos hlt, hnext, hsub, hws, Option.map_some']
      · rw [List.flatMap_cons, hcells, chunk_cells iy ix (min d.toNat 10) _ _ hm (by omega)]
        have hsplit : d.toNat = min d.toNat 10 + (d - 10).toNat := by omega
        have hsrc : (List.range (min d.toNat 10)).map
              (fun k => Store.mk (iy + ix + k) (tmp k))
            = (List.range (min d.toNat 10)).map
              (fun k => Store.mk (iy + ix + k) color) := by
          apply List.map_congr_left
          intro k hk
          rw [htmp k (by simp at hk; omega)]
        rw [hsrc]
        conv_rhs => rw [hsplit, range_split]
        congr 1
        apply List.map_congr_left
        intro k hk
        have e1 : iy + (ix + 10) + k = iy + ix + (min d.toNat 10 + k) ∨ (d - 10).toNat = 0 := by
          omega
        rcases e1 with e1 | e1
        · rw [e1]
        · rw [e1] at hk
          simp at hk
    · have hd0 : d.toNat = 0 := by omega
      refine ⟨[], ?_, ?_⟩
      · simp only [psram_fill_row, if_neg hlt]
      · simp [hd0]

theorem rect_cells_const (value : Nat) (X W : Nat) (m : Nat) :
    ∀ Y p q : Nat, rect_cells (fun _ => value) X W m Y p
      = rect_cells (fun _ => value) X W m Y q := by
  induction m with
  | zero => intro _ _ _; rfl
  | succ m ihm =>
    intro Y p q
    simp only [rect_cells]
    rw [ihm (Y + 1) (p + W) (q + W)]

theorem psram_fill_rows_cells (tmp : Nat → Nat) (color : Nat)
    (htmp : ∀ k, k < 10 → tmp k = color) (X W : Nat) (hXW : X + W ≤ 320)
    (fuel0 : Nat) (hf0 : W + 10 ≤ 10 * fuel0) (n : Nat) :
    ∀ fuel Y : Nat, n < fuel → Y + n ≤ 320 →
      ∃ ws, psram_fill_rows tmp X (X + W) (320 * (Y + n)) (W : Int) fuel0 fuel (320 * Y)
          = some ws ∧
        ws.flatMap PsramWrite.cells = rect_cells (fun _ => color) X W n Y 0 := by
  induction n with
  | zero =>
    intro fuel Y hf _
    obtain ⟨f, rfl⟩ : ∃ f, fuel = f + 1 := ⟨fuel - 1, by omega⟩
    exact ⟨[], by simp [psram_fill_rows], rfl⟩
  | succ n ih =>
    intro fuel Y hf hY
    obtain ⟨f, rfl⟩ : ∃ f, fuel = f + 1 := ⟨fuel - 1, by omega⟩
    have hlt : 320 * Y < 320 * (Y + (n + 1)) := by omega
    have hnext : (320 * Y + 320) % 4294967296 = 320 * (Y + 1) := by omega
    have hend : 320 * (Y + (n + 1)) = 320 * (Y + 1 + n) := by omega
    have hWn : ((W : Int)).toNat = W := Int.toNat_ofNat W
    obtain ⟨row, hrow, hrowc⟩ := psram_fill_row_cells tmp color htmp (320 * Y) (X + W)
      (by omega) fuel0 X (W : Int) (by push_cast; omega) (by rw [hWn]; exact hf0)
    rw [hWn] at hrowc
    obtain ⟨rest, hrest, hrestc⟩ := ih f (Y + 1) (by omega) (by omega)
    refine ⟨row ++ rest, ?_, ?_⟩
    · simp only [psram_fill_rows, if_pos hlt, hnext, hrow]
      rw [hend, hrest]
      rfl
    · rw [List.flatMap_append, hrowc, hrestc]
      simp only [rect_cells]
      rw [rect_cells_const color X W n (Y + 1) (0 + W) 0]

theorem frameRel_apply (lcd_to8 : Nat → Nat) (cells : List Store) :
    ∀ (F : Framebuffer) (P : Psram), FrameRel lcd_to8 F P →
      FrameRel lcd_to8 (applyStores F (to8_cells lcd_to8 cells)) (applyStores P cells) := by
  induction cells with
  | nil => intro F P h; exact h
  | cons s l ih =>
    intro F P h
    simp only [to8_cells, List.map_cons, applyStores]
    apply ih
    intro k hk
    by_cases hks : k = s.index
    · simp [hks]
    · simp only [if_neg hks]
      exact h k hk

theorem to8_cells_rect (lcd_to8 val : Nat → Nat) (X W : Nat) (n : Nat) :
    ∀ Y p : Nat, to8_cells lcd_to8 (rect_cells val X W n Y p)
      = rect_cells (fun q => lcd_to8 (val q)) X W n Y p := by
  induction n with
  | zero => intro _ _; rfl
  | succ n ih =>
    intro Y p
    have := ih (Y + 1) (p + W)
    unfold to8_cells at this ⊢
    simp only [rect_cells, List.map_append, List.map_map, this]
    rfl

theorem normalize_coords_panel (x y w h : Int) (hy : 0 ≤ y)
    (hw : (if x < 0 then (0 : Int) else if x ≥ 320 then 320 else x) + w < 2147483648)
    (hh : y % 320 + h < 2147483648) :
    ∃ X Y W H : Nat,
      normalize_coords x y w h LCD_HEIGHT = ((X : Int), (Y : Int), (W : Int), (H : Int)) ∧
      X + W ≤ 320 ∧ Y + H ≤ 320 := by
  have hy0 : Int.tmod y 320 = y % 320 := Int.tmod_eq_emod hy (by decide)
  have hy1 : 0 ≤ y % 320 := Int.emod_nonneg y (by decide)
  have hy2 : y % 320 < 320 := Int.emod_lt_of_pos y (by decide)
  obtain ⟨Y, hY⟩ := Int.eq_ofNat_of_zero_le hy1
  rw [hY] at hh
  have hx : ∃ X : Nat, (if x < 0 then (0 : Int) else if x ≥ 320 then 320 else x) = (X : Int)
      ∧ X ≤ 320 := by
    split_ifs with h1 h2
    · exact ⟨0, rfl, by omega⟩
    · exact ⟨320, rfl, by omega⟩
    · exact ⟨x.toNat, by omega, by omega⟩
  obtain ⟨X, hX, hX2⟩ := hx
  rw [hX] at hw
  have hwd : ∃ W : Nat, (if w < 0 then (0 : Int)
      else if iadd (X : Int) w ≥ 320 then isub 320 (X : Int) else w) = (W : Int)
      ∧ X + W ≤ 320 := by
    by_cases h1 : w < 0
    · exact ⟨0, by rw [if_pos h1]; rfl, by omega⟩
    · have e1 : iadd (X : Int) w = X + w := iadd_small (by unfold IsInt; omega)
      have e2 : isub 320 (X : Int) = 320 - X := isub_small (by unfold IsInt; omega)
      rw [if_neg h1, e1, e2]
      by_cases h2 : (X : Int) + w ≥ 320
      · exact ⟨320 - X, by rw [if_pos h2]; omega, by omega⟩
      · exact ⟨w.toNat, by rw [if_neg h2]; omega, by omega⟩
  obtain ⟨W, hW, hW2⟩ := hwd
  have hhd : ∃ H : Nat, (if h < 0 then (0 : Int)
      else if iadd (Y : Int) h ≥ 320 then isub 320 (Y : Int) else h) = (H : Int)
      ∧ Y + H ≤ 320 := by
    have hYlt : (Y : Int) < 320 := by rw [← hY]; exact hy2
    by_cases h1 : h < 0
    · exact ⟨0, by rw [if_pos h1]; rfl, by omega⟩
    · have e1 : iadd (Y : Int) h = Y + h := iadd_small (by unfold IsInt; omega)
      have e2 : isub 320 (Y : Int) = 320 - Y := isub_small (by unfold IsInt; omega)
      rw [if_neg h1, e1, e2]
      by_cases h2 : (Y : Int) + h ≥ 320
      · exact ⟨320 - Y, by rw [if_pos h2]; omega, by omega⟩
      · exact ⟨h.toNat, by rw [if_neg h2]; omega, by omega⟩
  obtain ⟨H, hH, hH2⟩ := hhd
  refine ⟨X, Y, W, H, ?_, hW2, hH2⟩
  unfold normalize_coords
  simp only [LCD_WIDTH, LCD_HEIGHT, hy0, hY, hX, hW, hH]

theorem lcd_ram_draw_panel (fuel : Nat) (lcd_to8 pixels : Nat → Nat) (x y w h : Int)
    (X Y W H : Nat)
    (hn : normalize_coords x y w h LCD_HEIGHT = ((X : Int), (Y : Int), (W : Int), (H : Int)))
    (hXW : X + W ≤ 320) (hYH : Y + H ≤ 320) (hf : 320 < fuel) :
    lcd_ram_draw fuel lcd_to8 pixels x y w h
      = some (rect_cells (fun q => lcd_to8 (pixels q)) X W H Y 0) := by
  unfold lcd_ram_draw
  rw [hn]
  simp only
  obtain ⟨b1, b2, b3, b4⟩ := ram_draw_bounds X W Y H hXW hYH
  rw [b1, b2, b3, b4]
  exact ram_draw_rows_eq lcd_to8 pixels X W hXW H fuel Y 0 (by omega) hYH

theorem lcd_ram_fill_panel (fuel : Nat) (lcd_to8 : Nat → Nat) (color : Nat) (x y w h : Int)
    (X Y W H : Nat)
    (hn : normalize_coords x y w h LCD_HEIGHT = ((X : Int), (Y : Int), (W : Int), (H : Int)))
    (hXW : X + W ≤ 320) (hYH : Y + H ≤ 320) (hf : 320 < fuel) :
    lcd_ram_fill fuel lcd_to8 color x y w h
      = some (rect_cells (fun _ => lcd_to8 color) X W H Y 0) := by
  unfold lcd_ram_fill
  rw [hn]
  simp only
  obtain ⟨b1, _, b3, b4⟩ := ram_draw_bounds X W Y H hXW hYH
  rw [b1, b3, b4, toU32_natCast W (by omega)]
  exact ram_fill_rows_eq (lcd_to8 color) X W H fuel Y (by omega) hYH

theorem lcd_psram_draw_panel (fuel : Nat) (pixels : Nat → Nat) (x y w h : Int)
    (X Y W H : Nat)
    (hn : normalize_coords x y w h LCD_HEIGHT = ((X : Int), (Y : Int), (W : Int), (H : Int)))
    (hXW : X + W ≤ 320) (hYH : Y + H ≤ 320) (hf : 320 < fuel) :
    ∃ ws, lcd_psram_draw fuel pixels x y w h = some ws ∧
      ws.flatMap PsramWrite.cells = rect_cells pixels X W H Y 0 := by
  unfold lcd_psram_draw
  rw [hn]
  simp only
  obtain ⟨b1, b2, b3, b4⟩ := ram_draw_bounds X W Y H hXW hYH
  rw [b1, b2, b3, b4]
  exact psram_draw_rows_cells pixels X W hXW fuel (by omega) H fuel Y 0 (by omega) hYH

theorem lcd_psram_fill_panel (fuel : Nat) (tmp : Nat → Nat) (color : Nat) (x y w h : Int)
    (X Y W H : Nat)
    (hn : normalize_coords x y w h LCD_HEIGHT = ((X : Int), (Y : Int), (W : Int), (H : Int)))
    (hXW : X + W ≤ 320) (hYH : Y + H ≤ 320) (hf : 320 < fuel) :
    ∃ ws, lcd_psram_fill fuel tmp color x y w h = some ws ∧
      ws.flatMap PsramWrite.cells = rect_cells (fun _ => color) X W H Y 0 := by
  unfold lcd_psram_fill
  rw [hn]
  simp only
  obtain ⟨b1, b2, b3, b4⟩ := ram_draw_bounds X W Y H hXW hYH
  rw [b1, b2, b3, b4]
  exact psram_fill_rows_cells (tmpbuf_fill tmp color) color
    (fun k hk => by simp [tmpbuf_fill, hk]) X W hXW fuel (by omega) H fuel Y (by omega) hYH

theorem point_cells (lcd_to8 : Nat → Nat) (color : Nat) (x y : Int) :
    lcd_ram_point lcd_to8 color x y
      = to8_cells lcd_to8 ((lcd_psram_point color x y).flatMap PsramWrite.cells) := by
  unfold lcd_ram_point lcd_psram_point
  by_cases hg : x ≥ 0 ∧ y ≥ 0 ∧ x < LCD_WIDTH ∧ y < LCD_HEIGHT
  · rw [if_pos hg, if_pos hg]
    unfold LCD_WIDTH LCD_HEIGHT at hg
    obtain ⟨h1, h2, h3, h4⟩ := hg
    have e1 : imul y LCD_WIDTH = y * 320 := imul_small (by unfold IsInt LCD_WIDTH; omega)
    have e2 : iadd x (y * 320) = x + y * 320 := iadd_small (by unfold IsInt; omega)
    have e3 : imul (x + y * 320) 2 = (x + y * 320) * 2 := imul_small (by unfold IsInt; omega)
    rw [e1, e2, e3]
    have e4 : toU32 ((x + y * 320) * 2) / 2 = (x + y * 320).toNat := by
      unfold toU32
      omega
    simp [to8_cells, PsramWrite.cells, e4, List.range_succ]
  · rw [if_neg hg, if_neg hg]
    rfl

theorem receiver_unknown_tag (T : FifoTags) (enable : Int → Bool) (message : Nat)
    (fifo : List Nat) (h : message ∉ T.handled) :
    lcd_fifo_receiver T enable message fifo = some ⟨0, none, fifo, []⟩ := by
  simp only [FifoTags.handled, List.mem_cons, List.mem_singleton, List.not_mem_nil, not_or,
    or_false] at h
  obtain ⟨h1, h2, h3, h4, h5, h6, h7, h8, h9⟩ := h
  simp only [lcd_fifo_receiver, h1, h2, h3, h4, h5, h6, h7, h8, h9, ↓reduceIte]
  rfl

theorem pop_bind_some {β : Type} (fifo : List Nat) (f : Nat × List Nat → Option β) (r : β)
    (h : (multicore_fifo_pop_blocking_inline fifo >>= f) = some r) :
    ∃ w rest, f (w, rest) = some r := by
  cases fifo with
  | nil => simp [multicore_fifo_pop_blocking_inline] at h
  | cons w rest => exact ⟨w, rest, by simpa [multicore_fifo_pop_blocking_inline] using h⟩

theorem pop_string_bind_some {β : Type} (fifo : List Nat)
    (f : List Nat × Nat × List Nat → Option β) (r : β)
    (h : (multicore_fifo_pop_string fifo >>= f) = some r) :
    ∃ text len rest, f (text, len, rest) = some r := by
  cases hp : multicore_fifo_pop_string fifo with
  | none => rw [hp] at h; simp at h
  | some v =>
    obtain ⟨text, len, rest⟩ := v
    rw [hp] at h
    exact ⟨text, len, rest, by simpa using h⟩

theorem receiver_returns_one (T : FifoTags) (enable : Int → Bool) (message : Nat)
    (fifo : List Nat) (r : Received) (h : message ∈ T.handled)
    (hr : lcd_fifo_receiver T enable message fifo = some r) : r.handled = 1 := by
  simp only [FifoTags.handled, List.mem_cons, List.mem_singleton, List.not_mem_nil,
    or_false] at h
  unfold lcd_fifo_receiver at hr
  split_ifs at hr
  all_goals first
    | (rcases h with h | h | h | h | h | h | h | h | h <;> contradiction)
    | (clear h
       repeat (obtain ⟨_, _, hr⟩ := pop_bind_some _ _ _ hr; dsimp only at hr)
       first
         | (cases hr; rfl)
         | (obtain ⟨_, _, _, hr⟩ := pop_string_bind_some _ _ _ hr
            dsimp only at hr
            cases hr
            rfl))

theorem receiver_handles_tag (T : FifoTags) (hT : T.Distinct) (enable : Int → Bool)
    (message : Nat) (h : message ∈ T.handled) :
    ∃ args : List Nat, ∀ rest : List Nat, ∃ r,
      lcd_fifo_receiver T enable message (args ++ rest) = some r ∧ r.handled = 1 ∧
        r.fifo = rest := by
  have key : ∀ op : LcdOp, op.WellTyped → (lcd_remote T op).head? = some message →
      ∃ args : List Nat, ∀ rest : List Nat, ∃ r,
        lcd_fifo_receiver T enable message (args ++ rest) = some r ∧ r.handled = 1 ∧
          r.fifo = rest := by
    intro op hop hhead
    obtain ⟨tag, args, hsend⟩ : ∃ tag args, lcd_remote T op = tag :: args := by
      cases op <;> exact ⟨_, _, rfl⟩
    rw [hsend] at hhead
    simp only [List.head?_cons, Option.some.injEq] at hhead
    subst hhead
    refine ⟨args, fun rest => ⟨⟨1, some op, rest, reply_words enable op⟩, ?_, rfl, rfl⟩⟩
    have := owner_poll_remote T hT enable op hop rest
    rw [hsend] at this
    exact this
  simp only [FifoTags.handled, List.mem_cons, List.mem_singleton, List.not_mem_nil,
    or_false] at h
  rcases h with h | h | h | h | h | h | h | h | h
  · exact key (LcdOp.point 0 0 0) (by simp [LcdOp.WellTyped, IsInt]) (by rw [h]; rfl)
  · exact key (LcdOp.draw 0 0 0 0 0) (by simp [LcdOp.WellTyped, IsInt]) (by rw [h]; rfl)
  · exact key (LcdOp.fill 0 0 0 0 0) (by simp [LcdOp.WellTyped, IsInt]) (by rw [h]; rfl)
  · exact key LcdOp.clear (by simp [LcdOp.WellTyped]) (by rw [h]; rfl)
  · exact key (LcdOp.buffer_enable 0) (by simp [LcdOp.WellTyped, IsInt]) (by rw [h]; rfl)
  · exact key LcdOp.buffer_blit (by simp [LcdOp.WellTyped]) (by rw [h]; rfl)
  · exact key (LcdOp.draw_char 0 0 0 0 0) (by simp [LcdOp.WellTyped, IsInt]) (by rw [h]; rfl)
  · exact key (LcdOp.draw_text 0 0 0 0 [] 0 0) (by simp [LcdOp.WellTyped, IsInt])
      (by rw [h]; rfl)
  · exact key (LcdOp.scroll 0) (by simp [LcdOp.WellTyped, IsInt]) (by rw [h]; rfl)

theorem applyStores_of_not_mem (l : List Store) :
    ∀ (buf : Nat → Nat) (k : Nat), (∀ s ∈ l, s.index ≠ k) → applyStores buf l k = buf k := by
  induction l with
  | nil => intro buf k _; rfl
  | cons s l ih =>
    intro buf k h
    simp only [applyStores]
    rw [ih _ k (fun t ht => h t (List.mem_cons_of_mem _ ht))]
    have : k ≠ s.index := fun e => h s (List.mem_cons_self _ _) e.symm
    simp [this]

theorem applyStores_of_mem (l : List Store) :
    ∀ (buf : Nat → Nat) (s : Store), s ∈ l →
      (∀ t ∈ l, t.index = s.index → t.value = s.value) →
      applyStores buf l s.index = s.value := by
  induction l with
  | nil => intro buf s hs; cases hs
  | cons a l ih =>
    intro buf s hs hu
    simp only [applyStores]
    by_cases hin : ∃ t ∈ l, t.index = s.index
    · obtain ⟨t, ht, hti⟩ := hin
      have hv : t.value = s.value := hu t (List.mem_cons_of_mem _ ht) hti
      have := ih (fun k => if k = a.index then a.value else buf k) t ht
        (fun u hu2 hui => by
          rw [hu u (List.mem_cons_of_mem _ hu2) (hui.trans hti), hv])
      rw [hti] at this
      rw [this, hv]
    · have hno : ∀ t ∈ l, t.index ≠ s.index := fun t ht e => hin ⟨t, ht, e⟩
      rw [applyStores_of_not_mem l _ _ hno]
      rcases List.mem_cons.mp hs with rfl | hs2
      · simp
      · exact absurd rfl (hno s hs2)

theorem mem_draw_char_row (font : font_t) (fg bg offset j : Nat) (n : Nat) :
    ∀ (i : Nat) (s : Store), s ∈ draw_char_row font fg bg offset j n i ↔
      ∃ t, t < n ∧ s = Store.mk (i + t + j * font.glyph_width)
        (glyph_pixel font fg bg offset (i + t)) := by
  induction n with
  | zero => intro i s; simp [draw_char_row]
  | succ n ih =>
    intro i s
    simp only [draw_char_row, List.mem_cons, ih]
    constructor
    · rintro (h | ⟨t, ht, h⟩)
      · exact ⟨0, by omega, by rw [h]; rfl⟩
      · refine ⟨t + 1, by omega, ?_⟩
        rw [h]
        have : i + 1 + t = i + (t + 1) := by omega
        rw [this]
    · rintro ⟨t, ht, h⟩
      cases t with
      | zero => left; rw [h]; rfl
      | succ t =>
        right
        refine ⟨t, by omega, ?_⟩
        rw [h]
        have : i + 1 + t = i + (t + 1) := by omega
        rw [this]

theorem mem_draw_char_rows (font : font_t) (fg bg : Nat) (n : Nat) :
    ∀ (j offset : Nat) (s : Store), s ∈ draw_char_rows font fg bg n j offset ↔
      ∃ r i, r < n ∧ i < font.glyph_width ∧
        s = Store.mk (i + (j + r) * font.glyph_width)
          (glyph_pixel font fg bg (offset + r * font.bytewidth) i) := by
  induction n with
  | zero => intro j offset s; simp [draw_char_rows]
  | succ n ih =>
    intro j offset s
    simp only [draw_char_rows, List.mem_append, mem_draw_char_row, ih]
    constructor
    · rintro (⟨t, ht, h⟩ | ⟨r, i, hr, hi, h⟩)
      · refine ⟨0, t, by omega, ht, ?_⟩
        rw [h]
        simp
      · refine ⟨r + 1, i, by omega, hi, ?_⟩
        rw [h]
        have e1 : j + 1 + r = j + (r + 1) := by omega
        have e2 : offset + font.bytewidth + r * font.bytewidth
            = offset + (r + 1) * font.bytewidth := by ring
        rw [e1, e2]
    · rintro ⟨r, i, hr, hi, h⟩
      cases r with
      | zero =>
        left
        refine ⟨i, hi, ?_⟩
        rw [h]
        simp
      | succ r =>
        right
        refine ⟨r, i, by omega, hi, ?_⟩
        rw [h]
        have e1 : j + 1 + r = j + (r + 1) := by omega
        have e2 : offset + font.bytewidth + r * font.bytewidth
            = offset + (r + 1) * font.bytewidth := by ring
        rw [e1, e2]

theorem cell_decompose_unique {gw i j i2 j2 : Nat} (hi : i < gw) (hi2 : i2 < gw)
    (h : i + j * gw = i2 + j2 * gw) : i = i2 ∧ j = j2 := by
  have hgw : 0 < gw := by omega
  have h1 : (i + j * gw) % gw = i := by
    rw [Nat.add_mul_mod_self_right]; exact Nat.mod_eq_of_lt hi
  have h2 : (i2 + j2 * gw) % gw = i2 := by
    rw [Nat.add_mul_mod_self_right]; exact Nat.mod_eq_of_lt hi2
  have h3 : (i + j * gw) / gw = j := by
    rw [Nat.add_mul_div_right _ _ hgw, Nat.div_eq_of_lt hi, Nat.zero_add]
  have h4 : (i2 + j2 * gw) / gw = j2 := by
    rw [Nat.add_mul_div_right _ _ hgw, Nat.div_eq_of_lt hi2, Nat.zero_add]
  rw [h] at h1 h3
  exact ⟨h1.symm.trans h2, h3.symm.trans h4⟩

theorem glyph_pixel_eq (font : font_t) (fg bg offset i : Nat) :
    glyph_pixel font fg bg offset i
      = if (glyph_byte font (offset + i / 8)).testBit (7 - i % 8) then fg else bg := by
  unfold glyph_pixel
  rw [Nat.one_shiftLeft, Nat.and_two_pow]
  cases h : (glyph_byte font (offset + i / 8)).testBit (7 - i % 8) <;> simp

theorem glyph_offset_in_range (font : font_t) (c : Nat) (h1 : font.firstcode ≤ c)
    (h2 : c < font.firstcode + font.glyph_count) (h3 : c < 256) :
    glyph_offset font c = (c - font.firstcode) * font.bytewidth * font.glyph_height := by
  unfold glyph_offset
  have hc : ¬ (c > font.glyph_count + font.firstcode) := by omega
  simp only [if_neg hc]
  have : (c + 256 - font.firstcode) % 256 = c - font.firstcode := by omega
  rw [this]

theorem text_draws_succ (x0 y : Int) (fg bg gw c : Nat) (text : List Nat) (n : Nat) :
    text_draws x0 y fg bg gw (c :: text) (n + 1)
      = LcdOp.draw_char x0 y fg bg c :: text_draws (x0 + gw) y fg bg gw text n := by
  unfold text_draws
  rw [List.range_succ_eq_map, List.map_cons, List.map_map]
  congr 1
  · simp
  · apply List.map_congr_left
    intro k _
    simp only [Function.comp, List.getD_cons_succ]
    congr 1
    push_cast
    ring

theorem draw_text_loop_spec (font : font_t) (y : Int) (fg bg : Nat) (text : List Nat) :
    ∀ x : Int, -2147483648 ≤ x →
      x + (text.length : Int) * (font.glyph_width : Int) < 2147483648 →
      ∃ n, n ≤ text.length ∧ (text ≠ [] → 1 ≤ n) ∧
        draw_text_loop font y fg bg text x = text_draws x y fg bg font.glyph_width text n ∧
        (∀ k : Nat, 1 ≤ k → k < n → x + (k : Int) * (font.glyph_width : Int) ≤ 320) ∧
        (n < text.length → x + (n : Int) * (font.glyph_width : Int) > 320) := by
  induction text with
  | nil =>
    intro x _ _
    exact ⟨0, le_refl _, fun h => absurd rfl h, rfl, fun k h1 h2 => by omega,
      fun h => by simp at h⟩
  | cons c text ih =>
    intro x hlo hhi
    have hg : (0 : Int) ≤ (font.glyph_width : Int) := Int.ofNat_nonneg _
    have hlen : ((c :: text).length : Int) = (text.length : Int) + 1 := by simp
    rw [hlen] at hhi
    have hmul : ((text.length : Int) + 1) * (font.glyph_width : Int)
        = (text.length : Int) * (font.glyph_width : Int) + (font.glyph_width : Int) := by ring
    rw [hmul] at hhi
    have hnn : (0 : Int) ≤ (text.length : Int) * (font.glyph_width : Int) :=
      mul_nonneg (Int.ofNat_nonneg _) hg
    have hadd : iadd x (font.glyph_width : Int) = x + (font.glyph_width : Int) :=
      iadd_small (by unfold IsInt; omega)
    simp only [draw_text_loop, hadd, LCD_WIDTH]
    by_cases hcut : x + (font.glyph_width : Int) > 320
    · refine ⟨1, by simp, fun _ => le_refl _, ?_, fun k h1 h2 => by omega, fun _ => by
        simpa using hcut⟩
      rw [if_pos hcut, text_draws_succ]
      rfl
    · obtain ⟨n, hn, _, hlist, hpos, hstop⟩ := ih (x + font.glyph_width) (by omega)
        (by omega)
      refine ⟨n + 1, by simp; omega, fun _ => by omega, ?_, ?_, ?_⟩
      · rw [if_neg hcut, text_draws_succ, hlist]
      · intro k h1 h2
        rcases Nat.lt_or_ge k 2 with hk | hk
        · have : k = 1 := by omega
          subst this
          simp only [Nat.cast_one, one_mul]
          omega
        · have := hpos (k - 1) (by omega) (by omega)
          have hk1 : ((k - 1 : Nat) : Int) = (k : Int) - 1 := by omega
          rw [hk1] at this
          have e : ((k : Int) - 1) * (font.glyph_width : Int)
              = (k : Int) * (font.glyph_width : Int) - (font.glyph_width : Int) := by ring
          rw [e] at this
          omega
      · intro hlt
        have := hstop (by simpa using hlt)
        have e : ((n + 1 : Nat) : Int) * (font.glyph_width : Int)
            = (n : Int) * (font.glyph_width : Int) + (font.glyph_width : Int) := by
          push_cast; ring
        rw [e]
        omega

theorem text_start_eq (font : font_t) (x : Int) (len align : Nat)
    (hlo : -2147483648 ≤ x - ((len * font.glyph_width : Nat) : Int))
    (hhi : x + ((len * font.glyph_width : Nat) : Int) < 2147483648) :
    (if align = LCD_ALIGN_CENTER then
      wrapInt (x - (((len * font.glyph_width) % 4294967296 / 2 : Nat) : Int))
    else if align = LCD_ALIGN_RIGHT then
      wrapInt (x - (((len * font.glyph_width) % 4294967296 : Nat) : Int))
    else x) = text_start x len font.glyph_width align := by
  unfold text_start
  have hsmall : len * font.glyph_width < 4294967296 := by omega
  rw [Nat.mod_eq_of_lt hsmall]
  split_ifs
  · exact wrapInt_of_isInt (by unfold IsInt; omega)
  · exact wrapInt_of_isInt (by unfold IsInt; omega)
  · rfl

theorem lcd_draw_text_local_spec (font : font_t) (x y : Int) (fg bg : Nat) (text : List Nat)
    (align : Nat)
    (hlo : -2147483648 ≤ x - ((text.length * font.glyph_width : Nat) : Int))
    (hhi : x + ((text.length * font.glyph_width : Nat) : Int) < 2147483648) :
    ∃ n, n ≤ text.length ∧ (text ≠ [] → 1 ≤ n) ∧
      lcd_draw_text_local font x y fg bg text text.length align
        = text_draws (text_start x text.length font.glyph_width align) y fg bg
            font.glyph_width text n ∧
      (∀ k : Nat, 1 ≤ k → k < n →
        text_start x text.length font.glyph_width align
          + (k : Int) * (font.glyph_width : Int) ≤ 320) ∧
      (n < text.length →
        text_start x text.length font.glyph_width align
          + (n : Int) * (font.glyph_width : Int) > 320) := by
  unfold lcd_draw_text_local
  simp only [text_start_eq font x text.length align hlo hhi, List.take_length]
  have hs1 : x - ((text.length * font.glyph_width : Nat) : Int)
      ≤ text_start x text.length font.glyph_width align := by
    unfold text_start
    split_ifs <;> omega
  have hs2 : text_start x text.length font.glyph_width align ≤ x := by
    unfold text_start
    split_ifs <;> omega
  have hc : ((text.length * font.glyph_width : Nat) : Int)
      = (text.length : Int) * (font.glyph_width : Int) := by push_cast; ring
  exact draw_text_loop_spec font y fg bg text _ (by omega) (by rw [← hc]; omega)

theorem lcd_load_font_null_ok (D : DefaultFont) (heap : FontHeap) (font : font_t)
    (hg : heap.default_glyphs = true) (hc : heap.colorbuf = true)
    (hw1 : 1 ≤ D.DEFAULT_GLYPH_WIDTH) (hw2 : D.DEFAULT_GLYPH_WIDTH < 256)
    (hh1 : 1 ≤ D.DEFAULT_GLYPH_HEIGHT) (hh2 : D.DEFAULT_GLYPH_HEIGHT < 256) :
    lcd_load_font_null D heap font = some (default_font D) := by
  unfold lcd_load_font_null font_derive font_release default_font
  have e1 : D.DEFAULT_GLYPH_WIDTH % 256 = D.DEFAULT_GLYPH_WIDTH := Nat.mod_eq_of_lt hw2
  have e2 : D.DEFAULT_GLYPH_HEIGHT % 256 = D.DEFAULT_GLYPH_HEIGHT := Nat.mod_eq_of_lt hh2
  have e3 : ¬ (D.DEFAULT_GLYPH_WIDTH = 0 ∨ D.DEFAULT_GLYPH_HEIGHT = 0) := by omega
  have e4 : (D.DEFAULT_GLYPH_WIDTH / 8 + (if D.DEFAULT_GLYPH_WIDTH % 8 ≠ 0 then 1 else 0)) % 256
      = D.DEFAULT_GLYPH_WIDTH / 8 + (if D.DEFAULT_GLYPH_WIDTH % 8 ≠ 0 then 1 else 0) := by
    split_ifs <;> omega
  simp only [hg, hc, e1, e2, e3, e4, if_true, if_false]

theorem unit_fill_in_panel (x y : Int) (hx : 0 ≤ x) (hx2 : x < 320) (hy : 0 ≤ y)
    (hy2 : y < 320) :
    ∃ X Y : Nat, x = (X : Int) ∧ y = (Y : Int) ∧ X < 320 ∧ Y < 320 ∧
      normalize_coords x y 1 1 LCD_HEIGHT = ((X : Int), (Y : Int), ((1 : Nat) : Int),
        ((1 : Nat) : Int)) := by
  refine ⟨x.toNat, y.toNat, by omega, by omega, by omega, by omega, ?_⟩
  have e1 : ((x.toNat : Nat) : Int) = x := by omega
  have e2 : ((y.toNat : Nat) : Int) = y := by omega
  rw [e1, e2]
  unfold LCD_HEIGHT
  exact normalize_coords_id hx hy (by decide) (by decide) (by omega) hy2 (by omega)
    (by decide)

theorem ram_point_in_panel (lcd_to8 : Nat → Nat) (color : Nat) (X Y : Nat) (hX : X < 320)
    (hY : Y < 320) :
    lcd_ram_point lcd_to8 color (X : Int) (Y : Int)
      = rect_cells (fun _ => lcd_to8 color) X 1 1 Y 0 := by
  unfold lcd_ram_point
  have hg : (X : Int) ≥ 0 ∧ (Y : Int) ≥ 0 ∧ (X : Int) < LCD_WIDTH ∧ (Y : Int) < LCD_HEIGHT := by
    unfold LCD_WIDTH LCD_HEIGHT
    omega
  rw [if_pos hg]
  have e1 : imul (Y : Int) LCD_WIDTH = (Y : Int) * 320 :=
    imul_small (by unfold IsInt LCD_WIDTH; omega)
  have e2 : iadd (X : Int) ((Y : Int) * 320) = X + Y * 320 :=
    iadd_small (by unfold IsInt; omega)
  rw [e1, e2]
  have e3 : ((X : Int) + (Y : Int) * 320).toNat = 320 * Y + X + 0 := by omega
  simp [rect_cells, e3, List.range_succ]

theorem psram_point_in_panel (color : Nat) (X Y : Nat) (hX : X < 320) (hY : Y < 320) :
    (lcd_psram_point color (X : Int) (Y : Int)).flatMap PsramWrite.cells
      = rect_cells (fun _ => color) X 1 1 Y 0 := by
  unfold lcd_psram_point
  have hg : (X : Int) ≥ 0 ∧ (Y : Int) ≥ 0 ∧ (X : Int) < LCD_WIDTH ∧ (Y : Int) < LCD_HEIGHT := by
    unfold LCD_WIDTH LCD_HEIGHT
    omega
  rw [if_pos hg]
  have e1 : imul (Y : Int) LCD_WIDTH = (Y : Int) * 320 :=
    imul_small (by unfold IsInt LCD_WIDTH; omega)
  have e2 : iadd (X : Int) ((Y : Int) * 320) = X + Y * 320 :=
    iadd_small (by unfold IsInt; omega)
  have e3 : imul ((X : Int) + (Y : Int) * 320) 2 = ((X : Int) + (Y : Int) * 320) * 2 :=
    imul_small (by unfold IsInt; omega)
  rw [e1, e2, e3]
  have e4 : toU32 (((X : Int) + (Y : Int) * 320) * 2) / 2 = 320 * Y + X + 0 := by
    unfold toU32
    omega
  simp [rect_cells, PsramWrite.cells, e4, List.range_succ]

theorem toU8_shift_natCast (x : Nat) (hx : x < 65536) : toU8 ((x : Int) >>> 8) = x / 256 := by
  unfold toU8
  have h1 : (x : Int) >>> (8 : Int) = ((x >>> 8 : Nat) : Int) := Int.shiftRight_coe_nat x 8
  rw [h1, Nat.shiftRight_eq_div_pow]
  have h2 : x / 2 ^ 8 = x / 256 := rfl
  rw [h2]
  have h3 : x / 256 < 256 := by omega
  omega

theorem toU8_natCast (x : Nat) : toU8 (x : Int) = x % 256 := by
  unfold toU8
  omega

theorem lcd_set_region_trace (x1 y1 x2 y2 : Nat) (hx1 : x1 < 65536) (hy1 : y1 < 65536)
    (hx2 : x2 < 65536) (hy2 : y2 < 65536) :
    lcd_set_region (x1 : Int) (y1 : Int) (x2 : Int) (y2 : Int)
      = [HwEvent.setDcCs false false,
          HwEvent.waitIdle, HwEvent.setDcCs false false, HwEvent.put 0x2A,
          HwEvent.waitIdle, HwEvent.setDcCs true false,
          HwEvent.put (x1 / 256), HwEvent.put (x1 % 256),
          HwEvent.put (x2 / 256), HwEvent.put (x2 % 256),
          HwEvent.waitIdle, HwEvent.setDcCs false true,
          HwEvent.waitIdle, HwEvent.setDcCs false false, HwEvent.put 0x2B,
          HwEvent.waitIdle, HwEvent.setDcCs true false,
          HwEvent.put (y1 / 256), HwEvent.put (y1 % 256),
          HwEvent.put (y2 / 256), HwEvent.put (y2 % 256),
          HwEvent.waitIdle, HwEvent.setDcCs false true,
          HwEvent.waitIdle, HwEvent.setDcCs false false, HwEvent.put 0x2C,
          HwEvent.waitIdle, HwEvent.setDcCs false true,
          HwEvent.busyWaitUs 1, HwEvent.setDcCs true false] := by
  unfold lcd_set_region lcd_write_cmd
  rw [toU8_shift_natCast x1 hx1, toU8_shift_natCast x2 hx2, toU8_shift_natCast y1 hy1,
    toU8_shift_natCast y2 hy2, toU8_natCast, toU8_natCast, toU8_natCast, toU8_natCast]
  rfl

theorem rect_cells_value (c : Nat) (X W : Nat) (n : Nat) :
    ∀ Y p : Nat, ∀ t ∈ rect_cells (fun _ => c) X W n Y p, t.value = c := by
  induction n with
  | zero => intro Y p t ht; cases ht
  | succ n ih =>
    intro Y p t ht
    simp only [rect_cells, List.mem_append, List.mem_map, List.mem_range] at ht
    rcases ht with ⟨k, _, rfl⟩ | ht
    · rfl
    · exact ih _ _ t ht

theorem mem_rect_cells_rows (c : Nat) (n : Nat) :
    ∀ Y p k : Nat, 320 * Y ≤ k → k < 320 * (Y + n) →
      Store.mk k c ∈ rect_cells (fun _ => c) 0 320 n Y p := by
  induction n with
  | zero => intro Y p k h1 h2; omega
  | succ n ih =>
    intro Y p k h1 h2
    simp only [rect_cells, List.mem_append, List.mem_map, List.mem_range]
    by_cases hk : k < 320 * (Y + 1)
    · left
      refine ⟨k - 320 * Y, by omega, ?_⟩
      congr 1
      omega
    · right
      exact ih (Y + 1) (p + 320) k (by omega) (by omega)

theorem applyStores_const (l : List Store) (buf : Nat → Nat) (k c : Nat)
    (hv : ∀ t ∈ l, t.value = c) (hk : Store.mk k c ∈ l) : applyStores buf l k = c :=
  applyStores_of_mem l buf (Store.mk k c) hk (fun t ht _ => hv t ht)

theorem bracket_overrun (N : Nat) (k : Nat) :
    ∀ s : Nat, s + k = N →
      Store.mk N 0 ∈ (stdio_picocalc_out_chars N { state := AnsiState.AnsiBracket, stack_size := s }
        (List.replicate (k + 1) 48)).2 := by
  induction k with
  | zero =>
    intro s hs
    have hs0 : s = N := by omega
    subst hs0
    simp [stdio_picocalc_out_chars, out_chars_step, ansi_final_bytes]
  | succ k ih =>
    intro s hs
    have hlt : s < N := by omega
    rw [List.replicate_succ]
    simp only [stdio_picocalc_out_chars, out_chars_step, ansi_final_bytes]
    have h48 : ¬ (48 ∈ [65, 66, 67, 68, 74, 75, 109, 72, 108, 104]) := by decide
    simp only [if_neg h48, if_pos hlt]
    apply List.mem_append_right
    exact ih (s + 1) (by omega)

theorem lines_safe_append (a : List HwEvent) :
    ∀ (f : Bool) (b : List HwEvent),
      lines_safe f (a ++ b) = (lines_safe f a).bind (fun g => lines_safe g b) := by
  induction a with
  | nil => intro f b; rfl
  | cons e a ih =>
    intro f b
    cases e with
    | waitIdle => exact ih false b
    | put byte => exact ih true b
    | busyWaitUs us => exact ih f b
    | sleepMs ms => exact ih f b
    | setDcCs dc cs =>
      cases f
      · simp [lines_safe, ih]
      · simp [lines_safe]

theorem lines_safe_puts (l : List HwEvent) (hl : AllPuts l) :
    ∀ f : Bool, ∃ g, lines_safe f l = some g := by
  induction l with
  | nil => intro f; exact ⟨f, rfl⟩
  | cons e l ih =>
    intro f
    obtain ⟨b, rfl⟩ := hl e (List.mem_cons_self _ _)
    simp only [lines_safe]
    exact ih (fun e he => hl e (List.mem_cons_of_mem _ he)) true

theorem lines_safe_puts_idle (l : List HwEvent) (hl : AllPuts l) (f : Bool) (dc cs : Bool) :
    lines_safe f (l ++ [HwEvent.waitIdle, HwEvent.setDcCs dc cs]) = some false := by
  rw [lines_safe_append]
  obtain ⟨g, hg⟩ := lines_safe_puts l hl f
  rw [hg]
  rfl

theorem allPuts_flatMap {α : Type} (l : List α) (g : α → List HwEvent)
    (hg : ∀ a, AllPuts (g a)) : AllPuts (l.flatMap g) := by
  intro e he
  rw [List.mem_flatMap] at he
  obtain ⟨a, _, hea⟩ := he
  exact hg a e hea

theorem allPuts_write16_puts (c : Nat) : AllPuts (write16_puts c) := by
  intro e he
  simp only [write16_puts, List.mem_cons, List.mem_singleton, List.not_mem_nil, or_false] at he
  rcases he with rfl | rfl
  · exact ⟨_, rfl⟩
  · exact ⟨_, rfl⟩

theorem allPuts_write16 (data : Nat → Nat) (count : Nat) : AllPuts (lcd_write16 data count) :=
  allPuts_flatMap _ _ (fun _ => allPuts_write16_puts _)

theorem allPuts_direct_fill_loop (color : Nat) (n : Nat) : AllPuts (direct_fill_loop color n) := by
  induction n with
  | zero => intro e he; cases he
  | succ n ih =>
    intro e he
    simp only [direct_fill_loop, List.mem_cons] at he
    rcases he with rfl | rfl | he
    · exact ⟨_, rfl⟩
    · exact ⟨_, rfl⟩
    · exact ih e he

theorem lines_safe_write_cmd (cmd : List Nat) (count : Nat) (f : Bool) :
    lines_safe f (lcd_write_cmd cmd count) = some false := by
  unfold lcd_write_cmd
  by_cases hc : count ≥ 2
  · rw [if_pos hc, List.append_assoc, lines_safe_append]
    have e1 : lines_safe f
        [HwEvent.waitIdle, HwEvent.setDcCs false false, HwEvent.put (cmd.getD 0 0)]
        = some true := rfl
    rw [e1, Option.some_bind, List.append_assoc, lines_safe_append]
    have e2 : lines_safe true [HwEvent.waitIdle, HwEvent.setDcCs true false] = some false := rfl
    rw [e2, Option.some_bind]
    apply lines_safe_puts_idle
    intro e he
    rw [List.mem_map] at he
    obtain ⟨i, _, rfl⟩ := he
    exact ⟨_, rfl⟩
  · rw [if_neg hc]
    rfl

theorem lines_safe_set_region (x1 y1 x2 y2 : Int) :
    lines_safe false (lcd_set_region x1 y1 x2 y2) = some false := by
  unfold lcd_set_region
  simp only [List.cons_append, List.nil_append, List.append_assoc, lines_safe,
    Bool.false_eq_true, ↓reduceIte]

theorem lines_safe_region_puts (x1 y1 x2 y2 : Int) (l : List HwEvent) (hl : AllPuts l) :
    lines_safe false
      (lcd_set_region x1 y1 x2 y2 ++ l ++ [HwEvent.waitIdle, HwEvent.setDcCs false true])
      = some false := by
  rw [List.append_assoc, lines_safe_append, lines_safe_set_region, Option.some_bind]
  exact lines_safe_puts_idle l hl false false true

theorem lines_safe_direct_fill (color : Nat) (x y w h : Int) :
    lines_safe false (lcd_direct_fill color x y w h) = some false := by
  unfold lcd_direct_fill
  exact lines_safe_region_puts _ _ _ _ _ (allPuts_direct_fill_loop _ _)

theorem lines_safe_direct_draw (pixels : Nat → Nat) (x y w h : Int) :
    lines_safe false (lcd_direct_draw pixels x y w h) = some false := by
  unfold lcd_direct_draw
  exact lines_safe_region_puts _ _ _ _ _ (allPuts_write16 _ _)

theorem allPuts_append (a b : List HwEvent) (ha : AllPuts a) (hb : AllPuts b) :
    AllPuts (a ++ b) := by
  intro e he
  rcases List.mem_append.mp he with h | h
  · exact ha e h
  · exact hb e h

theorem blit_psram_batches_cons (P : Psram) (y : Nat) (ys : List Nat) (tmp : Nat → Nat) :
    blit_psram_batches P (y :: ys) tmp
      = (lcd_write16 ((loop_steps LCD_TMPBUF_SIZE 10).foldl (blit_read P y) tmp) LCD_TMPBUF_SIZE
          ++ (blit_psram_batches P ys
                ((loop_steps LCD_TMPBUF_SIZE 10).foldl (blit_read P y) tmp)).1,
        (loop_steps LCD_TMPBUF_SIZE 10).map
            (fun (x : Nat) => PsramRead.mk (toU32 (imul (iadd x y) 2)) x 20)
          ++ (blit_psram_batches P ys
                ((loop_steps LCD_TMPBUF_SIZE 10).foldl (blit_read P y) tmp)).2.1,
        (blit_psram_batches P ys
                ((loop_steps LCD_TMPBUF_SIZE 10).foldl (blit_read P y) tmp)).2.2) := by
  rfl

theorem allPuts_blit_batches (P : Psram) (ys : List Nat) :
    ∀ tmp, AllPuts (blit_psram_batches P ys tmp).1 := by
  induction ys with
  | nil => intro tmp e he; cases he
  | cons y ys ih =>
    intro tmp
    rw [blit_psram_batches_cons]
    exact allPuts_append _ _ (allPuts_write16 _ _) (ih _)

theorem blit_hw_eq (lcd_to16 : Nat → Nat) (mode : Int) (P : Psram) (fb : Framebuffer)
    (tmp : Nat → Nat) (hm : mode ≠ LCD_BUFFERMODE_DIRECT) :
    (lcd_buffer_blit_local lcd_to16 mode P fb tmp).hw
      = lcd_set_region 0 0 319 319
        ++ (if mode = LCD_BUFFERMODE_PSRAM then
              (blit_psram_batches P (loop_steps 102400 LCD_TMPBUF_SIZE) tmp).1
            else if mode = LCD_BUFFERMODE_RAM then
              (List.range 102400).flatMap (fun count => write16_puts (lcd_to16 (fb count)))
            else [])
        ++ [HwEvent.waitIdle, HwEvent.setDcCs false true] := by
  unfold lcd_buffer_blit_local
  rw [if_neg hm]
  split_ifs <;> rfl

theorem lines_safe_blit (lcd_to16 : Nat → Nat) (mode : Int) (P : Psram) (fb : Framebuffer)
    (tmp : Nat → Nat) :
    lines_safe false (lcd_buffer_blit_local lcd_to16 mode P fb tmp).hw = some false := by
  by_cases hm : mode = LCD_BUFFERMODE_DIRECT
  · unfold lcd_buffer_blit_local
    rw [if_pos hm]
    rfl
  · rw [blit_hw_eq _ _ _ _ _ hm]
    apply lines_safe_region_puts
    split_ifs
    · exact allPuts_blit_batches _ _ _
    · exact allPuts_flatMap _ _ (fun _ => allPuts_write16_puts _)
    · intro e he; cases he

theorem hw_safe (lcd_to16 : Nat → Nat) (s : LcdState) (P : Psram) (fb : Framebuffer)
    (tmp : Nat → Nat) (op : DisplayOp) (t : List HwEvent)
    (h : DisplayOp.hw lcd_to16 s P fb tmp op = some t) : lines_safe false t = some false := by
  cases op with
  | draw pixels x y w h =>
    simp only [DisplayOp.hw] at h
    split at h
    · cases h
    · cases h; exact lines_safe_direct_draw _ _ _ _ _
    · cases h; rfl
  | fill color x y w h =>
    simp only [DisplayOp.hw] at h
    split at h
    · cases h
    · cases h; exact lines_safe_direct_fill _ _ _ _ _
    · cases h; rfl
  | point color x y =>
    simp only [DisplayOp.hw] at h
    split at h
    · cases h
    · cases h; exact lines_safe_direct_fill _ _ _ _ _
    · cases h; rfl
  | clear =>
    simp only [DisplayOp.hw] at h
    split at h
    · cases h
    · cases h; exact lines_safe_direct_fill _ _ _ _ _
    · cases h; rfl
  | blit => simp only [DisplayOp.hw, Option.some.injEq] at h; subst h; exact lines_safe_blit _ _ _ _ _
  | scroll lines => simp only [DisplayOp.hw, Option.some.injEq] at h; subst h; exact lines_safe_write_cmd _ _ _
  | lcd_blank => simp only [DisplayOp.hw, Option.some.injEq] at h; subst h; exact lines_safe_write_cmd _ _ _
  | lcd_unblank => simp only [DisplayOp.hw, Option.some.injEq] at h; subst h; exact lines_safe_write_cmd _ _ _
  | lcd_on => simp only [DisplayOp.hw, Option.some.injEq] at h; subst h; exact lines_safe_write_cmd _ _ _
  | lcd_off => simp only [DisplayOp.hw, Option.some.injEq] at h; subst h; exact lines_safe_write_cmd _ _ _

theorem hw_some (lcd_to16 : Nat → Nat) (s : LcdState) (hs : s.Consistent) (P : Psram)
    (fb : Framebuffer) (tmp : Nat → Nat) (op : DisplayOp) :
    ∃ t, DisplayOp.hw lcd_to16 s P fb tmp op = some t := by
  have hp : (∃ a, s.lcd_draw_ptr = some a) ∧ (∃ a, s.lcd_fill_ptr = some a) ∧
      (∃ a, s.lcd_point_ptr = some a) ∧ (∃ a, s.lcd_clear_ptr = some a) := by
    rcases hs with ⟨_, ⟨h1, h2, h3, h4⟩, _⟩ | ⟨_, ⟨h1, h2, h3, h4⟩, _⟩ | ⟨_, ⟨h1, h2, h3, h4⟩, _⟩ <;>
      exact ⟨⟨_, h1⟩, ⟨_, h2⟩, ⟨_, h3⟩, ⟨_, h4⟩⟩
  obtain ⟨⟨a1, h1⟩, ⟨a2, h2⟩, ⟨a3, h3⟩, ⟨a4, h4⟩⟩ := hp
  cases op with
  | draw pixels x y w h => cases a1 <;> simp [DisplayOp.hw, h1]
  | fill color x y w h => cases a2 <;> simp [DisplayOp.hw, h2]
  | point color x y => cases a3 <;> simp [DisplayOp.hw, h3]
  | clear => cases a4 <;> simp [DisplayOp.hw, h4]
  | blit => exact ⟨_, rfl⟩
  | scroll lines => exact ⟨_, rfl⟩
  | lcd_blank => exact ⟨_, rfl⟩
  | lcd_unblank => exact ⟨_, rfl⟩
  | lcd_on => exact ⟨_, rfl⟩
  | lcd_off => exact ⟨_, rfl⟩

theorem run_steps_safe (lcd_to16 : Nat → Nat) (steps : List DisplayStep)
    (hs : ∀ st ∈ steps, st.s.Consistent) :
    ∃ t, run_steps lcd_to16 steps = some t ∧ lines_safe false t = some false := by
  induction steps with
  | nil => exact ⟨[], rfl, rfl⟩
  | cons st rest ih =>
    obtain ⟨b, hb, hbs⟩ := ih (fun x hx => hs x (List.mem_cons_of_mem _ hx))
    obtain ⟨a, ha⟩ := hw_some lcd_to16 st.s (hs st (List.mem_cons_self _ _)) st.P st.fb st.tmp st.op
    refine ⟨a ++ b, ?_, ?_⟩
    · simp only [run_steps, ha, hb]
    · rw [lines_safe_append, hw_safe _ _ _ _ _ _ _ ha]
      exact hbs

theorem blit_addr (x y : Nat) (hx : x ≤ 640) (hy : y ≤ 102400) :
    toU32 (imul (iadd (x : Int) (y : Int)) 2) = 2 * (x + y) := by
  unfold toU32 imul iadd wrapInt
  omega

theorem loop_steps_tmpbuf :
    loop_steps LCD_TMPBUF_SIZE 10 = (List.range 64).map (fun i => i * 10) := rfl

theorem loop_steps_frame :
    loop_steps 102400 LCD_TMPBUF_SIZE = (List.range 160).map (fun i => i * 640) := rfl

theorem blit_read_apply (P : Psram) (y : Nat) (tmp : Nat → Nat) (x k : Nat) :
    blit_read P y tmp x k
      = if x ≤ k ∧ k < x + 10 then P (toU32 (imul (iadd (x : Int) (y : Int)) 2) / 2 + (k - x))
        else tmp k := rfl

theorem blit_inner (P : Psram) (y : Nat) (hy : y ≤ 102400) (tmp : Nat → Nat) (n : Nat)
    (hn : n ≤ 64) (k : Nat) :
    ((List.range n).map (fun i => i * 10)).foldl (blit_read P y) tmp k
      = if k < 10 * n then P (y + k) else tmp k := by
  induction n generalizing k with
  | zero => simp
  | succ n ih =>
    rw [List.range_succ, List.map_append, List.foldl_append]
    simp only [List.map_cons, List.map_nil, List.foldl_cons, List.foldl_nil]
    rw [blit_read_apply, blit_addr (n * 10) y (by omega) hy, ih (by omega)]
    have e : 2 * (n * 10 + y) / 2 = n * 10 + y := by omega
    rw [e]
    by_cases h1 : n * 10 ≤ k ∧ k < n * 10 + 10
    · rw [if_pos h1, if_pos (by omega)]
      have e2 : n * 10 + y + (k - n * 10) = y + k := by omega
      rw [e2]
    · rw [if_neg h1]
      by_cases h2 : k < 10 * n
      · rw [if_pos h2, if_pos (by omega)]
      · rw [if_neg h2, if_neg (by omega)]

theorem flatMap_congr_range {β : Type} (n : Nat) (f g : Nat → List β)
    (h : ∀ i, i < n → f i = g i) : (List.range n).flatMap f = (List.range n).flatMap g := by
  induction n with
  | zero => rfl
  | succ n ih =>
    rw [List.range_succ, List.flatMap_append, List.flatMap_append,
      ih (fun i hi => h i (by omega))]
    simp only [List.flatMap_cons, List.flatMap_nil, List.append_nil]
    rw [h n (by omega)]

theorem flatMap_range_add {β : Type} (a b : Nat) (f : Nat → List β) :
    (List.range (a + b)).flatMap f
      = (List.range a).flatMap f ++ (List.range b).flatMap (fun k => f (a + k)) := by
  rw [List.range_add, List.flatMap_append, List.flatMap_map]

theorem map_range_add {β : Type} (a b : Nat) (f : Nat → β) :
    (List.range (a + b)).map f
      = (List.range a).map f ++ (List.range b).map (fun k => f (a + k)) := by
  rw [List.range_add, List.map_append, List.map_map]
  rfl

theorem blit_batch_write (P : Psram) (b0 : Nat) (hb : b0 < 160) (tmp : Nat → Nat) :
    lcd_write16 ((loop_steps LCD_TMPBUF_SIZE 10).foldl (blit_read P (b0 * 640)) tmp)
        LCD_TMPBUF_SIZE
      = (List.range 640).flatMap (fun k => write16_puts (P (640 * b0 + k))) := by
  rw [loop_steps_tmpbuf]
  unfold lcd_write16 LCD_TMPBUF_SIZE
  apply flatMap_congr_range
  intro i hi
  rw [blit_inner P (b0 * 640) (by omega) tmp 64 (by omega) i, if_pos (by omega)]
  have e : b0 * 640 + i = 640 * b0 + i := by omega
  rw [e]

theorem blit_batch_reads (b0 : Nat) (hb : b0 < 160) :
    (loop_steps LCD_TMPBUF_SIZE 10).map
        (fun (x : Nat) => PsramRead.mk (toU32 (imul (iadd (x : Int) ((b0 * 640 : Nat) : Int)) 2)) x 20)
      = (List.range 64).map
          (fun c => PsramRead.mk (20 * (64 * b0 + c)) (10 * (64 * b0 + c) % 640) 20) := by
  rw [loop_steps_tmpbuf, List.map_map]
  apply List.map_congr_left
  intro i hi
  rw [List.mem_range] at hi
  simp only [Function.comp]
  rw [blit_addr (i * 10) (b0 * 640) (by omega) (by omega)]
  have e1 : 2 * (i * 10 + b0 * 640) = 20 * (64 * b0 + i) := by omega
  have e2 : i * 10 = 10 * (64 * b0 + i) % 640 := by omega
  rw [e1, ← e2]

theorem append_congr {β : Type} {a a2 b b2 : List β} (h1 : a = a2) (h2 : b = b2) :
    a ++ b = a2 ++ b2 := by
  rw [h1, h2]

theorem blit_batches (P : Psram) (n : Nat) :
    ∀ (b0 : Nat) (tmp : Nat → Nat), b0 + n ≤ 160 →
      (blit_psram_batches P ((List.range n).map (fun b => (b0 + b) * 640)) tmp).1
          = (List.range (640 * n)).flatMap (fun k => write16_puts (P (640 * b0 + k))) ∧
      (blit_psram_batches P ((List.range n).map (fun b => (b0 + b) * 640)) tmp).2.1
          = (List.range (64 * n)).map
              (fun c => PsramRead.mk (20 * (64 * b0 + c)) (10 * (64 * b0 + c) % 640) 20) := by
  induction n with
  | zero => intro b0 tmp _; exact ⟨rfl, rfl⟩
  | succ n ih =>
    intro b0 tmp hb
    have hl : (List.range (n + 1)).map (fun b => (b0 + b) * 640)
        = (b0 * 640) :: (List.range n).map (fun b => (b0 + 1 + b) * 640) := by
      rw [List.range_succ_eq_map, List.map_cons, List.map_map, Nat.add_zero]
      refine congrArg (List.cons (b0 * 640)) (List.map_congr_left (fun b _ => ?_))
      show (b0 + (b + 1)) * 640 = (b0 + 1 + b) * 640
      omega
    rw [hl, blit_psram_batches_cons]
    obtain ⟨ih1, ih2⟩ := ih (b0 + 1)
      ((loop_steps LCD_TMPBUF_SIZE 10).foldl (blit_read P (b0 * 640)) tmp) (by omega)
    constructor
    · show _ ++ _ = _
      rw [ih1, blit_batch_write P b0 (by omega)]
      have e : 640 * (n + 1) = 640 + 640 * n := by omega
      rw [e, flatMap_range_add]
      refine append_congr rfl (flatMap_congr_range _ _ _ (fun i _ => ?_))
      have e2 : 640 * (b0 + 1) + i = 640 * b0 + (640 + i) := by omega
      rw [e2]
    · show _ ++ _ = _
      rw [ih2, blit_batch_reads b0 (by omega)]
      have e : 64 * (n + 1) = 64 + 64 * n := by omega
      rw [e, map_range_add]
      refine append_congr rfl (List.map_congr_left (fun c _ => ?_))
      have e2 : 64 * (b0 + 1) + c = 64 * b0 + (64 + c) := by omega
      rw [e2]

theorem blit_psram_frame (P : Psram) (tmp : Nat → Nat) :
    (blit_psram_batches P (loop_steps 102400 LCD_TMPBUF_SIZE) tmp).1
        = (List.range 102400).flatMap (fun k => write16_puts (P k)) ∧
    (blit_psram_batches P (loop_steps 102400 LCD_TMPBUF_SIZE) tmp).2.1
        = (List.range 10240).map (fun c => PsramRead.mk (20 * c) (10 * c % 640) 20) := by
  have hl : loop_steps 102400 LCD_TMPBUF_SIZE = (List.range 160).map (fun b => (0 + b) * 640) := by
    rw [loop_steps_frame]
    refine List.map_congr_left (fun b _ => ?_)
    rw [Nat.zero_add]
  rw [hl]
  obtain ⟨h1, h2⟩ := blit_batches P 160 0 tmp (by omega)
  rw [h1, h2]
  constructor
  · refine flatMap_congr_range _ _ _ (fun i _ => ?_)
    rw [Nat.mul_zero, Nat.zero_add]
  · refine List.map_congr_left (fun c _ => ?_)
    rw [Nat.mul_zero, Nat.zero_add]

theorem write16_puts_bytes (v : Nat) :
    write16_puts v = [HwEvent.put (v / 256 % 256), HwEvent.put (v % 256)] := by
  unfold write16_puts
  have h1 : v >>> 8 = v / 256 := by rw [Nat.shiftRight_eq_div_pow]
  have h2 : v &&& 0xff = v % 256 := Nat.and_pow_two_sub_one_eq_mod v 8
  rw [h1, h2]

theorem font_metrics_exact (g : Nat) (h2 : 2 ≤ g) (h256 : g < 256) :
    (g / 8 + (if g % 8 ≠ 0 then 1 else 0)) % 256 = (g + 7) / 8 ∧
    320 / g % 256 = 320 / g ∧ 320 / g * g ≤ 320 ∧ 320 < (320 / g + 1) * g := by
  have hq : 320 / g ≤ 160 := Nat.div_le_div_left h2 (by omega)
  refine ⟨?_, ?_, ?_, ?_⟩
  · split_ifs <;> omega
  · exact Nat.mod_eq_of_lt (by omega)
  · exact Nat.div_mul_le_self 320 g
  · rw [Nat.mul_comm]
    exact Nat.lt_mul_div_succ 320 (by omega)

/-! ## The claims -/

/-- C1 (fails on the code): `normalize_coords` leaves a negative `y` negative, since `%` on
`int` keeps the sign of the dividend: for `x = 0, y = -1, width = 1, height = 1` the result is
`(0, -1, 1, 1)` for both screen heights, so `0 <= y'` does not hold. -/
theorem normalize_coords_negative_y :
    normalize_coords 0 (-1) 1 1 LCD_HEIGHT = (0, -1, 1, 1) ∧
    normalize_coords 0 (-1) 1 1 MEM_HEIGHT = (0, -1, 1, 1) ∧
    ¬ (0 ≤ (normalize_coords 0 (-1) 1 1 LCD_HEIGHT).2.1) := by
  decide

/-- C2 (fails on the code): from the reachable state with the RAM backend active,
`lcd_buffer_enable_local(3)` returns false and leaves `framebuffer_mode` and the four RAM
operation pointers in place, but it has freed the framebuffer and reset it to the null
pointer. -/
theorem enable_invalid_mode_drops_framebuffer :
    Reachable ram_state ∧
    ram_state.framebuffer.isSome = true ∧
    (lcd_buffer_enable_local 3 none ram_state).1 = false ∧
    (lcd_buffer_enable_local 3 none ram_state).2.framebuffer_mode = LCD_BUFFERMODE_RAM ∧
    (lcd_buffer_enable_local 3 none ram_state).2.isRam ∧
    (lcd_buffer_enable_local 3 none ram_state).2.framebuffer.isSome = false := by
  refine ⟨ram_state_reachable, ?_, ?_, ?_, ?_, ?_⟩ <;>
    simp [ram_state, lcd_init_state, lcd_state_zero, lcd_buffer_enable_local, LcdState.isRam,
      LCD_BUFFERMODE_DIRECT, LCD_BUFFERMODE_RAM, LCD_BUFFERMODE_PSRAM]

/-- C3: when the secondary core pushes the words of the operations `ops` in order and the
owner core then polls until the FIFO is empty, each poll consumes exactly the words of one
operation and makes the local call for it with the original arguments, so the calls made are
exactly `ops` in order and the FIFO ends empty. -/
theorem channel_executes_in_order (T : FifoTags) (hT : T.Distinct)
    (enable : List LcdOp → Int → Bool) (ops : List LcdOp)
    (hops : ∀ op ∈ ops, op.WellTyped) (fuel : Nat) (hfuel : ops.length ≤ fuel) :
    (∀ op ∈ ops, ∀ (en : Int → Bool) (rest : List Nat),
      owner_poll T en (lcd_remote T op ++ rest)
        = some ⟨1, some op, rest, reply_words en op⟩) ∧
    ∃ reply, owner_drain T enable fuel (ops.flatMap (lcd_remote T)) [] []
      = some (ops, [], reply) := by
  refine ⟨fun op hop en rest => owner_poll_remote T hT en op (hops op hop) rest, ?_⟩
  obtain ⟨reply, h⟩ := owner_drain_remote T hT enable ops fuel [] [] hops hfuel
  exact ⟨reply, by simpa using h⟩

/-- C3 at the sample tags and one operation of each kind. -/
theorem channel_executes_in_order_witness :
    ∃ reply, owner_drain sample_tags (fun _ _ => true) 9
      (sample_ops.flatMap (lcd_remote sample_tags)) [] [] = some (sample_ops, [], reply) :=
  (channel_executes_in_order sample_tags (by unfold FifoTags.Distinct; decide)
    (fun _ _ => true) sample_ops (by simp [sample_ops, LcdOp.WellTyped, IsInt]) 9
    (by decide)).2

/-- C4: in every state reachable from `lcd_init`, `framebuffer_mode` is Direct, PSRAM or
RAM, the four operation pointers are those of that backend, and the framebuffer is allocated
exactly when the mode is RAM. -/
theorem exactly_one_backend_active (s : LcdState) (h : Reachable s) :
    (s.framebuffer_mode = LCD_BUFFERMODE_DIRECT ∨ s.framebuffer_mode = LCD_BUFFERMODE_PSRAM ∨
      s.framebuffer_mode = LCD_BUFFERMODE_RAM) ∧
    s.pointersOf s.framebuffer_mode ∧
    (s.framebuffer.isSome = true ↔ s.framebuffer_mode = LCD_BUFFERMODE_RAM) := by
  rcases reachable_consistent h with ⟨hm, hp, hf⟩ | ⟨hm, hp, hf⟩ | ⟨hm, hp, fb, hf⟩
  · refine ⟨Or.inl hm, Or.inl ⟨hm, hp⟩, ?_⟩
    rw [hf, hm]; simp [LCD_BUFFERMODE_DIRECT, LCD_BUFFERMODE_RAM]
  · refine ⟨Or.inr (Or.inl hm), Or.inr (Or.inl ⟨hm, hp⟩), ?_⟩
    rw [hf, hm]; simp [LCD_BUFFERMODE_PSRAM, LCD_BUFFERMODE_RAM]
  · refine ⟨Or.inr (Or.inr hm), Or.inr (Or.inr ⟨hm, hp⟩), ?_⟩
    rw [hf, hm]; simp

/-- C4 at the state reached by `lcd_init` and a successful switch to RAM. -/
theorem exactly_one_backend_active_witness :
    Reachable ram_state ∧ ram_state.framebuffer_mode = LCD_BUFFERMODE_RAM ∧
    ram_state.pointersOf ram_state.framebuffer_mode ∧
    (ram_state.framebuffer.isSome = true ↔ ram_state.framebuffer_mode = LCD_BUFFERMODE_RAM) :=
  ⟨ram_state_reachable, rfl, (exactly_one_backend_active ram_state ram_state_reachable).2⟩

/-- C5 (fails on the code): `lcd_ram_fill(color, 0, -2, 1, 1)` and
`lcd_ram_draw(pixels, 0, -2, 1, 1)` each store to cell `4294966656`, the row base
`-2 * 320` held as `uint32_t`, which is not below `320 * 320`. -/
theorem ram_negative_y_stores_outside (lcd_to8 pixels : Nat → Nat) (color : Nat) :
    lcd_ram_fill 321 lcd_to8 color 0 (-2) 1 1 = some [⟨4294966656, lcd_to8 color⟩] ∧
    lcd_ram_draw 321 lcd_to8 pixels 0 (-2) 1 1 = some [⟨4294966656, lcd_to8 (pixels 0)⟩] ∧
    ¬ (4294966656 < 320 * 320) := by
  refine ⟨?_, ?_, by decide⟩
  · rfl
  · rfl

/-- C6 (as stated, fails): a rectangle reaching beyond the left edge is moved to column 0
instead of being clipped (`x = -1, w = 2, h = 1` stores `pixels[0]` at cell 0 and `pixels[1]`
at cell 1), and one reaching beyond the right edge is read with the clamped width as row
stride (`x = 319, w = 2, h = 2` stores `pixels[1]`, not `pixels[2]`, at cell 639). -/
theorem ram_draw_edges_not_clipped :
    lcd_ram_draw 321 id (fun k => k + 1) (-1) 0 2 1 = some [⟨0, 1⟩, ⟨1, 2⟩] ∧
    ¬ RamDrawBlits 321 id (fun k => k + 1) (fun _ => 0) (-1) 0 2 1 ∧
    lcd_ram_draw 321 id (fun k => k + 1) 319 0 2 2 = some [⟨319, 1⟩, ⟨639, 2⟩] ∧
    ¬ RamDrawBlits 321 id (fun k => k + 1) (fun _ => 0) 319 0 2 2 := by
  have h1 : lcd_ram_draw 321 id (fun k => k + 1) (-1) 0 2 1 = some [⟨0, 1⟩, ⟨1, 2⟩] := by
    decide
  have h2 : lcd_ram_draw 321 id (fun k => k + 1) 319 0 2 2 = some [⟨319, 1⟩, ⟨639, 2⟩] := by
    decide
  refine ⟨h1, ?_, h2, ?_⟩
  · rintro ⟨stores, hs, hin, _⟩
    rw [h1] at hs
    cases hs
    have := hin 1 0 (by decide) (by decide) (by decide) (by decide) (by decide) (by decide)
      (by decide)
    revert this
    decide
  · rintro ⟨stores, hs, hin, _⟩
    rw [h2] at hs
    cases hs
    have := hin 0 1 (by decide) (by decide) (by decide) (by decide) (by decide) (by decide)
      (by decide)
    revert this
    decide

/-- C6 (amended): for a rectangle whose columns lie inside the panel (`0 <= x`,
`x + w <= 320`), with `0 <= y < 320`, `w, h >= 0` and `y + h` not overflowing `int`,
`lcd_ram_draw` returns, each position `(x+i, y+j)` of the rectangle inside the panel holds
`lcd_to8[pixels[j*w + i]]` and every other cell is unchanged, also when the rectangle reaches
beyond the bottom edge and is clamped there. -/
theorem ram_draw_blits_inside_columns (fuel : Nat) (lcd_to8 pixels : Nat → Nat)
    (fb : Framebuffer) (x y w h : Int) (hx : 0 ≤ x) (hw : 0 ≤ w) (hxw : x + w ≤ 320)
    (hy : 0 ≤ y) (hy2 : y < 320) (hh : 0 ≤ h) (hyh : y + h < 2147483648) (hf : 320 < fuel) :
    RamDrawBlits fuel lcd_to8 pixels fb x y w h := by
  unfold RamDrawBlits lcd_ram_draw
  rw [normalize_coords_clip_bottom hx hw hxw hy hy2 hh hyh]
  simp only
  lift x to ℕ using hx with X
  lift y to ℕ using hy with Y
  lift w to ℕ using hw with W
  lift h to ℕ using hh with H
  have hXW : X + W ≤ 320 := by exact_mod_cast hxw
  have hY : Y < 320 := by exact_mod_cast hy2
  obtain ⟨n, hn, hnle, hrows⟩ := clipped_rows Y H hY
  rw [hn]
  obtain ⟨b1, b2, b3, b4⟩ := ram_draw_bounds X W Y n hXW hnle
  rw [b1, b2, b3, b4]
  obtain ⟨stores, hst, heff⟩ :=
    ram_draw_rows_effect lcd_to8 pixels X W hXW n fuel Y 0 (by omega) hnle
  refine ⟨stores, hst, ?_, ?_⟩
  · intro i j hi hiw hj hjh _ hxi hyj
    lift i to ℕ using hi with I
    lift j to ℕ using hj with J
    have hI : I < W := by exact_mod_cast hiw
    have hJ : J < H := by exact_mod_cast hjh
    have hXI : X + I < 320 := by exact_mod_cast hxi
    have hYJ : Y + J < 320 := by exact_mod_cast hyj
    have hJn : J < n := hrows J hJ hYJ
    have hk : (((Y : Int) + J) * 320 + ((X : Int) + I)).toNat = (Y + J) * 320 + (X + I) := by
      have : (((Y : Int) + J) * 320 + ((X : Int) + I))
          = (((Y + J) * 320 + (X + I) : ℕ) : Int) := by push_cast; ring
      rw [this]; exact Int.toNat_ofNat _
    have hp : ((J : Int) * W + I).toNat = W * J + I := by
      have : ((J : Int) * W + I) = ((W * J + I : ℕ) : Int) := by push_cast; ring
      rw [this]; exact Int.toNat_ofNat _
    rw [hk, hp, heff]
    have hq : ((Y + J) * 320 + (X + I)) / 320 = Y + J := by omega
    have hr : ((Y + J) * 320 + (X + I)) % 320 = X + I := by omega
    rw [hq, hr]
    have hc : Y ≤ Y + J ∧ Y + J < Y + n ∧ X ≤ X + I ∧ X + I < X + W := by omega
    rw [if_pos hc]
    have e5 : Y + J - Y = J := by omega
    have e6 : X + I - X = I := by omega
    rw [e5, e6, Nat.zero_add]
  · intro k hk
    rw [heff]
    by_cases hc : Y ≤ k / 320 ∧ k / 320 < Y + n ∧ X ≤ k % 320 ∧ k % 320 < X + W
    · exfalso
      apply hk
      have hnH : n ≤ H := by
        have : (n : Int) ≤ H := by rw [← hn]; split_ifs <;> omega
        exact_mod_cast this
      clear hn hk heff hst hrows hxw hy2 hyh b1 b2 b3 b4
      refine ⟨((k % 320 - X : ℕ) : Int), ((k / 320 - Y : ℕ) : Int), ?_, ?_, ?_, ?_, ?_, ?_, ?_, ?_⟩
        <;> omega
    · rw [if_neg hc]

/-- C6 (amended) at a 2x2 rectangle in the last row of the panel, clamped at the bottom. -/
theorem ram_draw_blits_inside_columns_witness :
    RamDrawBlits 321 id (fun k => k + 1) (fun _ => 0) 318 319 2 2 :=
  ram_draw_blits_inside_columns 321 id (fun k => k + 1) (fun _ => 0) 318 319 2 2 (by decide)
    (by decide) (by decide) (by decide) (by decide) (by decide) (by decide) (by decide)

/-- C7: for an in-range rectangle with `w, h >= 1`, `lcd_direct_fill` emits the region-set
for `(x, y)-(x+w-1, y+h-1)`, then exactly `w*h` times the high byte and the low byte of the
colour, then the closing wait and chip deselect. -/
theorem direct_fill_trace (c : Nat) (x y w h : Int) (hc : c < 65536) (hx : 0 ≤ x) (hy : 0 ≤ y)
    (hw : 1 ≤ w) (hh : 1 ≤ h) (hxw : x + w ≤ 320) (hyh : y + h ≤ 480) :
    lcd_direct_fill c x y w h
      = lcd_set_region x y (x + w - 1) (y + h - 1)
        ++ (List.replicate (w * h).toNat [HwEvent.put (c / 256), HwEvent.put (c % 256)]).flatten
        ++ [HwEvent.waitIdle, HwEvent.setDcCs false true] := by
  unfold lcd_direct_fill
  rw [normalize_coords_id hx hy (by omega) (by omega) hxw (by unfold MEM_HEIGHT; omega)
    (by unfold MEM_HEIGHT; omega) (by unfold MEM_HEIGHT; omega)]
  simp only
  have hwh : 0 ≤ w * h ∧ w * h ≤ 320 * 480 := by
    constructor
    · positivity
    · nlinarith
  have e1 : iadd x w = x + w := iadd_small (by unfold IsInt; omega)
  have e2 : iadd y h = y + h := iadd_small (by unfold IsInt; omega)
  have e3 : isub (x + w) 1 = x + w - 1 := isub_small (by unfold IsInt; omega)
  have e4 : isub (y + h) 1 = y + h - 1 := isub_small (by unfold IsInt; omega)
  have e5 : imul w h = w * h := imul_small (by unfold IsInt; omega)
  have e6 : toU32 (w * h) = (w * h).toNat := by
    unfold toU32
    congr 1
    omega
  have e7 : (c >>> 8) % 256 = c / 256 := by
    rw [Nat.shiftRight_eq_div_pow]; omega
  have e8 : c &&& 0xff = c % 256 := by
    have : (0xff : Nat) = 2 ^ 8 - 1 := by decide
    rw [this, Nat.and_pow_two_sub_one_eq_mod]
  rw [e1, e2, e3, e4, e5, e6, direct_fill_loop_eq, e7, e8]

/-- C7 at `fill(RGB(255,0,0), 0, 0, 320, 320)`: one region-set for `(0,0)-(319,319)` and
`320*320` writes of `0xF8, 0x00`. -/
theorem direct_fill_trace_witness :
    lcd_direct_fill (RGB 255 0 0) 0 0 320 320
      = lcd_set_region 0 0 319 319
        ++ (List.replicate 102400 [HwEvent.put 0xF8, HwEvent.put 0x00]).flatten
        ++ [HwEvent.waitIdle, HwEvent.setDcCs false true] :=
  direct_fill_trace (RGB 255 0 0) 0 0 320 320 (by decide) (by decide) (by decide) (by decide)
    (by decide) (by decide) (by decide)

/-- C8: for 8-bit `r, g, b`, unpacking the packed colour drops exactly the low bits the pack
discards, and gives back `(r, g, b)` when those bits are zero. -/
theorem unpack_pack_truncates (r g b : Nat) (hr : r < 256) (hg : g < 256) (hb : b < 256) :
    RED (RGB r g b) = r - r % 8 ∧ GREEN (RGB r g b) = g - g % 4 ∧
    BLUE (RGB r g b) = b - b % 8 ∧
    (r % 8 = 0 → g % 4 = 0 → b % 8 = 0 →
      (RED (RGB r g b), GREEN (RGB r g b), BLUE (RGB r g b)) = (r, g, b)) := by
  have hR := RED_of_sum (r / 8) (g / 4) (b / 8) (by omega) (by omega) (by omega)
  have hG := GREEN_of_sum (r / 8) (g / 4) (b / 8) (by omega) (by omega)
  have hB := BLUE_of_sum (r / 8) (g / 4) (b / 8) (by omega)
  rw [RGB_eq_sum r g b hr hg hb, hR, hG, hB]
  refine ⟨by omega, by omega, by omega, fun h1 h2 h3 => ?_⟩
  have e1 : 8 * (r / 8) = r := by omega
  have e2 : 4 * (g / 4) = g := by omega
  have e3 : 8 * (b / 8) = b := by omega
  rw [e1, e2, e3]

/-- C8 at `(255, 130, 7)`. -/
theorem unpack_pack_truncates_witness :
    RED (RGB 255 130 7) = 255 - 255 % 8 ∧ GREEN (RGB 255 130 7) = 130 - 130 % 4 ∧
    BLUE (RGB 255 130 7) = 7 - 7 % 8 ∧
    (255 % 8 = 0 → 130 % 4 = 0 → 7 % 8 = 0 →
      (RED (RGB 255 130 7), GREEN (RGB 255 130 7), BLUE (RGB 255 130 7)) = (255, 130, 7)) :=
  unpack_pack_truncates 255 130 7 (by decide) (by decide) (by decide)

/-- C9: in every reachable state, `lcd_buffer_enable_local` called with the active mode
leaves the mode, the four operation pointers and the framebuffer (allocation and contents)
unchanged, whatever the allocator would answer. -/
theorem enable_current_mode_noop (s : LcdState) (malloc : Option Framebuffer)
    (h : Reachable s) :
    (lcd_buffer_enable_local s.framebuffer_mode malloc s).2 = s := by
  have hc := reachable_consistent h
  obtain ⟨d, f, p, c, fb, m⟩ := s
  rcases hc with ⟨hm, ⟨h1, h2, h3, h4⟩, hf⟩ | ⟨hm, ⟨h1, h2, h3, h4⟩, hf⟩ |
    ⟨hm, ⟨h1, h2, h3, h4⟩, b, hf⟩
  all_goals
    simp only at hm h1 h2 h3 h4 hf
    subst hm h1 h2 h3 h4 hf
    simp [lcd_buffer_enable_local, LCD_BUFFERMODE_DIRECT, LCD_BUFFERMODE_RAM,
      LCD_BUFFERMODE_PSRAM]

/-- C9 at the RAM state. -/
theorem enable_current_mode_noop_witness :
    Reachable ram_state ∧
    (lcd_buffer_enable_local ram_state.framebuffer_mode none ram_state).2 = ram_state :=
  ⟨ram_state_reachable, enable_current_mode_noop ram_state none ram_state_reachable⟩

/-- C10: in a reachable state with Direct or PSRAM active, `lcd_buffer_enable_local(RAM)`
returns false and changes nothing when the allocation fails, and returns true with the RAM
backend installed and the buffer allocated when it succeeds. -/
theorem enable_ram_allocation (s : LcdState) (h : Reachable s)
    (hm : s.framebuffer_mode = LCD_BUFFERMODE_DIRECT ∨
      s.framebuffer_mode = LCD_BUFFERMODE_PSRAM) :
    lcd_buffer_enable_local LCD_BUFFERMODE_RAM none s = (false, s) ∧
    ∀ fb : Framebuffer,
      (lcd_buffer_enable_local LCD_BUFFERMODE_RAM (some fb) s).1 = true ∧
      (lcd_buffer_enable_local LCD_BUFFERMODE_RAM (some fb) s).2.framebuffer_mode
        = LCD_BUFFERMODE_RAM ∧
      (lcd_buffer_enable_local LCD_BUFFERMODE_RAM (some fb) s).2.isRam ∧
      (lcd_buffer_enable_local LCD_BUFFERMODE_RAM (some fb) s).2.framebuffer = some fb := by
  have hc := reachable_consistent h
  have hf : s.framebuffer = none := by
    rcases hc with ⟨_, _, hf⟩ | ⟨_, _, hf⟩ | ⟨hr, _, _⟩
    · exact hf
    · exact hf
    · rcases hm with hm | hm <;> rw [hr] at hm <;> revert hm <;>
        simp [LCD_BUFFERMODE_DIRECT, LCD_BUFFERMODE_RAM, LCD_BUFFERMODE_PSRAM]
  obtain ⟨d, f, p, c, fb, m⟩ := s
  simp only at hf
  subst hf
  refine ⟨?_, fun fb => ?_⟩ <;>
    simp [lcd_buffer_enable_local, LcdState.isRam, LCD_BUFFERMODE_DIRECT, LCD_BUFFERMODE_RAM,
      LCD_BUFFERMODE_PSRAM]

/-- C10 at the state right after `lcd_init`. -/
theorem enable_ram_allocation_witness :
    lcd_buffer_enable_local LCD_BUFFERMODE_RAM none lcd_init_state = (false, lcd_init_state) ∧
    ∀ fb : Framebuffer,
      (lcd_buffer_enable_local LCD_BUFFERMODE_RAM (some fb) lcd_init_state).1 = true ∧
      (lcd_buffer_enable_local LCD_BUFFERMODE_RAM (some fb) lcd_init_state).2.framebuffer_mode
        = LCD_BUFFERMODE_RAM ∧
      (lcd_buffer_enable_local LCD_BUFFERMODE_RAM (some fb) lcd_init_state).2.isRam ∧
      (lcd_buffer_enable_local LCD_BUFFERMODE_RAM (some fb) lcd_init_state).2.framebuffer
        = some fb :=
  enable_ram_allocation lcd_init_state Reachable.init (Or.inl rfl)

/-- C11: from any state, in particular one with the RAM backend active,
`lcd_buffer_enable_local(Direct)` returns true and leaves the framebuffer pointer null; a
following `lcd_point_local(color, x, y)` with `0 <= x < 320`, `0 <= y < 480` emits the
region-set for `(x,y)-(x,y)`, one colour write (high byte, low byte), the closing wait and chip
deselect, and performs no store into a framebuffer and no PSRAM write. -/
theorem direct_point_after_leaving_ram (lcd_to8 : Nat → Nat) (s : LcdState)
    (malloc : Option Framebuffer) (color : Nat) (x y : Int) (hc : color < 65536)
    (hx : 0 ≤ x) (hx2 : x < 320) (hy : 0 ≤ y) (hy2 : y < 480) :
    (lcd_buffer_enable_local LCD_BUFFERMODE_DIRECT malloc s).1 = true ∧
    (lcd_buffer_enable_local LCD_BUFFERMODE_DIRECT malloc s).2.framebuffer = none ∧
    ∃ e, lcd_point_local lcd_to8 (lcd_buffer_enable_local LCD_BUFFERMODE_DIRECT malloc s).2
        color x y = some e ∧
      e.hw = lcd_set_region x y x y
        ++ [HwEvent.put (color / 256), HwEvent.put (color % 256)]
        ++ [HwEvent.waitIdle, HwEvent.setDcCs false true] ∧
      e.ram = [] ∧ e.psram = [] := by
  have hptr : (lcd_buffer_enable_local LCD_BUFFERMODE_DIRECT malloc s).2.lcd_point_ptr
      = some PointFn.lcd_direct_point := by
    simp [lcd_buffer_enable_local, LCD_BUFFERMODE_DIRECT, LCD_BUFFERMODE_RAM]
  refine ⟨?_, ?_, ?_⟩
  · simp [lcd_buffer_enable_local, LCD_BUFFERMODE_DIRECT, LCD_BUFFERMODE_RAM]
  · cases hfb : s.framebuffer <;>
      simp [lcd_buffer_enable_local, LCD_BUFFERMODE_DIRECT, LCD_BUFFERMODE_RAM, hfb]
  · refine ⟨⟨lcd_direct_point color x y, [], []⟩, ?_, ?_, rfl, rfl⟩
    · simp only [lcd_point_local, hptr]
    · show lcd_direct_point color x y = _
      unfold lcd_direct_point
      rw [lcd_direct_fill_inside color x y 1 1 hc hx hy (by decide) (by decide) (by omega)
        (by omega)]
      have e1 : x + 1 - 1 = x := by omega
      have e2 : y + 1 - 1 = y := by omega
      rw [lcd_set_region_congr rfl rfl e1 e2]
      simp

/-- C11 at the RAM state, for the pixel (5, 400). -/
theorem direct_point_after_leaving_ram_witness :
    (lcd_buffer_enable_local LCD_BUFFERMODE_DIRECT none ram_state).1 = true ∧
    (lcd_buffer_enable_local LCD_BUFFERMODE_DIRECT none ram_state).2.framebuffer = none ∧
    ∃ e, lcd_point_local id (lcd_buffer_enable_local LCD_BUFFERMODE_DIRECT none ram_state).2
        0xF800 5 400 = some e ∧
      e.hw = lcd_set_region 5 400 5 400
        ++ [HwEvent.put (0xF800 / 256), HwEvent.put (0xF800 % 256)]
        ++ [HwEvent.waitIdle, HwEvent.setDcCs false true] ∧
      e.ram = [] ∧ e.psram = [] :=
  direct_point_after_leaving_ram id ram_state none 0xF800 5 400 (by decide) (by decide)
    (by decide) (by decide) (by decide)

/-- C12: for a message word that is none of the nine handled tags `lcd_fifo_receiver` returns
0, pops no word, pushes none and makes no local call; for each of the nine tags it returns 1
whenever it returns, and it does return once the argument words of the message are in the
FIFO. -/
theorem unknown_tag_unhandled (T : FifoTags) (hT : T.Distinct) (enable : Int → Bool) :
    (∀ (message : Nat) (fifo : List Nat), message ∉ T.handled →
      lcd_fifo_receiver T enable message fifo = some ⟨0, none, fifo, []⟩) ∧
    (∀ (message : Nat) (fifo : List Nat) (r : Received), message ∈ T.handled →
      lcd_fifo_receiver T enable message fifo = some r → r.handled = 1) ∧
    (∀ message : Nat, message ∈ T.handled →
      ∃ args : List Nat, ∀ rest : List Nat, ∃ r,
        lcd_fifo_receiver T enable message (args ++ rest) = some r ∧ r.handled = 1 ∧
          r.fifo = rest) :=
  ⟨fun message fifo h => receiver_unknown_tag T enable message fifo h,
    fun message fifo r h hr => receiver_returns_one T enable message fifo r h hr,
    fun message h => receiver_handles_tag T hT enable message h⟩

/-- C12 at the sample tags. -/
theorem unknown_tag_unhandled_witness :
    (∀ (message : Nat) (fifo : List Nat), message ∉ sample_tags.handled →
      lcd_fifo_receiver sample_tags (fun _ => true) message fifo
        = some ⟨0, none, fifo, []⟩) ∧
    (∀ (message : Nat) (fifo : List Nat) (r : Received), message ∈ sample_tags.handled →
      lcd_fifo_receiver sample_tags (fun _ => true) message fifo = some r → r.handled = 1) ∧
    (∀ message : Nat, message ∈ sample_tags.handled →
      ∃ args : List Nat, ∀ rest : List Nat, ∃ r,
        lcd_fifo_receiver sample_tags (fun _ => true) message (args ++ rest) = some r ∧
          r.handled = 1 ∧ r.fifo = rest) :=
  unknown_tag_unhandled sample_tags (by unfold FifoTags.Distinct; decide) (fun _ => true)

/-- C13 (fails on the code): with the ASCII font (first code 32, 96 glyphs, 8 bytes per glyph)
`lcd_draw_char_local` reads the glyph of code 200 at byte offset `224 * 8`, that of code 10 at
`234 * 8` and that of code 128 at `96 * 8`, all beyond the 96 glyphs, instead of offset 0; with
first code 0 the code 96, the first one outside the range, is read at `96 * 8`. -/
theorem glyph_lookup_outside_range :
    glyph_offset ascii_font 200 = 224 * 8 ∧ glyph_offset ascii_font 10 = 234 * 8 ∧
    glyph_offset ascii_font 128 = 96 * 8 ∧
    glyph_offset { ascii_font with firstcode := 0 } 96 = 96 * 8 := by
  decide

/-- C14: for a character code `c` inside `[firstcode, firstcode + glyph_count)`,
`lcd_draw_char_local` leaves in scratch cell `i + j*gw` (for `i < gw`, `j < gh`) `fg` when bit
`7 - i mod 8` of glyph byte `(c - firstcode)*bytewidth*gh + j*bytewidth + i/8` is set and `bg`
otherwise, stores only `fg` or `bg` and only into those cells, and then issues exactly one
draw of the scratch buffer at `(x, y)` with size `gw x gh`. -/
theorem draw_char_rasterizes (font : font_t) (x y : Int) (fg bg c : Nat) (buf : Nat → Nat)
    (h1 : font.firstcode ≤ c) (h2 : c < font.firstcode + font.glyph_count) (h3 : c < 256) :
    (∀ i j, i < font.glyph_width → j < font.glyph_height →
      applyStores buf (lcd_draw_char_local font x y fg bg c).scratch
          (i + j * font.glyph_width)
        = if (glyph_byte font ((c - font.firstcode) * font.bytewidth * font.glyph_height
              + j * font.bytewidth + i / 8)).testBit (7 - i % 8) then fg else bg) ∧
    (∀ s ∈ (lcd_draw_char_local font x y fg bg c).scratch,
      ∃ i j, i < font.glyph_width ∧ j < font.glyph_height ∧
        s.index = i + j * font.glyph_width ∧ (s.value = fg ∨ s.value = bg)) ∧
    (lcd_draw_char_local font x y fg bg c).draws
      = [DrawCall.mk x y font.glyph_width font.glyph_height] := by
  have hoff := glyph_offset_in_range font c h1 h2 h3
  refine ⟨?_, ?_, rfl⟩
  · intro i j hi hj
    simp only [lcd_draw_char_local, hoff]
    have hmem : Store.mk (i + (0 + j) * font.glyph_width)
        (glyph_pixel font fg bg ((c - font.firstcode) * font.bytewidth * font.glyph_height
          + j * font.bytewidth) i)
        ∈ draw_char_rows font fg bg font.glyph_height 0
          ((c - font.firstcode) * font.bytewidth * font.glyph_height) :=
      (mem_draw_char_rows font fg bg _ _ _ _).mpr ⟨j, i, hj, hi, rfl⟩
    have := applyStores_of_mem _ buf _ hmem (by
      intro t ht hti
      obtain ⟨r, i2, _, hi2, rfl⟩ := (mem_draw_char_rows font fg bg _ _ _ _).mp ht
      simp only at hti
      obtain ⟨e1, e2⟩ := cell_decompose_unique hi2 hi hti
      have e3 : r = j := by omega
      subst e1 e3
      rfl)
    simp only [Nat.zero_add] at this
    rw [this, glyph_pixel_eq]
  · intro s hs
    simp only [lcd_draw_char_local] at hs
    obtain ⟨r, i, hr, hi, rfl⟩ := (mem_draw_char_rows font fg bg _ _ _ _).mp hs
    refine ⟨i, r, hi, hr, by simp, ?_⟩
    simp only [glyph_pixel]
    split_ifs
    · left; rfl
    · right; rfl

/-- C14 at the letter `A` of the ASCII font. -/
theorem draw_char_rasterizes_witness :
    (∀ i j, i < ascii_font.glyph_width → j < ascii_font.glyph_height →
      applyStores (fun _ => 0) (lcd_draw_char_local ascii_font 10 20 0xFFFF 0 65).scratch
          (i + j * ascii_font.glyph_width)
        = if (glyph_byte ascii_font ((65 - ascii_font.firstcode) * ascii_font.bytewidth
              * ascii_font.glyph_height + j * ascii_font.bytewidth + i / 8)).testBit
              (7 - i % 8) then 0xFFFF else 0) ∧
    (∀ s ∈ (lcd_draw_char_local ascii_font 10 20 0xFFFF 0 65).scratch,
      ∃ i j, i < ascii_font.glyph_width ∧ j < ascii_font.glyph_height ∧
        s.index = i + j * ascii_font.glyph_width ∧ (s.value = 0xFFFF ∨ s.value = 0)) ∧
    (lcd_draw_char_local ascii_font 10 20 0xFFFF 0 65).draws
      = [DrawCall.mk 10 20 ascii_font.glyph_width ascii_font.glyph_height] :=
  draw_char_rasterizes ascii_font 10 20 0xFFFF 0 65 (fun _ => 0) (by decide) (by decide)
    (by decide)

/-- C15: without `int` overflow, the character draws issued by `lcd_draw_text_local` are, in
order, `text[0]`, `text[1]`, ... at `x0`, `x0 + gw`, `x0 + 2*gw`, ..., all at the same `y` with
the given `fg` and `bg`, where `x0` is `x` for Left, `x - floor(len*gw/2)` for Center and
`x - len*gw` for Right; all `len` characters are drawn when no position after the first
exceeds 320. -/
theorem draw_text_positions (font : font_t) (x y : Int) (fg bg : Nat) (text : List Nat)
    (align : Nat)
    (hlo : -2147483648 ≤ x - ((text.length * font.glyph_width : Nat) : Int))
    (hhi : x + ((text.length * font.glyph_width : Nat) : Int) < 2147483648) :
    ∃ n, n ≤ text.length ∧
      lcd_draw_text_local font x y fg bg text text.length align
        = text_draws (text_start x text.length font.glyph_width align) y fg bg
            font.glyph_width text n ∧
      ((∀ k : Nat, 1 ≤ k → k < text.length →
          text_start x text.length font.glyph_width align
            + (k : Int) * (font.glyph_width : Int) ≤ 320) → n = text.length) := by
  obtain ⟨n, hn, hne, hlist, _, hstop⟩ :=
    lcd_draw_text_local_spec font x y fg bg text align hlo hhi
  refine ⟨n, hn, hlist, fun hall => ?_⟩
  by_contra hlt
  have hlt2 : n < text.length := by omega
  have h1 : 1 ≤ n := hne (by intro h; rw [h] at hlt2; simp at hlt2)
  have := hall n h1 hlt2
  have := hstop hlt2
  omega

/-- C15 at `drawText(10, 10, fg, bg, "Hi", 2, Left)` with glyph width 8: `H` at `x = 10`,
`i` at `x = 18`, nothing else. -/
theorem draw_text_positions_witness :
    lcd_draw_text_local ascii_font 10 10 0xFFFF 0 [72, 105] 2 LCD_ALIGN_LEFT
      = [LcdOp.draw_char 10 10 0xFFFF 0 72, LcdOp.draw_char 18 10 0xFFFF 0 105] := by
  obtain ⟨n, _, hlist, hall⟩ :=
    draw_text_positions ascii_font 10 10 0xFFFF 0 [72, 105] LCD_ALIGN_LEFT (by decide)
      (by decide)
  have hn : n = 2 := hall (by
    intro k h1 h2
    have hk : k = 1 := by simp at h2; omega
    subst hk
    decide)
  subst hn
  exact hlist.trans (by decide)

/-- C16 (as stated, fails): `drawText(400, 10, fg, bg, "Hi", 2, Left)` with glyph width 8
issues the draw of `H` at `x = 400`, beyond 320, before the position is tested. -/
theorem draw_text_first_char_beyond_edge :
    lcd_draw_text_local ascii_font 400 10 0xFFFF 0 [72, 105] 2 LCD_ALIGN_LEFT
      = [LcdOp.draw_char 400 10 0xFFFF 0 72] ∧ ¬ ((400 : Int) ≤ LCD_WIDTH) := by
  decide

/-- C16 (amended): without `int` overflow, `lcd_draw_text_local` returns, having drawn the
first `n` characters at `x0`, `x0 + gw`, ...; the first character of a non-empty text is
always drawn, every later draw is at a position not beyond 320, and drawing stops before the
first later character whose position exceeds 320.  So when `x0 <= 320` no draw is issued at a
position beyond 320 and the characters drawn are exactly the longest prefix of the text whose
positions do not exceed 320. -/
theorem draw_text_truncates (font : font_t) (x y : Int) (fg bg : Nat) (text : List Nat)
    (align : Nat)
    (hlo : -2147483648 ≤ x - ((text.length * font.glyph_width : Nat) : Int))
    (hhi : x + ((text.length * font.glyph_width : Nat) : Int) < 2147483648) :
    ∃ n, n ≤ text.length ∧ (text ≠ [] → 1 ≤ n) ∧
      lcd_draw_text_local font x y fg bg text text.length align
        = text_draws (text_start x text.length font.glyph_width align) y fg bg
            font.glyph_width text n ∧
      (∀ k : Nat, 1 ≤ k → k < n →
        text_start x text.length font.glyph_width align
          + (k : Int) * (font.glyph_width : Int) ≤ 320) ∧
      (n < text.length →
        text_start x text.length font.glyph_width align
          + (n : Int) * (font.glyph_width : Int) > 320) ∧
      (text_start x text.length font.glyph_width align ≤ 320 →
        ∀ k : Nat, k < n →
          text_start x text.length font.glyph_width align
            + (k : Int) * (font.glyph_width : Int) ≤ 320) := by
  obtain ⟨n, hn, hne, hlist, hpos, hstop⟩ :=
    lcd_draw_text_local_spec font x y fg bg text align hlo hhi
  refine ⟨n, hn, hne, hlist, hpos, hstop, fun h0 k hk => ?_⟩
  rcases Nat.eq_zero_or_pos k with h | h
  · subst h
    simpa using h0
  · exact hpos k h hk

/-- C16 (amended) at the text "Hello" drawn from `x = 310` with glyph width 8: two characters
are drawn, at 310 and 318. -/
theorem draw_text_truncates_witness :
    lcd_draw_text_local ascii_font 310 10 0xFFFF 0 [72, 101, 108, 108, 111] 5 LCD_ALIGN_LEFT
      = [LcdOp.draw_char 310 10 0xFFFF 0 72, LcdOp.draw_char 318 10 0xFFFF 0 101] := by
  obtain ⟨n, hn, hne, hlist, hpos, hstop, _⟩ :=
    draw_text_truncates ascii_font 310 10 0xFFFF 0 [72, 101, 108, 108, 111] LCD_ALIGN_LEFT
      (by decide) (by decide)
  have h2 : n = 2 := by
    have h1 : 1 ≤ n := hne (by decide)
    simp only [List.length_cons, List.length_nil] at hn
    by_contra hne2
    rcases Nat.lt_or_ge n 2 with hlt | hge
    · have hn1 : n = 1 := by omega
      subst hn1
      have := hstop (by decide)
      revert this
      decide
    · have := hpos 2 (by decide) (by omega)
      revert this
      decide
  subst h2
  exact hlist.trans (by decide)

/-- C17: when `f_open` fails for a non-empty file name (and the two allocations of the
fallback succeed), `lcd_load_font` returns the result code of `f_open` and leaves the default
font installed: 255 glyphs from code 0, the bundled bitmap and metrics, no file name, and the
byte width, scratch buffer and terminal size derived from the default metrics. -/
theorem load_font_open_failure (D : DefaultFont) (io : FontIO) (heap : FontHeap) (ch : Nat)
    (name : List Nat) (font : font_t) (hopen : io.open_res ≠ FR_OK)
    (hg : heap.default_glyphs = true) (hc : heap.colorbuf = true)
    (hw1 : 1 ≤ D.DEFAULT_GLYPH_WIDTH) (hw2 : D.DEFAULT_GLYPH_WIDTH < 256)
    (hh1 : 1 ≤ D.DEFAULT_GLYPH_HEIGHT) (hh2 : D.DEFAULT_GLYPH_HEIGHT < 256) :
    lcd_load_font D io heap (some (ch :: name)) font = some (io.open_res, default_font D) := by
  simp only [lcd_load_font, if_pos hopen, font_fallback,
    lcd_load_font_null_ok D heap _ hg hc hw1 hw2 hh1 hh2, Option.map_some']

/-- C17 at a missing file (`FR_NO_FILE`). -/
theorem load_font_open_failure_witness :
    lcd_load_font sample_default io_no_file heap_ok (some [102, 46, 102])
        (default_font sample_default)
      = some (4, default_font sample_default) :=
  load_font_open_failure sample_default io_no_file heap_ok 102 [46, 102] _ (by decide)
    rfl rfl (by decide) (by decide) (by decide) (by decide)

/-- C18 (fails on the code): when the open, the seek and the five header reads succeed and the
read of the glyph bitmap fails, `lcd_load_font` returns the code of that read without falling
back: the font keeps the header of the file (96 glyphs from code 32, 6x10), has no scratch
buffer, and keeps the byte width and terminal size of the font loaded before. -/
theorem load_font_bitmap_read_failure :
    lcd_load_font sample_default io_bitmap_error heap_ok (some [102, 46, 102])
        (default_font sample_default)
      = some (1,
          { glyphs := some [], glyph_count := 96, glyph_width := 6, glyph_height := 10,
            bytewidth := 1, term_width := 40, term_height := 40, glyph_colorbuf := none,
            firstcode := 32, font_file := none }) ∧
    ({ glyphs := some [], glyph_count := 96, glyph_width := 6, glyph_height := 10,
        bytewidth := 1, term_width := 40, term_height := 40, glyph_colorbuf := none,
        firstcode := 32, font_file := none } : font_t) ≠ default_font sample_default := by
  decide

/-- C19 (as stated, fails): on the RAM and PSRAM backends `point` tests the coordinates and
writes nothing outside the panel, while `fill(color, x, y, 1, 1)` normalises them:
at `(-1, 0)` the fill writes cell 0, at `(0, 330)` it writes cell `10 * 320`. -/
theorem point_outside_panel_differs_from_fill :
    lcd_ram_point id 7 (-1) 0 = [] ∧
    lcd_ram_fill 321 id 7 (-1) 0 1 1 = some [⟨0, 7⟩] ∧
    lcd_ram_point id 7 0 330 = [] ∧
    lcd_ram_fill 321 id 7 0 330 1 1 = some [⟨3200, 7⟩] ∧
    (lcd_psram_point 7 (-1) 0).flatMap PsramWrite.cells = [] ∧
    (lcd_psram_fill 321 (fun _ => 0) 7 (-1) 0 1 1).map
      (fun ws => ws.flatMap PsramWrite.cells) = some [⟨0, 7⟩] := by
  decide

/-- C19 (amended): on the Direct backend `point(color, x, y)` is `fill(color, x, y, 1, 1)` for
every `x`, `y`; on the RAM and PSRAM backends, for a pixel inside the 320x320 panel `point`
has the same effect on storage as `fill(color, x, y, 1, 1)`, and for every other `x`, `y`
`point` writes nothing. -/
theorem point_matches_unit_fill_in_panel (fuel : Nat) (lcd_to8 tmp : Nat → Nat) (mem : Psram)
    (color : Nat) (x y : Int) (hf : 320 < fuel) :
    lcd_direct_point color x y = lcd_direct_fill color x y 1 1 ∧
    (0 ≤ x → x < 320 → 0 ≤ y → y < 320 →
      lcd_ram_fill fuel lcd_to8 color x y 1 1 = some (lcd_ram_point lcd_to8 color x y) ∧
      ∃ ws, lcd_psram_fill fuel tmp color x y 1 1 = some ws ∧
        ws.flatMap PsramWrite.cells = (lcd_psram_point color x y).flatMap PsramWrite.cells ∧
        applyPsram mem ws = applyPsram mem (lcd_psram_point color x y)) ∧
    (¬ (0 ≤ x ∧ x < 320 ∧ 0 ≤ y ∧ y < 320) →
      lcd_ram_point lcd_to8 color x y = [] ∧
      (lcd_psram_point color x y).flatMap PsramWrite.cells = []) := by
  refine ⟨rfl, ?_, ?_⟩
  · intro hx hx2 hy hy2
    obtain ⟨X, Y, rfl, rfl, hX, hY, hn⟩ := unit_fill_in_panel x y hx hx2 hy hy2
    refine ⟨?_, ?_⟩
    · rw [lcd_ram_fill_panel fuel lcd_to8 color _ _ _ _ X Y 1 1 hn (by omega) (by omega) hf,
        ram_point_in_panel lcd_to8 color X Y hX hY]
    · obtain ⟨ws, hws, hc⟩ := lcd_psram_fill_panel fuel tmp color _ _ _ _ X Y 1 1 hn
        (by omega) (by omega) hf
      refine ⟨ws, hws, ?_, ?_⟩
      · rw [hc, psram_point_in_panel color X Y hX hY]
      · unfold applyPsram
        rw [hc, psram_point_in_panel color X Y hX hY]
  · intro hout
    have hg : ¬ (x ≥ 0 ∧ y ≥ 0 ∧ x < LCD_WIDTH ∧ y < LCD_HEIGHT) := by
      unfold LCD_WIDTH LCD_HEIGHT
      omega
    constructor
    · unfold lcd_ram_point
      rw [if_neg hg]
    · unfold lcd_psram_point
      rw [if_neg hg]
      rfl

/-- C19 (amended) at the pixel (5, 7). -/
theorem point_matches_unit_fill_in_panel_witness :
    lcd_direct_point 0xF800 5 7 = lcd_direct_fill 0xF800 5 7 1 1 ∧
    ((0 : Int) ≤ 5 → (5 : Int) < 320 → (0 : Int) ≤ 7 → (7 : Int) < 320 →
      lcd_ram_fill 321 id 0xF800 5 7 1 1 = some (lcd_ram_point id 0xF800 5 7) ∧
      ∃ ws, lcd_psram_fill 321 (fun _ => 0) 0xF800 5 7 1 1 = some ws ∧
        ws.flatMap PsramWrite.cells = (lcd_psram_point 0xF800 5 7).flatMap PsramWrite.cells ∧
        applyPsram (fun _ => 0) ws = applyPsram (fun _ => 0) (lcd_psram_point 0xF800 5 7)) ∧
    (¬ ((0 : Int) ≤ 5 ∧ (5 : Int) < 320 ∧ (0 : Int) ≤ 7 ∧ (7 : Int) < 320) →
      lcd_ram_point id 0xF800 5 7 = [] ∧
      (lcd_psram_point 0xF800 5 7).flatMap PsramWrite.cells = []) :=
  point_matches_unit_fill_in_panel 321 id (fun _ => 0) (fun _ => 0) 0xF800 5 7 (by decide)

/-- C20: if the RAM framebuffer `F` and the PSRAM frame `P` satisfy `F[k] = lcd_to8[P[k]]` on
the 320x320 frame, then for `y >= 0` and arguments on which the two additions of
`normalize_coords` do not overflow `int`, the same draw, fill or point call returns on both
backends, the cells written by the chunked PSRAM writes are exactly the cells stored by the
RAM loop, in the same order, with `lcd_to8` of the same values, and the relation holds
again afterwards. -/
theorem ram_psram_same_semantics (fuel : Nat) (lcd_to8 pixels tmp : Nat → Nat)
    (F : Framebuffer) (P : Psram) (color : Nat) (x y w h : Int)
    (hrel : FrameRel lcd_to8 F P) (hy : 0 ≤ y)
    (hw : (if x < 0 then (0 : Int) else if x ≥ 320 then 320 else x) + w < 2147483648)
    (hh : y % 320 + h < 2147483648) (hf : 320 < fuel) :
    (∃ rs ps, lcd_ram_draw fuel lcd_to8 pixels x y w h = some rs ∧
      lcd_psram_draw fuel pixels x y w h = some ps ∧
      rs = to8_cells lcd_to8 (ps.flatMap PsramWrite.cells) ∧
      FrameRel lcd_to8 (applyStores F rs) (applyPsram P ps)) ∧
    (∃ rs ps, lcd_ram_fill fuel lcd_to8 color x y w h = some rs ∧
      lcd_psram_fill fuel tmp color x y w h = some ps ∧
      rs = to8_cells lcd_to8 (ps.flatMap PsramWrite.cells) ∧
      FrameRel lcd_to8 (applyStores F rs) (applyPsram P ps)) ∧
    (lcd_ram_point lcd_to8 color x y
        = to8_cells lcd_to8 ((lcd_psram_point color x y).flatMap PsramWrite.cells) ∧
      FrameRel lcd_to8 (applyStores F (lcd_ram_point lcd_to8 color x y))
        (applyPsram P (lcd_psram_point color x y))) := by
  obtain ⟨X, Y, W, H, hn, hXW, hYH⟩ := normalize_coords_panel x y w h hy hw hh
  refine ⟨?_, ?_, ?_⟩
  · obtain ⟨ps, hps, hc⟩ := lcd_psram_draw_panel fuel pixels x y w h X Y W H hn hXW hYH hf
    have hr := lcd_ram_draw_panel fuel lcd_to8 pixels x y w h X Y W H hn hXW hYH hf
    have he : rect_cells (fun q => lcd_to8 (pixels q)) X W H Y 0
        = to8_cells lcd_to8 (ps.flatMap PsramWrite.cells) := by
      rw [hc, to8_cells_rect]
    refine ⟨_, ps, hr, hps, he, ?_⟩
    rw [he]
    exact frameRel_apply lcd_to8 _ F P hrel
  · obtain ⟨ps, hps, hc⟩ := lcd_psram_fill_panel fuel tmp color x y w h X Y W H hn hXW hYH hf
    have hr := lcd_ram_fill_panel fuel lcd_to8 color x y w h X Y W H hn hXW hYH hf
    have he : rect_cells (fun _ => lcd_to8 color) X W H Y 0
        = to8_cells lcd_to8 (ps.flatMap PsramWrite.cells) := by
      rw [hc, to8_cells_rect]
    refine ⟨_, ps, hr, hps, he, ?_⟩
    rw [he]
    exact frameRel_apply lcd_to8 _ F P hrel
  · have hp := point_cells lcd_to8 color x y
    refine ⟨hp, ?_⟩
    rw [hp]
    exact frameRel_apply lcd_to8 _ F P hrel

/-- C20 at a 25x3 rectangle reaching beyond the right edge. -/
theorem ram_psram_same_semantics_witness :
    (∃ rs ps, lcd_ram_draw 321 (fun v => v % 256) (fun k => k) 315 5 25 3 = some rs ∧
      lcd_psram_draw 321 (fun k => k) 315 5 25 3 = some ps ∧
      rs = to8_cells (fun v => v % 256) (ps.flatMap PsramWrite.cells) ∧
      FrameRel (fun v => v % 256) (applyStores (fun _ => 0) rs)
        (applyPsram (fun _ => 0) ps)) ∧
    (∃ rs ps, lcd_ram_fill 321 (fun v => v % 256) 0xF800 315 5 25 3 = some rs ∧
      lcd_psram_fill 321 (fun _ => 0) 0xF800 315 5 25 3 = some ps ∧
      rs = to8_cells (fun v => v % 256) (ps.flatMap PsramWrite.cells) ∧
      FrameRel (fun v => v % 256) (applyStores (fun _ => 0) rs)
        (applyPsram (fun _ => 0) ps)) ∧
    (lcd_ram_point (fun v => v % 256) 0xF800 315 5
        = to8_cells (fun v => v % 256)
            ((lcd_psram_point 0xF800 315 5).flatMap PsramWrite.cells) ∧
      FrameRel (fun v => v % 256)
        (applyStores (fun _ => 0) (lcd_ram_point (fun v => v % 256) 0xF800 315 5))
        (applyPsram (fun _ => 0) (lcd_psram_point 0xF800 315 5))) :=
  ram_psram_same_semantics 321 (fun v => v % 256) (fun k => k) (fun _ => 0) (fun _ => 0)
    (fun _ => 0) 0xF800 315 5 25 3 (fun _ _ => rfl) (by decide) (by decide) (by decide)
    (by decide)

/-- C21: `lcd_buffer_blit_local` streams the stored frame.  With PSRAM active the controller
receives one region-set for (0,0)-(319,319), then for `k = 0..102399` in this order the high
byte and the low byte of the 16-bit cell `k` of the PSRAM frame (byte address `2k`), then the
wait for idle and the release of chip select; the `psram_read` calls are, for
`c = 0..10239`, twenty bytes from byte address `20c` into `lcd_tmpbuf` from entry
`10c mod 640` on, so the reads cover the cells `0..102399` once each, in order, and each stays
inside the 640 entries of `lcd_tmpbuf`.  With RAM active pixel `k` is
`lcd_to16[framebuffer[k]]` and nothing is read from PSRAM.  With Direct active nothing is sent
and nothing is read. -/
theorem blit_streams_stored_frame (lcd_to16 : Nat → Nat) (P : Psram) (fb : Framebuffer)
    (tmp : Nat → Nat) :
    (lcd_buffer_blit_local lcd_to16 LCD_BUFFERMODE_PSRAM P fb tmp).hw
        = lcd_set_region 0 0 319 319
          ++ (List.range (320 * 320)).flatMap
              (fun k => [HwEvent.put (P k / 256 % 256), HwEvent.put (P k % 256)])
          ++ [HwEvent.waitIdle, HwEvent.setDcCs false true] ∧
    (lcd_buffer_blit_local lcd_to16 LCD_BUFFERMODE_PSRAM P fb tmp).reads
        = (List.range 10240).map (fun c => PsramRead.mk (20 * c) (10 * c % 640) 20) ∧
    (∀ r ∈ (lcd_buffer_blit_local lcd_to16 LCD_BUFFERMODE_PSRAM P fb tmp).reads,
        r.dst + r.count / 2 ≤ LCD_TMPBUF_SIZE) ∧
    (lcd_buffer_blit_local lcd_to16 LCD_BUFFERMODE_RAM P fb tmp).hw
        = lcd_set_region 0 0 319 319
          ++ (List.range (320 * 320)).flatMap
              (fun k => [HwEvent.put (lcd_to16 (fb k) / 256 % 256),
                HwEvent.put (lcd_to16 (fb k) % 256)])
          ++ [HwEvent.waitIdle, HwEvent.setDcCs false true] ∧
    (lcd_buffer_blit_local lcd_to16 LCD_BUFFERMODE_RAM P fb tmp).reads = [] ∧
    (lcd_buffer_blit_local lcd_to16 LCD_BUFFERMODE_DIRECT P fb tmp).hw = [] ∧
    (lcd_buffer_blit_local lcd_to16 LCD_BUFFERMODE_DIRECT P fb tmp).reads = [] := by
  obtain ⟨h1, h2⟩ := blit_psram_frame P tmp
  have hreads : (lcd_buffer_blit_local lcd_to16 LCD_BUFFERMODE_PSRAM P fb tmp).reads
      = (List.range 10240).map (fun c => PsramRead.mk (20 * c) (10 * c % 640) 20) :=
    h2
  refine ⟨?_, hreads, ?_, ?_, rfl, rfl, rfl⟩
  · rw [blit_hw_eq _ _ _ _ _ (by decide), if_pos rfl, h1]
    refine congrArg (fun l => lcd_set_region 0 0 319 319 ++ l
      ++ [HwEvent.waitIdle, HwEvent.setDcCs false true]) ?_
    exact flatMap_congr_range _ _ _ (fun k _ => write16_puts_bytes (P k))
  · intro r hr
    rw [hreads, List.mem_map] at hr
    obtain ⟨c, _, rfl⟩ := hr
    show 10 * c % 640 + 20 / 2 ≤ 640
    omega
  · rw [blit_hw_eq _ _ _ _ _ (by decide), if_neg (by decide), if_pos rfl]
    refine congrArg (fun l => lcd_set_region 0 0 319 319 ++ l
      ++ [HwEvent.waitIdle, HwEvent.setDcCs false true]) ?_
    exact flatMap_congr_range _ _ _ (fun k _ => write16_puts_bytes (lcd_to16 (fb k)))

/-- C22: `clear` resets the whole area to colour 0 on each backend.  `lcd_psram_clear` returns
(given fuel for its 320 rows) and afterwards each of the 320*320 cells of the PSRAM frame
holds 0; after `lcd_ram_clear` each of the 320*320 framebuffer cells holds 0;
`lcd_direct_clear` sends one region-set for (0,0)-(319,479) and then 320*480 times the bytes
0x00, 0x00, before it waits for idle and releases chip select. -/
theorem clear_resets_to_zero (fuel : Nat) (hf : 320 < fuel) (tmp : Nat → Nat) (mem : Psram)
    (fb : Framebuffer) :
    (∃ ws, lcd_psram_clear fuel tmp = some ws ∧
      ∀ k, k < 320 * 320 → applyPsram mem ws k = 0) ∧
    (∀ k, k < 320 * 320 → applyStores fb lcd_ram_clear k = 0) ∧
    lcd_direct_clear = lcd_set_region 0 0 319 479
      ++ (List.replicate (320 * 480) [HwEvent.put 0, HwEvent.put 0]).flatten
      ++ [HwEvent.waitIdle, HwEvent.setDcCs false true] := by
  refine ⟨?_, ?_, ?_⟩
  · obtain ⟨ws, hws, hcells⟩ := lcd_psram_fill_panel fuel tmp 0 0 0 LCD_WIDTH LCD_HEIGHT
      0 0 320 320 (by decide) (by omega) (by omega) hf
    refine ⟨ws, hws, fun k hk => ?_⟩
    unfold applyPsram
    rw [hcells]
    exact applyStores_const _ mem k 0 (rect_cells_value 0 0 320 320 0 0)
      (mem_rect_cells_rows 0 320 0 0 k (by omega) (by omega))
  · intro k hk
    apply applyStores_const
    · intro t ht
      simp only [lcd_ram_clear, List.mem_map] at ht
      obtain ⟨_, _, rfl⟩ := ht
      rfl
    · simp only [lcd_ram_clear, List.mem_map, List.mem_range]
      refine ⟨k, ?_, rfl⟩
      have : toU32 (imul LCD_WIDTH LCD_HEIGHT) = 102400 := by decide
      omega
  · unfold lcd_direct_clear
    have := lcd_direct_fill_inside 0 0 0 LCD_WIDTH MEM_HEIGHT (by omega) (by omega) (by omega)
      (by decide) (by decide) (by decide) (by decide)
    rw [this]
    rfl

/-- C22 with fuel 321, a PSRAM frame and a framebuffer full of 7. -/
theorem clear_resets_to_zero_witness :
    (∃ ws, lcd_psram_clear 321 (fun _ => 5) = some ws ∧
      ∀ k, k < 320 * 320 → applyPsram (fun _ => 7) ws k = 0) ∧
    (∀ k, k < 320 * 320 → applyStores (fun _ => 7) lcd_ram_clear k = 0) ∧
    lcd_direct_clear = lcd_set_region 0 0 319 479
      ++ (List.replicate (320 * 480) [HwEvent.put 0, HwEvent.put 0]).flatten
      ++ [HwEvent.waitIdle, HwEvent.setDcCs false true] :=
  clear_resets_to_zero 321 (by decide) (fun _ => 5) (fun _ => 7) (fun _ => 7)

/-- C23 (fails on the code): `lines %= MEM_HEIGHT` keeps the sign of a negative argument, so
`lcd_scroll_local(-1)` sends 0x37, 0xFF, 0xFF, the offset 65535, which is not below 480,
while `lcd_scroll_local(479)`, whose argument differs from -1 by `MEM_HEIGHT`, sends
0x37, 0x01, 0xDF, the offset 479: the two calls program different register values. -/
theorem scroll_negative_not_wrapped :
    lcd_scroll_local (-1) = lcd_write_cmd [0x37, 0xFF, 0xFF] 3 ∧
    lcd_scroll_local 479 = lcd_write_cmd [0x37, 0x01, 0xDF] 3 ∧
    (479 : Int) - (-1) = MEM_HEIGHT ∧
    lcd_scroll_local (-1) ≠ lcd_scroll_local 479 := by
  decide

/-- C24 (fails on the code): `lcd_off` sends the same single command byte 0x29 as `lcd_on`,
so the four power commands are not pairwise distinct; `lcd_blank` sends 0x10 and `lcd_unblank`
0x11, each as one command byte without parameters. -/
theorem lcd_off_sends_display_on :
    lcd_off = lcd_on ∧
    lcd_on = [HwEvent.waitIdle, HwEvent.setDcCs false false, HwEvent.put 0x29,
      HwEvent.waitIdle, HwEvent.setDcCs false true] ∧
    lcd_blank = [HwEvent.waitIdle, HwEvent.setDcCs false false, HwEvent.put 0x10,
      HwEvent.waitIdle, HwEvent.setDcCs false true] ∧
    lcd_unblank = [HwEvent.waitIdle, HwEvent.setDcCs false false, HwEvent.put 0x11,
      HwEvent.waitIdle, HwEvent.setDcCs false true] := by
  decide

/-- C25: for `x1, y1, x2, y2` in `0..65535`, whatever the lines were before,
`lcd_set_region` hands to the transport, in this order, 0x2A with the command/data line low,
then `x1>>8`, `x1&0xFF`, `x2>>8`, `x2&0xFF` with it high, then 0x2B with it low, then
`y1>>8`, `y1&0xFF`, `y2>>8`, `y2&0xFF` with it high, then 0x2C with it low and no data; it
ends with the command/data line high and chip select low (asserted); and each byte pair
decodes big-endian to its coordinate. -/
theorem set_region_bytes (x1 y1 x2 y2 : Nat) (hx1 : x1 < 65536) (hy1 : y1 < 65536)
    (hx2 : x2 < 65536) (hy2 : y2 < 65536) (dc cs : Bool) :
    sent_bytes dc (lcd_set_region (x1 : Int) (y1 : Int) (x2 : Int) (y2 : Int))
      = [(false, 0x2A), (true, x1 / 256), (true, x1 % 256), (true, x2 / 256), (true, x2 % 256),
         (false, 0x2B), (true, y1 / 256), (true, y1 % 256), (true, y2 / 256), (true, y2 % 256),
         (false, 0x2C)] ∧
    final_lines (dc, cs) (lcd_set_region (x1 : Int) (y1 : Int) (x2 : Int) (y2 : Int))
      = (true, false) ∧
    x1 / 256 < 256 ∧ x2 / 256 < 256 ∧ y1 / 256 < 256 ∧ y2 / 256 < 256 ∧
    256 * (x1 / 256) + x1 % 256 = x1 ∧ 256 * (x2 / 256) + x2 % 256 = x2 ∧
    256 * (y1 / 256) + y1 % 256 = y1 ∧ 256 * (y2 / 256) + y2 % 256 = y2 := by
  rw [lcd_set_region_trace x1 y1 x2 y2 hx1 hy1 hx2 hy2]
  refine ⟨rfl, rfl, ?_, ?_, ?_, ?_, ?_, ?_, ?_, ?_⟩ <;> omega

/-- C25 at the region (10,20)-(299,319), starting with both lines high. -/
theorem set_region_bytes_witness :
    sent_bytes true (lcd_set_region ((10 : Nat) : Int) ((20 : Nat) : Int) ((299 : Nat) : Int)
        ((319 : Nat) : Int))
      = [(false, 0x2A), (true, 10 / 256), (true, 10 % 256), (true, 299 / 256),
         (true, 299 % 256),
         (false, 0x2B), (true, 20 / 256), (true, 20 % 256), (true, 319 / 256),
         (true, 319 % 256),
         (false, 0x2C)] ∧
    final_lines (true, true) (lcd_set_region ((10 : Nat) : Int) ((20 : Nat) : Int)
        ((299 : Nat) : Int) ((319 : Nat) : Int))
      = (true, false) ∧
    10 / 256 < 256 ∧ 299 / 256 < 256 ∧ 20 / 256 < 256 ∧ 319 / 256 < 256 ∧
    256 * (10 / 256) + 10 % 256 = 10 ∧ 256 * (299 / 256) + 299 % 256 = 299 ∧
    256 * (20 / 256) + 20 % 256 = 20 ∧ 256 * (319 / 256) + 319 % 256 = 319 :=
  set_region_bytes 10 20 299 319 (by decide) (by decide) (by decide) (by decide) true true

/-- C26: in the controller output of every sequence of local display operations (draw, fill,
point, clear, blit, scroll, `lcd_blank`, `lcd_unblank`, `lcd_on`, `lcd_off`), each run in any
state the selector can reach after `lcd_init` and with any memory contents, started with the
transport idle, no operation calls through a null pointer and the command/data and
chip-select lines are never set while a byte handed to the transport has not been followed by
a wait for transport idle; the sequence ends with the transport idle. -/
theorem lines_change_only_when_idle (lcd_to16 : Nat → Nat) (steps : List DisplayStep)
    (hs : ∀ st ∈ steps, Reachable st.s) :
    ∃ t, run_steps lcd_to16 steps = some t ∧ lines_safe false t = some false :=
  run_steps_safe lcd_to16 steps (fun st hst => reachable_consistent (hs st hst))

/-- C26 on a run that mixes the Direct and the RAM backend. -/
theorem lines_change_only_when_idle_witness :
    ∃ t, run_steps id sample_steps = some t ∧ lines_safe false t = some false :=
  lines_change_only_when_idle id sample_steps (by
    intro st hst
    simp only [sample_steps, List.mem_cons, List.mem_singleton, List.not_mem_nil,
      or_false] at hst
    rcases hst with rfl | rfl | rfl | rfl | rfl | rfl
    · exact Reachable.init
    · exact Reachable.init
    · exact Reachable.init
    · exact ram_state_reachable
    · exact ram_state_reachable
    · exact ram_state_reachable)

/-- C27: with fuel for its seventeen tests of `*cmd`, `lcd_initcmd(st7789_init_seq)` ends at
offset 99, the last byte of the 100-byte table, which is the terminating 0, without reading
outside the table, and its output is the sixteen commands of `init_commands` in order
(opcodes E0, E1, C0, C1, C5, 36, 3A, B0, B1, 21, B4, B6, B7, E9, F7, 11), each sent by
`lcd_write_cmd` with its parameter bytes and followed by `sleep_ms` of 5 times its delay byte,
which is 0 for every entry. -/
theorem initcmd_walks_table (k : Nat) :
    lcd_initcmd st7789_init_seq (k + 17) 0
      = some (init_commands.flatMap
          (fun c => lcd_write_cmd c c.length ++ [HwEvent.sleepMs (5 * 0)]), 99) ∧
    st7789_init_seq.length = 100 ∧ st7789_init_seq[99]? = some 0 ∧
    init_commands.length = 16 ∧
    init_commands.map (fun c => c.headD 0)
      = [0xE0, 0xE1, 0xC0, 0xC1, 0xC5, 0x36, 0x3A, 0xB0, 0xB1, 0x21, 0xB4, 0xB6, 0xB7, 0xE9,
          0xF7, 0x11] :=
  ⟨rfl, rfl, rfl, rfl, rfl⟩

/-- C28 (fails on the code): in the reachable state with the RAM backend active,
`lcd_buffer_enable_local(LCD_BUFFERMODE_RAM)` returns false whatever the allocator would
answer, although the mode after the call is RAM; re-selecting the active Direct mode returns
true. -/
theorem enable_ram_twice_reports_failure :
    Reachable ram_state ∧
    (∀ malloc : Option Framebuffer,
      (lcd_buffer_enable_local LCD_BUFFERMODE_RAM malloc ram_state).1 = false ∧
      (lcd_buffer_enable_local LCD_BUFFERMODE_RAM malloc ram_state).2.framebuffer_mode
        = LCD_BUFFERMODE_RAM) ∧
    (lcd_buffer_enable_local LCD_BUFFERMODE_DIRECT none lcd_init_state).1 = true :=
  ⟨ram_state_reachable, fun _ => ⟨rfl, rfl⟩, rfl⟩

/-- C29 (as stated, fails): with every read successful and every allocation granted, a header
with glyph width 0 makes `lcd_load_font` divide by zero, and a header with glyph width 1
leaves `term_width` = 64 in the 8-bit field, not `floor(320/1)` = 320. -/
theorem load_font_degenerate_width :
    lcd_load_font sample_default (io_header 0 10) heap_ok (some [102])
        (default_font sample_default) = none ∧
    (lcd_load_font sample_default (io_header 1 10) heap_ok (some [102])
        (default_font sample_default)).map (fun r => r.2.term_width) = some 64 ∧
    320 / 1 ≠ 64 := by
  decide

/-- C29 (amended): for a non-empty file name, when the open, the seek, the five header reads
and the read of the glyph bitmap succeed, the glyph buffer is allocated, and the glyph width
`gw` and height `gh` of the header are in `2..255`, `lcd_load_font` returns `FR_OK` without
dividing by zero and stores `gw`, `gh`, `bytewidth = ceil(gw/8)`,
`term_width = floor(320/gw)` and `term_height = floor(320/gh)` in its 8-bit fields, so
`term_width*gw <= 320 < (term_width+1)*gw` and likewise for the height. -/
theorem load_font_metrics (D : DefaultFont) (io : FontIO) (heap : FontHeap) (ch : Nat)
    (name : List Nat) (font : font_t)
    (hopen : io.open_res = FR_OK) (hseek : io.seek_res = FR_OK) (hcount : io.count_res = FR_OK)
    (hfirst : io.first_res = FR_OK) (hwidth : io.width_res = FR_OK)
    (hheight : io.height_res = FR_OK) (hsize : io.size_res = FR_OK)
    (hglyphs : io.glyphs_res = FR_OK) (halloc : heap.file_glyphs = true)
    (hw2 : 2 ≤ io.width_byte) (hw256 : io.width_byte < 256)
    (hh2 : 2 ≤ io.height_byte) (hh256 : io.height_byte < 256) :
    ∃ f, lcd_load_font D io heap (some (ch :: name)) font = some (FR_OK, f) ∧
      f.glyph_width = io.width_byte ∧ f.glyph_height = io.height_byte ∧
      f.bytewidth = (io.width_byte + 7) / 8 ∧
      f.term_width = 320 / io.width_byte ∧ f.term_height = 320 / io.height_byte ∧
      f.term_width * io.width_byte ≤ 320 ∧ 320 < (f.term_width + 1) * io.width_byte ∧
      f.term_height * io.height_byte ≤ 320 ∧ 320 < (f.term_height + 1) * io.height_byte := by
  obtain ⟨w1, w2, w3, w4⟩ := font_metrics_exact io.width_byte hw2 hw256
  obtain ⟨_, g2, g3, g4⟩ := font_metrics_exact io.height_byte hh2 hh256
  have mw : io.width_byte % 256 = io.width_byte := Nat.mod_eq_of_lt hw256
  have mh : io.height_byte % 256 = io.height_byte := Nat.mod_eq_of_lt hh256
  have hz : ¬ (io.width_byte = 0 ∨ io.height_byte = 0) := by omega
  simp only [lcd_load_font, hopen, hseek, hcount, hfirst, hwidth, hheight, hsize, hglyphs,
    halloc, ne_eq, not_true_eq_false, ↓reduceIte, Bool.true_eq_false, false_and, font_derive,
    mw, mh, hz, Option.map_some']
  refine ⟨_, rfl, rfl, rfl, ?_, ?_, ?_, ?_, ?_, ?_, ?_⟩
  · exact w1
  · exact w2
  · exact g2
  · show 320 / io.width_byte % 256 * io.width_byte ≤ 320
    rw [w2]; exact w3
  · show 320 < (320 / io.width_byte % 256 + 1) * io.width_byte
    rw [w2]; exact w4
  · show 320 / io.height_byte % 256 * io.height_byte ≤ 320
    rw [g2]; exact g3
  · show 320 < (320 / io.height_byte % 256 + 1) * io.height_byte
    rw [g2]; exact g4

/-- C29 (amended) at a 6x10 font. -/
theorem load_font_metrics_witness :
    ∃ f, lcd_load_font sample_default (io_header 6 10) heap_ok (some [102, 46, 102])
        (default_font sample_default) = some (FR_OK, f) ∧
      f.glyph_width = (io_header 6 10).width_byte ∧
      f.glyph_height = (io_header 6 10).height_byte ∧
      f.bytewidth = ((io_header 6 10).width_byte + 7) / 8 ∧
      f.term_width = 320 / (io_header 6 10).width_byte ∧
      f.term_height = 320 / (io_header 6 10).height_byte ∧
      f.term_width * (io_header 6 10).width_byte ≤ 320 ∧
      320 < (f.term_width + 1) * (io_header 6 10).width_byte ∧
      f.term_height * (io_header 6 10).height_byte ≤ 320 ∧
      320 < (f.term_height + 1) * (io_header 6 10).height_byte :=
  load_font_metrics sample_default (io_header 6 10) heap_ok 102 [46, 102]
    (default_font sample_default) rfl rfl rfl rfl rfl rfl rfl rfl rfl (by decide) (by decide)
    (by decide) (by decide)

/-- C30 (fails on the code): for every size `N` of `ansi.stack`, the bytes `ESC [` followed
by `N + 1` digits make `stdio_picocalc_out_chars`, started in the initial state, store the
terminating 0 at index `N`, one past the last entry of the buffer: after `N` parameter bytes
`stack_size` is `N` and the state is still `AnsiBracket`, and the next byte runs
`ansi.stack[ansi.stack_size] = 0` before the bound is tested. -/
theorem ansi_stack_terminator_overrun (N : Nat) :
    Store.mk N 0 ∈ (stdio_picocalc_out_chars N ansi_init (long_escape (N + 1))).2 := by
  have h := bracket_overrun N N 0 (by omega)
  simpa [long_escape, stdio_picocalc_out_chars, out_chars_step, ansi_init] using h

end PicoLcd
